import Mathlib

/-!
# A shallow embedding of the TCP network stack core

The definitions below follow the C++ sources function by function:

* `wrapping_integers.cc` : `Wrap32.wrap`, `Wrap32.unwrap`
* `byte_stream.cc`       : `ByteStream` with its `Writer` and `Reader` views
* `reassembler.cc`       : `Reassembler.insert`, `Reassembler.bytes_pending`
* `tcp_sender.cc`        : `TCPSender.push`, `maybe_send`, `receive`, `tick`

Unsigned 64-bit and 32-bit machine arithmetic is written out with explicit
reductions modulo `2 ^ 64` and `2 ^ 32`.  A `std::string` is a `List Char`.
-/

namespace TcpStack

/-! ## Machine arithmetic -/

/-- Addition of two `uint64_t` values. -/
def add64 (a b : Nat) : Nat := (a + b) % 2 ^ 64

/-- Subtraction of two `uint64_t` values (wraps around below zero). -/
def sub64 (a b : Nat) : Nat := (a + (2 ^ 64 - b % 2 ^ 64)) % 2 ^ 64

/-- A 32-bit sequence number; `raw_value_` is a `uint32_t`. -/
structure Wrap32 where
  raw_value_ : Nat
deriving DecidableEq, Repr

namespace Wrap32

/-- Modelled from the spec: `Wrap32::operator+( uint32_t n )` is declared in
`wrapping_integers.hh`, which is not among the sources; the spec gives it as
addition modulo `2 ^ 32`.  A 64-bit argument is first converted to `uint32_t`. -/
def add (w : Wrap32) (n : Nat) : Wrap32 :=
  ⟨(w.raw_value_ + n % 2 ^ 32) % 2 ^ 32⟩

/-- `Wrap32::wrap( uint64_t n, Wrap32 zero_point )`: `return zero_point + n;` -/
def wrap (n : Nat) (zero_point : Wrap32) : Wrap32 :=
  zero_point.add n

/-- `Wrap32::unwrap( Wrap32 zero_point, uint64_t checkpoint )`. -/
def unwrap (self zero_point : Wrap32) (checkpoint : Nat) : Nat :=
  -- uint64_t ref = 1UL << 32;
  let ref : Nat := 2 ^ 32
  -- uint32_t seqno = raw_value_ - zero_point.raw_value_;
  let seqno : Nat := (self.raw_value_ + 2 ^ 32 - zero_point.raw_value_) % 2 ^ 32
  -- uint64_t low = seqno + ( checkpoint - ( checkpoint % ref ) );
  let low0 : Nat := (seqno + (checkpoint - checkpoint % ref)) % 2 ^ 64
  -- if ( low >= checkpoint ) low -= ref;
  let low : Nat := if low0 ≥ checkpoint then (low0 + 2 ^ 64 - ref) % 2 ^ 64 else low0
  -- uint64_t diff = max( low, checkpoint ) - min( low, checkpoint );
  let diff : Nat := max low checkpoint - min low checkpoint
  -- if ( diff <= ( ref >> 1 ) ) return low;  return low + ref;
  if diff ≤ ref / 2 then low else (low + ref) % 2 ^ 64

end Wrap32

/-! ## byte_stream.cc -/

/-- The state shared by the `Writer` and `Reader` views; the members are
those initialised by the constructor in `byte_stream.cc`. -/
structure ByteStream where
  capacity_ : Nat
  bytes_pushed_ : Nat
  bytes_popped_ : Nat
  closed_ : Bool
  error_ : Bool
  buffer_ : List Char
deriving DecidableEq, Repr

namespace ByteStream

/-- `ByteStream::ByteStream( uint64_t capacity )`. -/
def new (capacity : Nat) : ByteStream :=
  { capacity_ := capacity, bytes_pushed_ := 0, bytes_popped_ := 0,
    closed_ := false, error_ := false, buffer_ := [] }

/-- `Writer::available_capacity`: `capacity_ - buffer_.size()`. -/
def available_capacity (s : ByteStream) : Nat :=
  sub64 s.capacity_ s.buffer_.length

/-- `Writer::push( string data )`. -/
def push (s : ByteStream) (data : List Char) : ByteStream :=
  if !s.closed_ && !s.error_ then
    let free_space := s.available_capacity
    let to_push := min free_space data.length
    { s with buffer_ := s.buffer_ ++ data.take to_push,
             bytes_pushed_ := add64 s.bytes_pushed_ to_push }
  else s

/-- `Writer::close`. -/
def close (s : ByteStream) : ByteStream := { s with closed_ := true }

/-- `Writer::set_error`. -/
def set_error (s : ByteStream) : ByteStream := { s with error_ := true }

/-- `Writer::is_closed`. -/
def is_closed (s : ByteStream) : Bool := s.closed_

/-- `Writer::bytes_pushed`. -/
def bytes_pushed (s : ByteStream) : Nat := s.bytes_pushed_

/-- `Reader::peek`: a view of the whole buffer. -/
def peek (s : ByteStream) : List Char := s.buffer_

/-- `Reader::is_finished`: `closed_ && buffer_.empty()`. -/
def is_finished (s : ByteStream) : Bool := s.closed_ && s.buffer_.isEmpty

/-- `Reader::has_error`. -/
def has_error (s : ByteStream) : Bool := s.error_

/-- `Reader::pop( uint64_t len )`. -/
def pop (s : ByteStream) (len : Nat) : ByteStream :=
  let to_pop := min len s.buffer_.length
  { s with buffer_ := s.buffer_.drop to_pop,
           bytes_popped_ := add64 s.bytes_popped_ to_pop }

/-- `Reader::bytes_buffered`. -/
def bytes_buffered (s : ByteStream) : Nat := s.buffer_.length

/-- `Reader::bytes_popped`. -/
def bytes_popped (s : ByteStream) : Nat := s.bytes_popped_

end ByteStream

/-! ## reassembler.cc -/

/-- Modelled from the spec: the class declaration `reassembler.hh` is not
among the sources.  The members are the ones `Reassembler::insert` reads and
writes in `reassembler.cc`: the byte slots, their filled markers, the count
of pending bytes and the end-of-stream flag. -/
structure Reassembler where
  bytes : List Char
  filled : List Bool
  pending : Nat
  last : Bool
deriving DecidableEq, Repr

/-- `std::vector::resize( n, v )`: truncate, or pad at the end with `v`. -/
def vresize {α : Type} (l : List α) (n : Nat) (v : α) : List α :=
  l.take n ++ List.replicate (n - l.length) v

namespace Reassembler

/-- Modelled from the spec: the member initialisers are in `reassembler.hh`,
which is not among the sources.  A freshly constructed reassembler has empty
vectors, nothing pending and has not seen the end of the stream. -/
def new : Reassembler :=
  { bytes := [], filled := [], pending := 0, last := false }

/-- `Reassembler::bytes_pending`. -/
def bytes_pending (r : Reassembler) : Nat := r.pending

/-- The resizing step of `insert`:
`if ( bytes.size() <= needed_space ) { new_size = min( needed_space, available_capacity );
bytes.resize( new_size ); filled.resize( new_size, false ); }` -/
def grow (r : Reassembler) (needed_space available : Nat) : Reassembler :=
  if r.bytes.length ≤ needed_space then
    let new_size := min needed_space available
    { r with bytes := vresize r.bytes new_size (Char.ofNat 0),
             filled := vresize r.filled new_size false }
  else r

/-- The copy loop of `insert`,
`for ( size_t i = 0; i < data.size(); i++ )`, entered at index `i` with the
bytes `data[i..]` still to be visited. -/
def storeLoop (internal_first : Nat) : Nat → List Char → Reassembler → Reassembler
  | _, [], r => r
  | i, c :: rest, r =>
    -- if ( internal_first + i >= bytes.size() ) continue;
    if add64 internal_first i ≥ r.bytes.length then
      storeLoop internal_first (i + 1) rest r
    else
      storeLoop internal_first (i + 1) rest
        { r with
          -- if ( !filled[internal_first + i] ) pending++;
          pending := if r.filled.getD (add64 internal_first i) false then r.pending
                     else add64 r.pending 1
          -- bytes[internal_first + i] = data[i];
          bytes := r.bytes.set (add64 internal_first i) c
          -- filled[internal_first + i] = true;
          filled := r.filled.set (add64 internal_first i) true }

/-- The collecting loop of `insert`,
`for ( size_t i = 0; filled[i] && i < bytes.size(); i++ ) package += bytes[i];`
The source reads `filled[i]` before it tests `i < bytes.size()`; the value
read at `i = bytes.size()` does not influence the result, the loop stops
there in either case. -/
def package : List Bool → List Char → List Char
  | true :: fs, b :: bs => b :: package fs bs
  | _, _ => []

/-- `Reassembler::insert( first_index, data, is_last_substring, output )`.
The writer is passed by reference in the source; here the updated writer is
returned together with the updated reassembler. -/
def insert (r : Reassembler) (first_index : Nat) (data : List Char)
    (is_last_substring : Bool) (output : ByteStream) : Reassembler × ByteStream :=
  let out_of_bounds := add64 output.bytes_pushed output.available_capacity
  let internal_first := sub64 first_index output.bytes_pushed
  if data.length = 0 ∨ first_index ≥ out_of_bounds then
    let r1 : Reassembler := if is_last_substring then { r with last := true } else r
    if r1.last && r1.bytes_pending == 0 then (r1, output.close) else (r1, output)
  else
    let needed_space := add64 internal_first data.length
    let r2 := r.grow needed_space output.available_capacity
    let r3 := storeLoop internal_first 0 data r2
    let pkg := package r3.filled r3.bytes
    let output1 := output.push pkg
    let r4 : Reassembler :=
      { r3 with filled := r3.filled.drop pkg.length,
                bytes := r3.bytes.drop pkg.length,
                pending := sub64 r3.pending pkg.length }
    let r5 : Reassembler := if is_last_substring then { r4 with last := true } else r4
    if r5.last && r5.bytes_pending == 0 then (r5, output1.close) else (r5, output1)

end Reassembler

/-- One call made by the owner of a reassembler and its stream: an
`insert` on the writer side or a `pop` on the reader side. -/
inductive StreamOp where
  | insert (first_index : Nat) (data : List Char) (is_last_substring : Bool)
  | pop (len : Nat)
deriving DecidableEq, Repr

/-- Perform one call on a reassembler and the stream it writes to. -/
def StreamOp.step (st : Reassembler × ByteStream) : StreamOp → Reassembler × ByteStream
  | .insert first_index data is_last => st.1.insert first_index data is_last st.2
  | .pop len => (st.1, st.2.pop len)

/-- Perform a sequence of calls, first to last. -/
def runOps (st : Reassembler × ByteStream) (ops : List StreamOp) : Reassembler × ByteStream :=
  ops.foldl StreamOp.step st

/-- The bytes appended to the stream buffer by one call: what the buffer
holds after the call beyond what it held before.  Only `Writer::push`
appends, so for an `insert` these are the bytes the reassembler pushed. -/
def StreamOp.pushedBy (st : Reassembler × ByteStream) : StreamOp → List Char
  | .insert first_index data is_last =>
      (st.1.insert first_index data is_last st.2).2.buffer_.drop st.2.buffer_.length
  | .pop _ => []

/-- All bytes pushed to the writer during a sequence of calls, in order. -/
def delivered (st : Reassembler × ByteStream) : List StreamOp → List Char
  | [] => []
  | op :: ops => op.pushedBy st ++ delivered (op.step st) ops

/-- A fragment agrees with the string `s`:
`data = s[first_index .. first_index + |data|)`. -/
def StreamOp.consistentWith (s : List Char) : StreamOp → Prop
  | .insert first_index data _ => data = (s.drop first_index).take data.length ∧
      first_index + data.length ≤ s.length
  | .pop _ => True

/-! ## tcp_sender.cc -/

/-- Modelled from the spec: `TCPConfig::MAX_PAYLOAD_SIZE` is defined in
`tcp_config.hh`, which is not among the sources; the spec gives 1452. -/
def MAX_PAYLOAD_SIZE : Nat := 1452

/-- Modelled from the spec: `TCPSenderMessage` is declared in
`tcp_sender_message.hh`, which is not among the sources; the spec gives
`{ seqno, SYN, payload, FIN }`. -/
structure TCPSenderMessage where
  seqno : Wrap32
  SYN : Bool
  payload : List Char
  FIN : Bool
deriving DecidableEq, Repr

/-- Modelled from the spec: `TCPSenderMessage::sequence_length` is declared in
`tcp_sender_message.hh`, which is not among the sources; the spec gives
`SYN + payload.len + FIN`. -/
def TCPSenderMessage.sequence_length (m : TCPSenderMessage) : Nat :=
  m.SYN.toNat + m.payload.length + m.FIN.toNat

/-- Modelled from the spec: `TCPReceiverMessage` is declared in
`tcp_receiver_message.hh`, which is not among the sources; the spec gives
`{ ackno: optional<Wrap32>, window_size: uint16 }`. -/
structure TCPReceiverMessage where
  ackno : Option Wrap32
  window_size : Nat
deriving DecidableEq, Repr

/-- The members of `TCPSender` (`tcp_sender.hh`).  In the source
`outstanding_segs` is the queue `maybe_send` reads from and `sent_segs` holds
the segments not yet acknowledged; `isn_` is advanced by `push` and serves as
the next sequence number, `zero_point` keeps the initial one. -/
structure TCPSender where
  isn_ : Wrap32
  initial_RTO_ms_ : Nat
  outstanding_segs : List TCPSenderMessage
  sent_segs : List TCPSenderMessage
  window : Nat
  retransmissions : Nat
  elapsed_time : Nat
  syn_set : Bool
  alarm : Nat
  zero_point : Wrap32
  fin_sent : Bool
deriving DecidableEq, Repr

namespace TCPSender

/-- `TCPSender::TCPSender( initial_RTO_ms, fixed_isn )` with a fixed ISN,
together with the default member initialisers of `tcp_sender.hh`. -/
def new (initial_RTO_ms : Nat) (fixed_isn : Wrap32) : TCPSender :=
  { isn_ := fixed_isn, initial_RTO_ms_ := initial_RTO_ms,
    outstanding_segs := [], sent_segs := [], window := 1, retransmissions := 0,
    elapsed_time := 0, syn_set := false, alarm := initial_RTO_ms,
    zero_point := fixed_isn, fin_sent := false }

/-- `TCPSender::sequence_numbers_in_flight`: the sum of `sequence_length`
over `sent_segs`, accumulated in a `uint64_t`. -/
def sequence_numbers_in_flight (s : TCPSender) : Nat :=
  s.sent_segs.foldl (fun in_flight msg => add64 in_flight msg.sequence_length) 0

/-- `TCPSender::consecutive_retransmissions`. -/
def consecutive_retransmissions (s : TCPSender) : Nat := s.retransmissions

/-- `TCPSender::maybe_send`. -/
def maybe_send (s : TCPSender) : Option TCPSenderMessage × TCPSender :=
  match s.outstanding_segs with
  | [] => (none, s)
  | msg :: rest => (some msg, { s with outstanding_segs := rest })

/-- The `while ( actual_window && !fin_sent )` loop of `push`.  The first
argument bounds the number of iterations; `none` is returned when the bound
is used up before the loop ends. -/
def pushLoop : Nat → TCPSender → ByteStream → Nat → Option (TCPSender × ByteStream)
  | 0, _, _, _ => none
  | fuel + 1, s, outbound_stream, actual_window =>
    if actual_window ≠ 0 ∧ s.fin_sent = false then
      -- seg_size = min( actual_window, min( MAX_PAYLOAD_SIZE, peek().length() ) )
      let seg_size := min actual_window (min MAX_PAYLOAD_SIZE outbound_stream.peek.length)
      -- if ( !syn_set ) { msg.SYN = true; syn_set = true; }
      let syn := !s.syn_set
      -- msg.payload = Buffer( std::string { peek().data(), seg_size } );
      let payload := outbound_stream.peek.take seg_size
      -- outbound_stream.pop( seg_size );  actual_window -= seg_size;
      let outbound_stream1 := outbound_stream.pop seg_size
      let actual_window1 := sub64 actual_window seg_size
      -- if ( outbound_stream.is_finished() && actual_window ) { msg.FIN = true; fin_sent = true; }
      let fin := outbound_stream1.is_finished && actual_window1 != 0
      let msg : TCPSenderMessage := { seqno := s.isn_, SYN := syn, payload := payload, FIN := fin }
      let s1 : TCPSender := { s with syn_set := true, fin_sent := s.fin_sent || fin }
      -- if ( msg.sequence_length() == 0 ) break;
      if msg.sequence_length = 0 then some (s1, outbound_stream1)
      else
        pushLoop fuel
          { s1 with outstanding_segs := s1.outstanding_segs ++ [msg],
                    sent_segs := s1.sent_segs ++ [msg],
                    isn_ := s1.isn_.add msg.sequence_length }
          outbound_stream1 actual_window1
    else some (s, outbound_stream)

/-- `TCPSender::push( Reader& outbound_stream )`.  Every iteration of the
loop that does not leave it sends SYN for the first time, sends FIN, or takes
at least one unit off `actual_window`, so `actual_window + 2` bounds the
number of iterations. -/
def push (s : TCPSender) (outbound_stream : ByteStream) : Option (TCPSender × ByteStream) :=
  let actual_window := if s.window = 0 then 1 else s.window
  let actual_window :=
    if actual_window ≥ s.sequence_numbers_in_flight
    then sub64 actual_window s.sequence_numbers_in_flight else 0
  pushLoop (actual_window + 2) s outbound_stream actual_window

/-- `TCPSender::send_empty_message`. -/
def send_empty_message (s : TCPSender) : TCPSenderMessage :=
  { seqno := s.isn_, SYN := false, payload := [], FIN := false }

/-- The `while` loop of `receive`: drop acknowledged segments from the front
of `sent_segs`; the flag records whether any segment was dropped. -/
def receiveLoop (zero_point : Wrap32) (ack : Nat) :
    List TCPSenderMessage → Bool → List TCPSenderMessage × Bool
  | [], acked => ([], acked)
  | seg :: rest, acked =>
    if add64 (seg.seqno.unwrap zero_point 0) seg.sequence_length ≤ ack then
      receiveLoop zero_point ack rest true
    else (seg :: rest, acked)

/-- `TCPSender::receive( const TCPReceiverMessage& msg )`. -/
def receive (s : TCPSender) (msg : TCPReceiverMessage) : TCPSender :=
  let s := { s with window := msg.window_size }
  match msg.ackno with
  | none => s
  | some ackno =>
    if ackno.unwrap s.zero_point 0 > s.isn_.unwrap s.zero_point 0 then s
    else
      let res := receiveLoop s.zero_point (ackno.unwrap s.zero_point 0) s.sent_segs false
      let s := { s with sent_segs := res.1 }
      if res.2 then
        { s with elapsed_time := 0, retransmissions := 0, alarm := s.initial_RTO_ms_,
                 outstanding_segs := s.outstanding_segs.tail }
      else s

/-- `TCPSender::tick( uint64_t ms_since_last_tick )`. -/
def tick (s : TCPSender) (ms_since_last_tick : Nat) : TCPSender :=
  let s := { s with elapsed_time := add64 s.elapsed_time ms_since_last_tick }
  if s.elapsed_time ≥ s.alarm then
    let s := if s.window > 0 then
        { s with retransmissions := add64 s.retransmissions 1,
                 alarm := (s.alarm * 2) % 2 ^ 64 }
      else s
    let s := match s.sent_segs with
      | [] => s
      | front :: _ => { s with outstanding_segs := s.outstanding_segs ++ [front] }
    { s with elapsed_time := 0 }
  else s

end TCPSender

/-! ## Invariants used in the proofs -/

/-- The shape kept by every call on a reassembler and its stream: the
64-bit quantities are in range, the buffer fits the capacity, the two
vectors of the reassembler have the same size, which does not exceed the
available capacity, and `pending` counts the filled slots. -/
def StreamInv (st : Reassembler × ByteStream) : Prop :=
  st.2.capacity_ < 2 ^ 64 ∧ st.2.buffer_.length ≤ st.2.capacity_ ∧
  st.2.bytes_pushed_ < 2 ^ 64 ∧
  st.1.filled.length = st.1.bytes.length ∧
  st.1.bytes.length ≤ st.2.available_capacity ∧
  st.1.pending = st.1.filled.count true

/-- The filled slots agree with the string `s`, slot `j` of the vectors
standing for the absolute index `k + j`.  A slot whose absolute index
is not a 64-bit number is left unconstrained. -/
def Agree (s : List Char) : Nat → List Bool → List Char → Prop
  | _, [], _ => True
  | _, _ :: _, [] => True
  | k, f :: fs, b :: bs => (f = true → k < 2 ^ 64 → s[k]? = some b) ∧ Agree s (k + 1) fs bs

/-- The invariant behind the correctness of the delivered bytes, for a
state reached while `pre` has been pushed to the writer so far: the
structural invariant holds, the stream has no error, `pre` is an initial
piece of `s`, and while the writer is open `bytes_pushed` is the length of
`pre` and the filled slots agree with `s`. -/
def DeliveredInv (s : List Char) (st : Reassembler × ByteStream) (pre : List Char) : Prop :=
  StreamInv st ∧ st.2.error_ = false ∧ pre = s.take pre.length ∧
  (st.2.closed_ = false →
    st.2.bytes_pushed_ = pre.length ∧ Agree s st.2.bytes_pushed_ st.1.filled st.1.bytes)


/-! ## Sequences of calls on a byte stream -/

/-- One call on a byte stream, through its `Writer` or its `Reader` view. -/
inductive ByteStreamOp where
  | push (data : List Char)
  | close
  | set_error
  | pop (len : Nat)
deriving DecidableEq, Repr

/-- Perform one call on a byte stream. -/
def ByteStreamOp.step (s : ByteStream) : ByteStreamOp → ByteStream
  | .push data => s.push data
  | .close => s.close
  | .set_error => s.set_error
  | .pop len => s.pop len

/-- Perform a sequence of calls, first to last. -/
def ByteStream.run (s : ByteStream) (ops : List ByteStreamOp) : ByteStream :=
  ops.foldl ByteStreamOp.step s

/-- The number of bytes a call offers to the stream. -/
def ByteStreamOp.offered : ByteStreamOp → Nat
  | .push data => data.length
  | _ => 0

/-- The number of bytes offered to the stream by a sequence of calls. -/
def ByteStreamOp.totalOffered (ops : List ByteStreamOp) : Nat :=
  (ops.map ByteStreamOp.offered).sum

/-! ## tcp_receiver.cc -/

/-- The members of `TCPReceiver` (`tcp_receiver.hh`): `isn` records whether a
SYN has been received, `zero` is the sequence number of that SYN. -/
structure TCPReceiver where
  isn : Bool
  zero : Wrap32
deriving DecidableEq, Repr

/-- Conversion of an unsigned 64-bit value to `int` (32 bits, two's
complement), as done by `static_cast<int>`. -/
def toInt32 (x : Nat) : Int :=
  if x % 2 ^ 32 < 2 ^ 31 then ((x % 2 ^ 32 : Nat) : Int)
  else ((x % 2 ^ 32 : Nat) : Int) - 2 ^ 32

/-- Conversion of an `int` to `uint16_t`. -/
def toUInt16 (x : Int) : Nat := (x % 2 ^ 16).toNat

/-- `UINT16_MAX`. -/
def UINT16_MAX : Int := 65535

namespace TCPReceiver

/-- A newly constructed receiver (`isn = false`, `zero = Wrap32( 0 )`). -/
def new : TCPReceiver := { isn := false, zero := ⟨0⟩ }

/-- The stream index that `receive` passes to `Reassembler::insert`, for a
receiver that has its `isn` flag set (after the SYN test of `receive`). -/
def first_index (rcv : TCPReceiver) (message : TCPSenderMessage)
    (inbound_stream : ByteStream) : Nat :=
  -- uint64_t checkpoint = inbound_stream.bytes_pushed() - isn;
  let checkpoint := sub64 inbound_stream.bytes_pushed rcv.isn.toNat
  -- uint64_t abs_seqno = message.seqno.unwrap( zero, checkpoint );
  let abs_seqno := message.seqno.unwrap rcv.zero checkpoint
  -- if ( !message.SYN ) abs_seqno -= 1;
  if !message.SYN then sub64 abs_seqno 1 else abs_seqno

/-- `TCPReceiver::receive( message, reassembler, inbound_stream )`.  The
reassembler and the stream are passed by reference in the source; here
their updated values are returned together with the updated receiver. -/
def receive (rcv : TCPReceiver) (message : TCPSenderMessage) (reassembler : Reassembler)
    (inbound_stream : ByteStream) : TCPReceiver × Reassembler × ByteStream :=
  -- if ( message.SYN ) { isn = true; zero = message.seqno; }
  let rcv1 : TCPReceiver :=
    if message.SYN then { isn := true, zero := message.seqno } else rcv
  -- if ( !isn ) return;
  if !rcv1.isn then (rcv1, reassembler, inbound_stream)
  else
    let res := reassembler.insert (rcv1.first_index message inbound_stream)
      message.payload message.FIN inbound_stream
    (rcv1, res.1, res.2)

/-- `TCPReceiver::send( inbound_stream )`. -/
def send (rcv : TCPReceiver) (inbound_stream : ByteStream) : TCPReceiverMessage :=
  { -- if ( isn ) ackno = zero + isn + bytes_pushed() + is_closed();
    ackno :=
      if rcv.isn then
        some (((rcv.zero.add rcv.isn.toNat).add inbound_stream.bytes_pushed).add
          inbound_stream.is_closed.toNat)
      else none
    -- window_size = min( static_cast<int>( available_capacity() ), UINT16_MAX );
    window_size := toUInt16 (min (toInt32 inbound_stream.available_capacity) UINT16_MAX) }

/-- Receive a sequence of segments, first to last, on the same reassembler
and stream. -/
def receiveAll (st : TCPReceiver × Reassembler × ByteStream)
    (msgs : List TCPSenderMessage) : TCPReceiver × Reassembler × ByteStream :=
  msgs.foldl (fun st m => st.1.receive m st.2.1 st.2.2) st

end TCPReceiver

/-- The sequence number of the most recent SYN segment in a sequence of
segments, if there is one. -/
def lastSyn : List TCPSenderMessage → Option Wrap32
  | [] => none
  | m :: rest =>
    match lastSyn rest with
    | some z => some z
    | none => if m.SYN then some m.seqno else none

/-! ## network_interface.cc -/

/-- An Ethernet address (six bytes), as a number. -/
abbrev EthernetAddress := Nat

/-- Modelled from the spec: `ETHERNET_BROADCAST` is defined in
`ethernet_header.hh`, which is not among the sources; the spec gives
`FF:FF:FF:FF:FF:FF`. -/
def ETHERNET_BROADCAST : EthernetAddress := 0xFFFFFFFFFFFF

/-- Modelled from the spec: `EthernetHeader::TYPE_IPv4` (`ethernet_header.hh`,
not among the sources); the spec gives 0x0800. -/
def TYPE_IPv4 : Nat := 0x0800

/-- Modelled from the spec: `EthernetHeader::TYPE_ARP` (`ethernet_header.hh`,
not among the sources); the spec gives 0x0806. -/
def TYPE_ARP : Nat := 0x0806

/-- Modelled from the spec: `ARPMessage::OPCODE_REQUEST` (`arp_message.hh`,
not among the sources); the spec gives 1. -/
def OPCODE_REQUEST : Nat := 1

/-- Modelled from the spec: `ARPMessage::OPCODE_REPLY` (`arp_message.hh`,
not among the sources); the spec gives 2. -/
def OPCODE_REPLY : Nat := 2

/-- Modelled from the spec: `EthernetHeader` (`ethernet_header.hh`, not among
the sources); the spec gives `{dst, src, type}`. -/
structure EthernetHeader where
  dst : EthernetAddress
  src : EthernetAddress
  type : Nat
deriving DecidableEq, Repr

/-- Modelled from the spec: `EthernetFrame` (`ethernet_frame.hh`, not among
the sources): a header and the serialized payload, a list of bytes. -/
structure EthernetFrame where
  header : EthernetHeader
  payload : List Nat
deriving DecidableEq, Repr

/-- Modelled from the spec: `ARPMessage` (`arp_message.hh`, not among the
sources), with the members that `make_arp_msg` and `recv_frame` use. -/
structure ARPMessage where
  opcode : Nat
  sender_ethernet_address : EthernetAddress
  sender_ip_address : Nat
  target_ethernet_address : EthernetAddress
  target_ip_address : Nat
deriving DecidableEq, Repr

/-- Modelled from the spec: the IPv4 header (`ipv4_header.hh`, not among the
sources), with the members the core reads and writes. -/
structure IPv4Header where
  src : Nat
  dst : Nat
  ttl : Nat
  cksum : Nat
deriving DecidableEq, Repr

/-- Modelled from the spec: `InternetDatagram` (`ipv4_datagram.hh`, not among
the sources): a header and a payload. -/
structure InternetDatagram where
  header : IPv4Header
  payload : List Nat
deriving DecidableEq, Repr

/-- Modelled from the spec: serialization and parsing of datagrams and ARP
messages are external collaborators (`serialize`, `parse`), not among the
sources; they are parameters of the model. -/
structure Wire where
  serialize_dgram : InternetDatagram → List Nat
  parse_dgram : List Nat → Option InternetDatagram
  serialize_arp : ARPMessage → List Nat
  parse_arp : List Nat → Option ARPMessage

/-- A simple encoding used to run the model on concrete inputs: the
members of a message, one list element each. -/
def Wire.plain : Wire where
  serialize_dgram d := [d.header.src, d.header.dst, d.header.ttl, d.header.cksum] ++ d.payload
  parse_dgram
    | src :: dst :: ttl :: cksum :: payload =>
        some { header := { src := src, dst := dst, ttl := ttl, cksum := cksum },
               payload := payload }
    | _ => none
  serialize_arp m := [m.opcode, m.sender_ethernet_address, m.sender_ip_address,
    m.target_ethernet_address, m.target_ip_address]
  parse_arp
    | [opcode, seth, sip, teth, tip] =>
        some { opcode := opcode, sender_ethernet_address := seth, sender_ip_address := sip,
               target_ethernet_address := teth, target_ip_address := tip }
    | _ => none

/-- `NetworkInterface::EthernetInfo`. -/
structure EthernetInfo where
  eth : EthernetAddress
  time : Nat
deriving DecidableEq, Repr

/-- The members of `NetworkInterface` (`network_interface.hh`).  An
`unordered_map` is a function from keys to optional values; an `Address`
is its `ipv4_numeric()` value. -/
structure NetworkInterface where
  ethernet_address_ : EthernetAddress
  ip_address_ : Nat
  ethernet_map : Nat → Option EthernetInfo
  arp_timeout : Nat → Option Nat
  arp_waiting : Nat → Option (List EthernetFrame)
  send_queue : List EthernetFrame

namespace NetworkInterface

/-- `RESEND_THRESHOLD`. -/
def RESEND_THRESHOLD : Nat := 5000

/-- `MAPPING_THRESHOLD`. -/
def MAPPING_THRESHOLD : Nat := 30000

/-- `NetworkInterface::NetworkInterface( ethernet_address, ip_address )`. -/
def new (ethernet_address : EthernetAddress) (ip_address : Nat) : NetworkInterface :=
  { ethernet_address_ := ethernet_address, ip_address_ := ip_address,
    ethernet_map := fun _ => none, arp_timeout := fun _ => none,
    arp_waiting := fun _ => none, send_queue := [] }

/-- `NetworkInterface::make_eth_frame`. -/
def make_eth_frame (src dst : EthernetAddress) (type : Nat) (payload : List Nat) :
    EthernetFrame :=
  { header := { dst := dst, src := src, type := type }, payload := payload }

/-- `NetworkInterface::make_arp_msg`; without a target Ethernet address the
member keeps its default value, the all-zero address. -/
def make_arp_msg (target_ip sender_ip : Nat) (target_eth : Option EthernetAddress)
    (sender_eth : EthernetAddress) (opcode : Nat) : ARPMessage :=
  { opcode := opcode, sender_ethernet_address := sender_eth, sender_ip_address := sender_ip,
    target_ethernet_address := target_eth.getD 0, target_ip_address := target_ip }

/-- The frames waiting for the Ethernet address of `ip`
(`arp_waiting[ip]`, empty when there is no entry). -/
def waiting (ni : NetworkInterface) (ip : Nat) : List EthernetFrame :=
  (ni.arp_waiting ip).getD []

/-- `NetworkInterface::send_datagram( dgram, next_hop )`. -/
def send_datagram (wire : Wire) (ni : NetworkInterface) (dgram : InternetDatagram)
    (next_hop : Nat) : NetworkInterface :=
  let request_frame := make_eth_frame ni.ethernet_address_ ETHERNET_BROADCAST TYPE_IPv4
    (wire.serialize_dgram dgram)
  -- if ( ethernet_map.find( next_hop_numeric ) != ethernet_map.end() )
  match ni.ethernet_map next_hop with
  | some info =>
    { ni with send_queue := (ni.send_queue ++
        [make_eth_frame ni.ethernet_address_ info.eth TYPE_IPv4 (wire.serialize_dgram dgram)]) }
  | none =>
    let arp_msg := make_arp_msg next_hop ni.ip_address_ none ni.ethernet_address_
      OPCODE_REQUEST
    let eth_frame := make_eth_frame ni.ethernet_address_ ETHERNET_BROADCAST TYPE_ARP
      (wire.serialize_arp arp_msg)
    -- if ( arp_timeout.find( next_hop_numeric ) == arp_timeout.end() )
    let ni1 : NetworkInterface :=
      match ni.arp_timeout next_hop with
      | none => { ni with send_queue := ni.send_queue ++ [eth_frame],
                          arp_timeout := Function.update ni.arp_timeout next_hop (some 0) }
      | some _ => ni
    -- arp_waiting[next_hop_numeric].push_back( request_frame );
    { ni1 with arp_waiting :=
        (Function.update ni1.arp_waiting next_hop
          (some (ni1.waiting next_hop ++ [request_frame]))) }

/-- `NetworkInterface::recv_frame( frame )`: the returned datagram, if any,
and the updated interface. -/
def recv_frame (wire : Wire) (ni : NetworkInterface) (frame : EthernetFrame) :
    Option InternetDatagram × NetworkInterface :=
  if frame.header.dst ≠ ETHERNET_BROADCAST ∧ frame.header.dst ≠ ni.ethernet_address_ then
    (none, ni)
  else
    -- if ( type == TYPE_IPv4 && parse( ipv4_datagram, frame.payload ) ) return datagram
    match (if frame.header.type = TYPE_IPv4 then wire.parse_dgram frame.payload else none) with
    | some ipv4_datagram => (some ipv4_datagram, ni)
    | none =>
      -- if ( type != TYPE_ARP || !parse( arp_message, frame.payload ) ) return nullopt
      match (if frame.header.type = TYPE_ARP then wire.parse_arp frame.payload else none) with
      | none => (none, ni)
      | some arp_message =>
        -- ethernet_map[sender_ip] = { sender_ethernet_address, 0 }
        let ni1 : NetworkInterface :=
          { ni with ethernet_map := (Function.update ni.ethernet_map
              arp_message.sender_ip_address
              (some { eth := arp_message.sender_ethernet_address, time := 0 })) }
        -- if ( arp_waiting.count( sender_ip ) ) { re-address, queue and clear }
        let ni2 : NetworkInterface :=
          match ni1.arp_waiting arp_message.sender_ip_address with
          | some queued =>
            { ni1 with
              send_queue := (ni1.send_queue ++ queued.map (fun queued_frame =>
                { queued_frame with
                  header := { queued_frame.header with
                              dst := arp_message.sender_ethernet_address } }))
              arp_waiting := (Function.update ni1.arp_waiting
                arp_message.sender_ip_address (some [])) }
          | none => ni1
        -- if ( target_ip == our ip && opcode == OPCODE_REQUEST ) { queue an ARP reply }
        let ni3 : NetworkInterface :=
          if arp_message.target_ip_address = ni.ip_address_ ∧
              arp_message.opcode = OPCODE_REQUEST then
            let arp_reply_message := make_arp_msg arp_message.sender_ip_address
              arp_message.target_ip_address (some frame.header.src) ni.ethernet_address_
              OPCODE_REPLY
            let arp_reply_frame := make_eth_frame ni.ethernet_address_
              arp_message.sender_ethernet_address TYPE_ARP
              (wire.serialize_arp arp_reply_message)
            { ni2 with send_queue := ni2.send_queue ++ [arp_reply_frame],
                       arp_timeout := (Function.update ni2.arp_timeout
                         arp_message.target_ip_address (some 0)) }
          else ni2
        (none, ni3)

/-- `NetworkInterface::tick( ms_since_last_tick )`.  The two loops visit
every entry of a map once and treat it independently of the others, so the
order of the visits does not matter. -/
def tick (ni : NetworkInterface) (ms_since_last_tick : Nat) : NetworkInterface :=
  { ni with
    ethernet_map := fun ip =>
      match ni.ethernet_map ip with
      | some info =>
        if add64 info.time ms_since_last_tick ≤ MAPPING_THRESHOLD then
          some { eth := info.eth, time := add64 info.time ms_since_last_tick }
        else none
      | none => none
    arp_waiting := fun ip =>
      match ni.ethernet_map ip with
      | some info =>
        if add64 info.time ms_since_last_tick ≤ MAPPING_THRESHOLD then ni.arp_waiting ip
        else none
      | none => ni.arp_waiting ip
    arp_timeout := fun ip =>
      match ni.arp_timeout ip with
      | some t =>
        if add64 t ms_since_last_tick ≤ RESEND_THRESHOLD then
          some (add64 t ms_since_last_tick)
        else none
      | none => none }

/-- `NetworkInterface::maybe_send`. -/
def maybe_send (ni : NetworkInterface) : Option EthernetFrame × NetworkInterface :=
  match ni.send_queue with
  | [] => (none, ni)
  | frame :: rest => (some frame, { ni with send_queue := rest })

end NetworkInterface

/-- The relation between the members of a byte stream of capacity `C` to
which at most `n` bytes have been offered: the buffer fits the capacity
and the counters account for it without wrapping. -/
def CounterInv (C n : Nat) (s : ByteStream) : Prop :=
  s.capacity_ = C ∧ s.buffer_.length ≤ C ∧
  s.bytes_pushed_ = s.bytes_popped_ + s.buffer_.length ∧ s.bytes_pushed_ ≤ n

/-! ## reassembler.cc: the reads of the collecting loop -/

namespace Reassembler

/-- The vectors as they are when the collecting loop of `insert` starts,
for a fragment that is not rejected: after the resize and the copy loop. -/
def stored (r : Reassembler) (first_index : Nat) (data : List Char) (output : ByteStream) :
    Reassembler :=
  let internal_first := sub64 first_index output.bytes_pushed
  let needed_space := add64 internal_first data.length
  storeLoop internal_first 0 data (r.grow needed_space output.available_capacity)

/-- The indices `i` at which the collecting loop
`for ( size_t i = 0; filled[i] && i < bytes.size(); i++ )` evaluates
`filled[i]`, entered at index `i` with the markers `filled[i..]` ahead and
`size = bytes.size()`.  The condition reads `filled[i]` first, so an index is
recorded also when no marker is left, which is a read at
`i = filled.size()`; nothing is known about the value read there and the
list ends with that index. -/
def scanReads (size : Nat) : List Bool → Nat → List Nat
  | [], i => [i]
  | false :: _, i => [i]
  | true :: fs, i => if i < size then i :: scanReads size fs (i + 1) else [i]

/-- The indices at which the copy loop of `insert` accesses `filled` and
`bytes`, entered at index `i` with `data[i..]` still to be visited: the
index `internal_first + i` whenever the test
`internal_first + i >= bytes.size()` fails.  The copy loop does not change
the size of the vectors. -/
def storeAccesses (internal_first size : Nat) : Nat → List Char → List Nat
  | _, [] => []
  | i, _ :: rest =>
    if add64 internal_first i ≥ size then storeAccesses internal_first size (i + 1) rest
    else add64 internal_first i :: storeAccesses internal_first size (i + 1) rest

end Reassembler

/-! ## router.cc -/

/-- Modelled from the spec: `RouteInfo` is declared in `router.hh`, which is
not among the sources; `add_route` builds it as
`{ route_prefix, prefix_length, next_hop, interface_num }`.  An `Address` is
its `ipv4_numeric()` value. -/
structure RouteInfo where
  route_prefix : Nat
  prefix_length : Nat
  next_hop : Option Nat
  interface_num : Nat
deriving DecidableEq, Repr

/-- Modelled from the spec: `compare_routes` is declared in `router.hh`,
which is not among the sources.  The spec keeps the table "sorted by
`prefix_len` descending", and `add_route` says it sorts "based on
prefix_length in descending order": a route comes before another when its
prefix is longer. -/
def compare_routes (a b : RouteInfo) : Bool :=
  decide (a.prefix_length > b.prefix_length)

/-- A call `interface( interface_num ).send_datagram( datagram, next_hop )`
made by the router. -/
structure SendCall where
  interface_num : Nat
  datagram : InternetDatagram
  next_hop : Nat
deriving DecidableEq, Repr

/-- Modelled from the spec: `AsyncNetworkInterface` is not among the sources;
it wraps a `NetworkInterface` and queues the datagrams received on it, and
`maybe_receive` takes the front of that queue.  The router reaches the
wrapped interface only through `send_datagram`; those calls are recorded as
`SendCall`s, so only the queue is kept here. -/
structure AsyncNetworkInterface where
  datagrams_in : List InternetDatagram
deriving DecidableEq, Repr

/-- Modelled from the spec: `AsyncNetworkInterface::maybe_receive`, the
front of the queue of received datagrams, which is removed. -/
def AsyncNetworkInterface.maybe_receive (a : AsyncNetworkInterface) :
    Option InternetDatagram × AsyncNetworkInterface :=
  match a.datagrams_in with
  | [] => (none, a)
  | datagram :: rest => (some datagram, { a with datagrams_in := rest })

/-- Modelled from the spec: the members of `Router` (`router.hh`, not among
the sources) that `router.cc` uses: the interfaces and the routing table. -/
structure Router where
  interfaces_ : List AsyncNetworkInterface
  routing_table : List RouteInfo
deriving DecidableEq, Repr

namespace Router

/-- Modelled from the spec: `IPv4Header::compute_checksum` belongs to
`ipv4_header.hh`, which is not among the sources; it stores the checksum of
the header in `cksum`.  The checksum function is a parameter. -/
def compute_checksum (checksum : IPv4Header → Nat) (header : IPv4Header) : IPv4Header :=
  { header with cksum := checksum header }

/-- `Router::process_datagram( datagram, route_info )`: the `send_datagram`
call it makes.  `ttl` is a `uint8_t`. -/
def process_datagram (checksum : IPv4Header → Nat) (datagram : InternetDatagram)
    (route_info : RouteInfo) : SendCall :=
  -- datagram.header.ttl--;  datagram.header.compute_checksum();
  let datagram : InternetDatagram :=
    { datagram with
      header := compute_checksum checksum
        { datagram.header with ttl := (datagram.header.ttl + 255) % 256 } }
  match route_info.next_hop with
  | some next_hop =>
    { interface_num := route_info.interface_num, datagram := datagram, next_hop := next_hop }
  | none =>
    { interface_num := route_info.interface_num, datagram := datagram,
      next_hop := datagram.header.dst }

/-- `Router::is_matching_prefix( datagram, route_info )`.  The mask is a
`uint32_t`; the shift `32 - prefix_length` is defined in the source for
`prefix_length` from 1 to 32. -/
def is_matching_prefix (datagram : InternetDatagram) (route_info : RouteInfo) : Bool :=
  if route_info.prefix_length = 0 then true
  else
    let mask := (0xFFFFFFFF <<< (32 - route_info.prefix_length)) % 2 ^ 32
    decide (datagram.header.dst &&& mask = route_info.route_prefix)

/-- `Router::add_route( route_prefix, prefix_length, next_hop, interface_num )`.
The call `std::sort( begin, end, compare_routes )` is the parameter `sort`:
the standard library fixes that its result is a permutation of the table
ordered by the comparison, not which one when routes compare equal. -/
def add_route (sort : List RouteInfo → List RouteInfo) (r : Router)
    ( route_prefix prefix_length : Nat) (next_hop : Option Nat) (interface_num : Nat) : Router :=
  let route_info : RouteInfo :=
    { route_prefix := route_prefix, prefix_length := prefix_length, next_hop := next_hop,
      interface_num := interface_num }
  { r with routing_table := sort (r.routing_table ++ [route_info]) }

/-- A sequence of `add_route` calls, first to last, each with the members of
one element of `routes` as its arguments. -/
def add_routes (sort : List RouteInfo → List RouteInfo) (r : Router)
    (routes : List RouteInfo) : Router :=
  routes.foldl (fun r route_info => r.add_route sort route_info.route_prefix
    route_info.prefix_length route_info.next_hop route_info.interface_num) r

/-- A sorting function with which the model can be run: insertion sort by
descending prefix length. -/
def insertion_sort (l : List RouteInfo) : List RouteInfo :=
  l.insertionSort (fun a b => a.prefix_length ≥ b.prefix_length)

/-- The loop over the routing table in `Router::route`, for one received
datagram: the `send_datagram` calls made, in order.  The loop is left at the
first matching route, whether the datagram is forwarded or not. -/
def routeLoop (checksum : IPv4Header → Nat) :
    List RouteInfo → InternetDatagram → List SendCall
  | [], _ => []
  | route_info :: rest, datagram =>
    if is_matching_prefix datagram route_info then
      if datagram.header.ttl > 1 then [process_datagram checksum datagram route_info]
      else []
    else routeLoop checksum rest datagram

/-- The loop `while ( auto maybe_datagram = interface.maybe_receive() )` of
`Router::route` on one interface: the `send_datagram` calls made, and the
interface when the loop ends.  The first argument bounds the number of
iterations. -/
def drain (checksum : IPv4Header → Nat) (routing_table : List RouteInfo) :
    Nat → AsyncNetworkInterface → List SendCall × AsyncNetworkInterface
  | 0, a => ([], a)
  | fuel + 1, a =>
    match a.maybe_receive with
    | (none, a1) => ([], a1)
    | (some datagram, a1) =>
      let res := drain checksum routing_table fuel a1
      (routeLoop checksum routing_table datagram ++ res.1, res.2)

/-- `Router::route()`: the `send_datagram` calls made, in order, and the
router afterwards.  Every iteration of the inner loop takes one datagram off
the queue of the interface, so the length of the queue bounds the number of
iterations. -/
def route (checksum : IPv4Header → Nat) (r : Router) : List SendCall × Router :=
  let res := r.interfaces_.map
    (fun a => drain checksum r.routing_table (a.datagrams_in.length + 1) a)
  ((res.map (fun x => x.1)).flatten, { r with interfaces_ := res.map (fun x => x.2) })

end Router
/-! ## Arithmetic helpers -/

theorem add64_of_lt {a b : Nat} (h : a + b < 2 ^ 64) : add64 a b = a + b := by
  unfold add64; exact Nat.mod_eq_of_lt h

theorem sub64_of_le {a b : Nat} (hab : b ≤ a) (ha : a < 2 ^ 64) : sub64 a b = a - b := by
  unfold sub64; omega

theorem sub64_of_gt {a b : Nat} (hab : a < b) (hb : b < 2 ^ 64) :
    sub64 a b = a + 2 ^ 64 - b := by
  unfold sub64; omega

/-! ## Wrap32 -/

/-- The 32-bit offset computed by `unwrap` from a wrapped value is the
low half of the wrapped number. -/
theorem seqno_of_wrap (n zr : Nat) (hz : zr < 2 ^ 32) :
    ((zr + n % 2 ^ 32) % 2 ^ 32 + 2 ^ 32 - zr) % 2 ^ 32 = n % 2 ^ 32 := by
  omega

/-- The arithmetic of `unwrap` when the checkpoint is the wrapped number
itself. -/
theorem unwrap_steps_roundtrip (n low0 low r : Nat) (hn : n < 2 ^ 64)
    (h0 : low0 = (n % 2 ^ 32 + (n - n % 2 ^ 32)) % 2 ^ 64)
    (h1 : low = if low0 ≥ n then (low0 + 2 ^ 64 - 2 ^ 32) % 2 ^ 64 else low0)
    (h2 : r = if max low n - min low n ≤ 2 ^ 32 / 2 then low else (low + 2 ^ 32) % 2 ^ 64) :
    r = n := by
  have h0' : low0 = n := by omega
  subst h0'
  split_ifs at h1 h2 <;> omega

/-- With checkpoint 0, `unwrap` returns the 32-bit offset from the zero point. -/
theorem unwrap_steps_zero (o low0 low r : Nat) (ho : o < 2 ^ 32)
    (h0 : low0 = (o + (0 - 0 % 2 ^ 32)) % 2 ^ 64)
    (h1 : low = if low0 ≥ 0 then (low0 + 2 ^ 64 - 2 ^ 32) % 2 ^ 64 else low0)
    (h2 : r = if max low 0 - min low 0 ≤ 2 ^ 32 / 2 then low else (low + 2 ^ 32) % 2 ^ 64) :
    r = o := by
  split_ifs at h1 h2 <;> omega

theorem Wrap32.unwrap_zero (w zp : Wrap32) :
    w.unwrap zp 0 = (w.raw_value_ + 2 ^ 32 - zp.raw_value_) % 2 ^ 32 :=
  unwrap_steps_zero _ _ _ _ (Nat.mod_lt _ (by norm_num)) rfl rfl rfl

theorem Wrap32.unwrap_wrap_zero (a : Nat) (zp : Wrap32) (ha : a < 2 ^ 32)
    (hz : zp.raw_value_ < 2 ^ 32) : (Wrap32.wrap a zp).unwrap zp 0 = a := by
  rw [Wrap32.unwrap_zero]
  simp only [Wrap32.wrap, Wrap32.add]
  rw [seqno_of_wrap a _ hz]
  exact Nat.mod_eq_of_lt ha

/-- C2: wrapping a 64-bit number and unwrapping it with the number itself as
checkpoint gives the number back, for every zero point; this includes
numbers below `2 ^ 32`, where `low -= ref` wraps around. -/
theorem Wrap32.wrap_unwrap_roundtrip (n : Nat) (zero : Wrap32) (hn : n < 2 ^ 64)
    (hz : zero.raw_value_ < 2 ^ 32) :
    (Wrap32.wrap n zero).unwrap zero n = n := by
  unfold Wrap32.unwrap Wrap32.wrap Wrap32.add
  simp only []
  rw [seqno_of_wrap n _ hz]
  exact unwrap_steps_roundtrip n _ _ _ hn rfl rfl rfl

theorem Wrap32.wrap_unwrap_roundtrip_witness :
    (3 * 2 ^ 32 + 17 : Nat) < 2 ^ 64 ∧ (Wrap32.mk 4294967290).raw_value_ < 2 ^ 32 ∧
    (Wrap32.wrap (3 * 2 ^ 32 + 17) ⟨4294967290⟩).unwrap ⟨4294967290⟩ (3 * 2 ^ 32 + 17)
      = 3 * 2 ^ 32 + 17 :=
  ⟨by decide, by decide, Wrap32.wrap_unwrap_roundtrip _ _ (by decide) (by decide)⟩

theorem TCPSender.in_flight_nil (s : TCPSender) (h : s.sent_segs = []) :
    s.sequence_numbers_in_flight = 0 := by
  simp [TCPSender.sequence_numbers_in_flight, h]

/-- C4 fails on a newly constructed sender, whose window is 1: with ISN 0 and
a closed reader holding "hello", the first segment is SYN with the single
byte "h" and no FIN, and the acknowledgment 7 lies beyond what was sent, so
it is ignored and 2 sequence numbers stay in flight. -/
theorem TCPSender.fresh_push_hello :
    ((TCPSender.new 1000 ⟨0⟩).push
        ((ByteStream.new 64).push ['h', 'e', 'l', 'l', 'o']).close).map
      (fun r => r.1.maybe_send.1)
      = some (some { seqno := ⟨0⟩, SYN := true, payload := ['h'], FIN := false }) ∧
    ((TCPSender.new 1000 ⟨0⟩).push
        ((ByteStream.new 64).push ['h', 'e', 'l', 'l', 'o']).close).map
      (fun r => r.1.maybe_send.1)
      ≠ some (some { seqno := ⟨0⟩, SYN := true, payload := ['h', 'e', 'l', 'l', 'o'],
                     FIN := true }) ∧
    ((TCPSender.new 1000 ⟨0⟩).push
        ((ByteStream.new 64).push ['h', 'e', 'l', 'l', 'o']).close).map
      (fun r => (r.1.maybe_send.2.receive
          { ackno := some ⟨7⟩, window_size := 100 }).sequence_numbers_in_flight)
      = some 2 := by
  decide

/-- C5 fails on a newly constructed sender (window 1, nothing in flight) and
a reader holding the single byte "a": `push` creates the segment SYN + "a" of
sequence length 2, more than the window of 1; SYN is not charged against
`actual_window`. -/
theorem TCPSender.fresh_push_exceeds_window :
    ((TCPSender.new 1000 ⟨0⟩).push ((ByteStream.new 64).push ['a'])).map
      (fun r => (r.1.sent_segs, r.1.sequence_numbers_in_flight))
      = some ([{ seqno := ⟨0⟩, SYN := true, payload := ['a'], FIN := false }], 2) ∧
    max (max (TCPSender.new 1000 ⟨0⟩).window 1
          - (TCPSender.new 1000 ⟨0⟩).sequence_numbers_in_flight) 0 = 1 := by
  decide

/-- The sequence number reached after a segment of length `k ≤ 2 ^ 32 - 1`
unwraps, with checkpoint 0, to `k`. -/
theorem Wrap32.unwrap_add_zero (z : Wrap32) (k : Nat) (hz : z.raw_value_ < 2 ^ 32)
    (hk : k < 2 ^ 32) : (z.add k).unwrap z 0 = k :=
  Wrap32.unwrap_wrap_zero k z hk hz

theorem Wrap32.unwrap_self_zero (z : Wrap32) : z.unwrap z 0 = 0 := by
  rw [Wrap32.unwrap_zero]; omega

/-- C4 (amended): a sender with ISN `z` that has sent nothing yet and whose
advertised window is at least `|p| + 2`, pushing from a closed reader that
holds a payload `p` with `1 ≤ |p| ≤ 1452`, makes the single segment
`{seqno = z, SYN, payload = p, FIN}` of sequence length `|p| + 2`, which the
first `maybe_send` returns; after the acknowledgment `z + |p| + 2` with window
100 nothing is in flight and the retransmission count is 0. -/
theorem TCPSender.push_syn_payload_fin (s : TCPSender) (rd : ByteStream) (p : List Char)
    (hz : s.isn_.raw_value_ < 2 ^ 32) (hzp : s.zero_point = s.isn_)
    (hsyn : s.syn_set = false) (hfin : s.fin_sent = false)
    (hsent : s.sent_segs = []) (hout : s.outstanding_segs = [])
    (hp1 : 1 ≤ p.length) (hp2 : p.length ≤ 1452)
    (hw : p.length + 2 ≤ s.window) (hw64 : s.window < 2 ^ 64)
    (hbuf : rd.buffer_ = p) (hclosed : rd.closed_ = true) :
    ∃ s1 rd1, s.push rd = some (s1, rd1) ∧
      s1.maybe_send.1 = some { seqno := s.isn_, SYN := true, payload := p, FIN := true } ∧
      TCPSenderMessage.sequence_length
        { seqno := s.isn_, SYN := true, payload := p, FIN := true } = p.length + 2 ∧
      (s1.maybe_send.2.receive
        { ackno := some (s.isn_.add (p.length + 2)), window_size := 100 }
        ).sequence_numbers_in_flight = 0 ∧
      (s1.maybe_send.2.receive
        { ackno := some (s.isn_.add (p.length + 2)), window_size := 100 }
        ).consecutive_retransmissions = 0 := by
  have hfl : s.sequence_numbers_in_flight = 0 := TCPSender.in_flight_nil s hsent
  have hw0 : s.window ≠ 0 := by omega
  have haw : sub64 s.window 0 = s.window := by rw [sub64_of_le (Nat.zero_le _) hw64]; rfl
  have hseg : min s.window (min MAX_PAYLOAD_SIZE p.length) = p.length := by
    simp only [MAX_PAYLOAD_SIZE]; omega
  have haw1 : sub64 s.window p.length = s.window - p.length :=
    sub64_of_le (by omega) hw64
  have hlen : TCPSenderMessage.sequence_length
      { seqno := s.isn_, SYN := true, payload := p, FIN := true } = p.length + 2 := by
    simp [TCPSenderMessage.sequence_length]; omega
  have hk : p.length + 2 < 2 ^ 32 := by
    have : p.length + 2 ≤ 1454 := by omega
    exact lt_of_le_of_lt this (by norm_num)
  have hpush : s.push rd = some
      ({ s with syn_set := true, fin_sent := true,
                outstanding_segs := [{ seqno := s.isn_, SYN := true, payload := p, FIN := true }],
                sent_segs := [{ seqno := s.isn_, SYN := true, payload := p, FIN := true }],
                isn_ := s.isn_.add (p.length + 2) },
       rd.pop p.length) := by
    unfold TCPSender.push
    simp only [hfl, if_neg hw0, ge_iff_le, Nat.zero_le, if_true, haw]
    have hne : s.window - p.length ≠ 0 := by omega
    have hfinished : (rd.pop p.length).is_finished = true := by
      simp [ByteStream.is_finished, ByteStream.pop, hbuf, hclosed]
    rw [pushLoop]
    simp only [ByteStream.peek, hbuf, hseg, hsyn, hfin, haw1, hfinished, hlen, hsent, hout,
      List.take_length, ne_eq, hw0, not_false_eq_true, and_self, if_true, Bool.not_false,
      Bool.true_and, bne_iff_ne, hne, decide_True, Bool.or_true, Bool.false_or,
      List.nil_append, decide_not, decide_eq_true_eq]
    have h2 : p.length + 2 ≠ 0 := by omega
    have hb : (s.window - p.length != 0) = true := by simp [hne]
    simp only [hb, hlen, h2, if_false]
    rw [pushLoop]
    simp
  refine ⟨_, _, hpush, ?_, hlen, ?_, ?_⟩
  · simp [TCPSender.maybe_send]
  · simp only [TCPSender.maybe_send, TCPSender.receive, hzp,
      Wrap32.unwrap_add_zero s.isn_ _ hz hk, gt_iff_lt, lt_irrefl, if_false,
      TCPSender.receiveLoop, Wrap32.unwrap_self_zero s.isn_, hlen]
    have h3 : add64 0 (p.length + 2) ≤ p.length + 2 := by
      rw [add64_of_lt (by omega)]; omega
    simp [h3, TCPSender.sequence_numbers_in_flight]
  · simp only [TCPSender.maybe_send, TCPSender.receive, hzp,
      Wrap32.unwrap_add_zero s.isn_ _ hz hk, gt_iff_lt, lt_irrefl, if_false,
      TCPSender.receiveLoop, Wrap32.unwrap_self_zero s.isn_, hlen]
    have h3 : add64 0 (p.length + 2) ≤ p.length + 2 := by
      rw [add64_of_lt (by omega)]; omega
    simp [h3, TCPSender.consecutive_retransmissions]

theorem TCPSender.push_syn_payload_fin_witness :
    ∃ s1 rd1,
      ((TCPSender.new 1000 ⟨0⟩).receive { ackno := none, window_size := 7 }).push
          ((ByteStream.new 64).push ['h', 'e', 'l', 'l', 'o']).close = some (s1, rd1) ∧
      s1.maybe_send.1 = some { seqno := ⟨0⟩, SYN := true,
                               payload := ['h', 'e', 'l', 'l', 'o'], FIN := true } ∧
      TCPSenderMessage.sequence_length
        { seqno := ⟨0⟩, SYN := true, payload := ['h', 'e', 'l', 'l', 'o'], FIN := true } = 7 ∧
      (s1.maybe_send.2.receive
        { ackno := some ⟨7⟩, window_size := 100 }).sequence_numbers_in_flight = 0 ∧
      (s1.maybe_send.2.receive
        { ackno := some ⟨7⟩, window_size := 100 }).consecutive_retransmissions = 0 :=
  TCPSender.push_syn_payload_fin
    ((TCPSender.new 1000 ⟨0⟩).receive { ackno := none, window_size := 7 })
    ((ByteStream.new 64).push ['h', 'e', 'l', 'l', 'o']).close ['h', 'e', 'l', 'l', 'o']
    (by decide) rfl rfl rfl rfl rfl (by decide) (by decide) (by decide) (by decide) rfl rfl

/-- What the loop of `receive` computes, in terms of the absolute sequence
numbers `absOf` of the segments: it drops the longest run of segments at
the front that end at or before the acknowledged number, and raises the
flag when that run is not empty. -/
theorem TCPSender.receiveLoop_eq (zp : Wrap32) (a n : Nat) (absOf : TCPSenderMessage → Nat)
    (hz : zp.raw_value_ < 2 ^ 32) (hn : n < 2 ^ 32) :
    ∀ (l : List TCPSenderMessage) (acked : Bool),
      (∀ seg ∈ l, seg.seqno = Wrap32.wrap (absOf seg) zp ∧
        absOf seg + seg.sequence_length ≤ n) →
      TCPSender.receiveLoop zp a l acked =
        (l.dropWhile (fun seg => decide (absOf seg + seg.sequence_length ≤ a)),
         acked || !(l.takeWhile (fun seg => decide (absOf seg + seg.sequence_length ≤ a))).isEmpty)
  | [], acked, _ => by simp [TCPSender.receiveLoop]
  | seg :: rest, acked, h => by
    have hseg := h seg (List.mem_cons_self _ _)
    have hrest : ∀ x ∈ rest, x.seqno = Wrap32.wrap (absOf x) zp ∧
        absOf x + x.sequence_length ≤ n :=
      fun x hx => h x (List.mem_cons_of_mem _ hx)
    have habs : absOf seg < 2 ^ 32 := by omega
    have hun : seg.seqno.unwrap zp 0 = absOf seg := by
      rw [hseg.1]; exact Wrap32.unwrap_wrap_zero _ zp habs hz
    have hadd : add64 (seg.seqno.unwrap zp 0) seg.sequence_length
        = absOf seg + seg.sequence_length := by
      rw [hun]
      exact add64_of_lt (lt_of_le_of_lt hseg.2 (lt_trans hn (by norm_num)))
    unfold TCPSender.receiveLoop
    rw [hadd]
    by_cases hle : absOf seg + seg.sequence_length ≤ a
    · rw [if_pos hle, TCPSender.receiveLoop_eq zp a n absOf hz hn rest true hrest]
      simp [List.dropWhile, List.takeWhile, hle]
    · rw [if_neg hle]
      simp [List.dropWhile, List.takeWhile, hle]

/-- C6: for a sender that has sent fewer than `2 ^ 32` sequence numbers
(its next sequence number is `n < 2 ^ 32` past the zero point and every
unacknowledged segment lies below it) and an acknowledgment whose absolute
value `a` is at most `n`, `receive` leaves the unacknowledged list with its
longest front run of segments satisfying `abs_seqno + sequence_length ≤ a`
removed; when that run is not empty the timeout is back at its initial
value and elapsed time and retransmission count are 0, and when it is empty
the three values are unchanged. -/
theorem TCPSender.receive_retires_acked (s : TCPSender) (ackno : Wrap32) (win a n : Nat)
    (absOf : TCPSenderMessage → Nat)
    (hz : s.zero_point.raw_value_ < 2 ^ 32) (hn : n < 2 ^ 32) (han : a ≤ n)
    (hcur : s.isn_ = Wrap32.wrap n s.zero_point)
    (hack : ackno = Wrap32.wrap a s.zero_point)
    (hsegs : ∀ seg ∈ s.sent_segs, seg.seqno = Wrap32.wrap (absOf seg) s.zero_point ∧
      absOf seg + seg.sequence_length ≤ n) :
    (s.receive { ackno := some ackno, window_size := win }).sent_segs
        = s.sent_segs.dropWhile (fun seg => decide (absOf seg + seg.sequence_length ≤ a)) ∧
    (s.sent_segs.takeWhile (fun seg => decide (absOf seg + seg.sequence_length ≤ a)) ≠ [] →
      (s.receive { ackno := some ackno, window_size := win }).alarm = s.initial_RTO_ms_ ∧
      (s.receive { ackno := some ackno, window_size := win }).elapsed_time = 0 ∧
      (s.receive { ackno := some ackno, window_size := win }).consecutive_retransmissions = 0) ∧
    (s.sent_segs.takeWhile (fun seg => decide (absOf seg + seg.sequence_length ≤ a)) = [] →
      (s.receive { ackno := some ackno, window_size := win }).alarm = s.alarm ∧
      (s.receive { ackno := some ackno, window_size := win }).elapsed_time = s.elapsed_time ∧
      (s.receive { ackno := some ackno, window_size := win }).consecutive_retransmissions
        = s.consecutive_retransmissions) := by
  have ha : a < 2 ^ 32 := lt_of_le_of_lt han hn
  have hua : ackno.unwrap s.zero_point 0 = a := by
    rw [hack]; exact Wrap32.unwrap_wrap_zero a _ ha hz
  have hun : s.isn_.unwrap s.zero_point 0 = n := by
    rw [hcur]; exact Wrap32.unwrap_wrap_zero n _ hn hz
  have hloop := TCPSender.receiveLoop_eq s.zero_point a n absOf hz hn s.sent_segs false hsegs
  have hnot : ¬ (a > n) := by omega
  simp only [TCPSender.receive, hua, hun, if_neg hnot, hloop, Bool.false_or,
    TCPSender.consecutive_retransmissions]
  refine ⟨?_, ?_, ?_⟩
  · split_ifs <;> rfl
  · intro hne
    have : (!(List.takeWhile (fun seg => decide (absOf seg + seg.sequence_length ≤ a))
        s.sent_segs).isEmpty) = true := by
      simpa [List.isEmpty_iff] using hne
    simp [this]
  · intro he
    simp [he]

theorem TCPSender.receive_retires_acked_witness :
    ((({ TCPSender.new 1000 ⟨10⟩ with
          isn_ := ⟨15⟩, syn_set := true, elapsed_time := 40, retransmissions := 2,
          alarm := 4000,
          sent_segs := [{ seqno := ⟨10⟩, SYN := true, payload := ['a', 'b'], FIN := false },
                        { seqno := ⟨13⟩, SYN := false, payload := ['c', 'd'], FIN := false }] }
        : TCPSender).receive { ackno := some ⟨13⟩, window_size := 9 }).sent_segs
      = [{ seqno := ⟨13⟩, SYN := false, payload := ['c', 'd'], FIN := false }]) ∧
    ((({ TCPSender.new 1000 ⟨10⟩ with
          isn_ := ⟨15⟩, syn_set := true, elapsed_time := 40, retransmissions := 2,
          alarm := 4000,
          sent_segs := [{ seqno := ⟨10⟩, SYN := true, payload := ['a', 'b'], FIN := false },
                        { seqno := ⟨13⟩, SYN := false, payload := ['c', 'd'], FIN := false }] }
        : TCPSender).receive { ackno := some ⟨13⟩, window_size := 9 }).alarm = 1000) :=
  have h := TCPSender.receive_retires_acked
    ({ TCPSender.new 1000 ⟨10⟩ with
          isn_ := ⟨15⟩, syn_set := true, elapsed_time := 40, retransmissions := 2,
          alarm := 4000,
          sent_segs := [{ seqno := ⟨10⟩, SYN := true, payload := ['a', 'b'], FIN := false },
                        { seqno := ⟨13⟩, SYN := false, payload := ['c', 'd'], FIN := false }] })
    ⟨13⟩ 9 3 5 (fun seg => seg.seqno.raw_value_ - 10)
    (by decide) (by decide) (by decide) (by decide) (by decide) (by decide)
  ⟨h.1, (h.2.1 (by decide)).1⟩

/-- C7: when a segment is unacknowledged and the time since the last alarm
reaches the current timeout, `tick` appends a copy of the oldest
unacknowledged segment to the queue read by `maybe_send` and sets the
elapsed time to 0; with a window above 0 the retransmission count goes up
by one and the timeout doubles, with a window of 0 both stay as they were.
When the timeout is not reached, only the elapsed time changes.  The 64-bit
quantities are assumed not to overflow. -/
theorem TCPSender.tick_retransmits (s : TCPSender) (delta : Nat)
    (front : TCPSenderMessage) (rest : List TCPSenderMessage)
    (hsent : s.sent_segs = front :: rest)
    (hsum : s.elapsed_time + delta < 2 ^ 64) :
    (s.alarm ≤ s.elapsed_time + delta →
      (s.tick delta).outstanding_segs = s.outstanding_segs ++ [front] ∧
      (s.tick delta).elapsed_time = 0 ∧
      (s.tick delta).sent_segs = s.sent_segs ∧
      (0 < s.window → s.alarm * 2 < 2 ^ 64 → s.retransmissions + 1 < 2 ^ 64 →
        (s.tick delta).consecutive_retransmissions = s.consecutive_retransmissions + 1 ∧
        (s.tick delta).alarm = 2 * s.alarm) ∧
      (s.window = 0 →
        (s.tick delta).consecutive_retransmissions = s.consecutive_retransmissions ∧
        (s.tick delta).alarm = s.alarm)) ∧
    (s.elapsed_time + delta < s.alarm →
      s.tick delta = { s with elapsed_time := s.elapsed_time + delta }) := by
  have hadd : add64 s.elapsed_time delta = s.elapsed_time + delta := add64_of_lt hsum
  constructor
  · intro hge
    by_cases hw : 0 < s.window
    · simp only [TCPSender.tick, hadd, ge_iff_le, hge, if_true, gt_iff_lt, hw, hsent,
        TCPSender.consecutive_retransmissions]
      refine ⟨trivial, trivial, trivial, ?_, ?_⟩
      · intro _ h2 h3
        exact ⟨add64_of_lt h3, by rw [Nat.mod_eq_of_lt h2, Nat.mul_comm]⟩
      · intro h0; omega
    · have h0 : s.window = 0 := by omega
      simp [TCPSender.tick, hadd, hge, h0, hsent, TCPSender.consecutive_retransmissions]
  · intro hlt
    have hnot : ¬ (s.alarm ≤ s.elapsed_time + delta) := by omega
    simp only [TCPSender.tick, hadd, ge_iff_le, hnot, if_false]

theorem TCPSender.tick_retransmits_witness :
    ((({ TCPSender.new 1 ⟨0⟩ with
          window := 10, syn_set := true, isn_ := ⟨1⟩,
          sent_segs := [{ seqno := ⟨0⟩, SYN := false, payload := ['x'], FIN := false }] }
        : TCPSender).tick 1).alarm = 2) ∧
    (((({ TCPSender.new 1 ⟨0⟩ with
          window := 10, syn_set := true, isn_ := ⟨1⟩,
          sent_segs := [{ seqno := ⟨0⟩, SYN := false, payload := ['x'], FIN := false }] }
        : TCPSender).tick 1).tick 2).alarm = 4) ∧
    (((({ TCPSender.new 1 ⟨0⟩ with
          window := 10, syn_set := true, isn_ := ⟨1⟩,
          sent_segs := [{ seqno := ⟨0⟩, SYN := false, payload := ['x'], FIN := false }] }
        : TCPSender).tick 1).tick 2).consecutive_retransmissions = 2) :=
  have h1 := TCPSender.tick_retransmits
    ({ TCPSender.new 1 ⟨0⟩ with
          window := 10, syn_set := true, isn_ := ⟨1⟩,
          sent_segs := [{ seqno := ⟨0⟩, SYN := false, payload := ['x'], FIN := false }] })
    1 { seqno := ⟨0⟩, SYN := false, payload := ['x'], FIN := false } [] rfl (by decide)
  have h2 := TCPSender.tick_retransmits
    (({ TCPSender.new 1 ⟨0⟩ with
          window := 10, syn_set := true, isn_ := ⟨1⟩,
          sent_segs := [{ seqno := ⟨0⟩, SYN := false, payload := ['x'], FIN := false }] }
        : TCPSender).tick 1)
    2 { seqno := ⟨0⟩, SYN := false, payload := ['x'], FIN := false } [] rfl (by decide)
  ⟨((h1.1 (by decide)).2.2.2.1 (by decide) (by decide) (by decide)).2,
   ((h2.1 (by decide)).2.2.2.1 (by decide) (by decide) (by decide)).2,
   ((h2.1 (by decide)).2.2.2.1 (by decide) (by decide) (by decide)).1⟩

/-- The loop of `push` ends within the bound given to it by `push`. -/
theorem TCPSender.pushLoop_returns :
    ∀ (fuel : Nat) (s : TCPSender) (rd : ByteStream) (aw : Nat), aw < 2 ^ 64 →
      (if s.fin_sent then 0 else aw + (if s.syn_set then 0 else 1)) + 1 ≤ fuel →
      (TCPSender.pushLoop fuel s rd aw).isSome = true := by
  intro fuel
  induction fuel with
  | zero => intro s rd aw _ h; omega
  | succ fuel ih =>
    intro s rd aw haw h
    unfold TCPSender.pushLoop
    by_cases hcond : aw ≠ 0 ∧ s.fin_sent = false
    · rw [if_pos hcond]
      obtain ⟨haw0, hfin⟩ := hcond
      simp only [hfin, Bool.false_eq_true, if_false] at h
      simp only
      split_ifs with hlen
      · rfl
      · apply ih
        · rw [sub64_of_le (Nat.min_le_left _ _) haw]; omega
        · have hsub := sub64_of_le (Nat.min_le_left aw
            (min MAX_PAYLOAD_SIZE rd.peek.length)) haw
          simp only [hfin, Bool.false_or, if_true] at hlen ⊢
          rw [hsub] at hlen ⊢
          split_ifs with hf
          · omega
          · have hf' : ((rd.pop (min aw (min MAX_PAYLOAD_SIZE rd.peek.length))).is_finished &&
                (aw - min aw (min MAX_PAYLOAD_SIZE rd.peek.length) != 0)) = false := by
              simpa using hf
            simp only [TCPSenderMessage.sequence_length, hf', Bool.toNat_false,
              Nat.add_zero, List.length_take] at hlen
            cases hsyn : s.syn_set
            · simp only [hsyn, Bool.false_eq_true, if_false] at h; omega
            · simp only [hsyn, Bool.not_true, Bool.toNat_false, Nat.zero_add, if_true,
                Nat.add_zero] at h hlen
              simp only [ByteStream.peek] at hlen ⊢
              omega
    · rw [if_neg hcond]; rfl

/-- Every call of `push` returns: the bound on the loop is never used up. -/
theorem TCPSender.push_returns (s : TCPSender) (rd : ByteStream) (hw : s.window < 2 ^ 64) :
    (s.push rd).isSome = true := by
  unfold TCPSender.push
  apply TCPSender.pushLoop_returns
  · split_ifs with h1 h2 h2
    · rw [sub64_of_le h2 (by norm_num)]; omega
    · norm_num
    · rw [sub64_of_le h2 hw]; omega
    · norm_num
  · split_ifs <;> omega

/-! ## Reassembler: structure of `insert` -/

theorem vresize_length {α : Type} (l : List α) (n : Nat) (v : α) :
    (vresize l n v).length = n := by
  simp only [vresize, List.length_append, List.length_take, List.length_replicate]
  omega

theorem vresize_of_le {α : Type} (l : List α) (n : Nat) (v : α) (h : l.length ≤ n) :
    vresize l n v = l ++ List.replicate (n - l.length) v := by
  simp only [vresize, List.take_of_length_le h]

theorem Reassembler.grow_lengths (r : Reassembler) (needed available : Nat)
    (hlen : r.filled.length = r.bytes.length) (hav : r.bytes.length ≤ available) :
    (r.grow needed available).filled.length = (r.grow needed available).bytes.length ∧
    (r.grow needed available).bytes.length ≤ available ∧
    r.bytes.length ≤ (r.grow needed available).bytes.length := by
  unfold Reassembler.grow
  split_ifs with h
  · simp only [vresize_length]
    exact ⟨trivial, Nat.min_le_right _ _, Nat.le_min.mpr ⟨h, hav⟩⟩
  · exact ⟨hlen, hav, le_refl _⟩

theorem Reassembler.grow_pending (r : Reassembler) (needed available : Nat) :
    (r.grow needed available).pending = r.pending ∧
    (r.grow needed available).last = r.last := by
  unfold Reassembler.grow
  split_ifs <;> exact ⟨rfl, rfl⟩

theorem Reassembler.grow_count (r : Reassembler) (needed available : Nat)
    (hlen : r.filled.length = r.bytes.length) (hav : r.bytes.length ≤ available) :
    (r.grow needed available).filled.count true = r.filled.count true := by
  unfold Reassembler.grow
  split_ifs with h
  · have hle : r.filled.length ≤ min needed available := by
      rw [hlen]; exact Nat.le_min.mpr ⟨h, hav⟩
    simp only [vresize_of_le _ _ _ hle, List.count_append, List.count_replicate]
    simp
  · rfl

theorem count_set_true (l : List Bool) :
    ∀ (j : Nat), j < l.length →
      (l.set j true).count true = l.count true + (if l.getD j false then 0 else 1) := by
  induction l with
  | nil => intro j h; simp at h
  | cons b bs ih =>
    intro j h
    cases j with
    | zero => cases b <;> simp [List.count_cons]
    | succ j =>
      have hj : j < bs.length := by simpa using h
      simp only [List.set_cons_succ, List.count_cons, List.getD_cons_succ, ih j hj]
      omega

theorem Reassembler.storeLoop_shape (internal_first : Nat) :
    ∀ (data : List Char) (i : Nat) (r : Reassembler),
      (Reassembler.storeLoop internal_first i data r).bytes.length = r.bytes.length ∧
      (Reassembler.storeLoop internal_first i data r).filled.length = r.filled.length ∧
      (Reassembler.storeLoop internal_first i data r).last = r.last := by
  intro data
  induction data with
  | nil => intro i r; exact ⟨rfl, rfl, rfl⟩
  | cons c rest ih =>
    intro i r
    unfold Reassembler.storeLoop
    by_cases h : add64 internal_first i ≥ r.bytes.length
    · rw [if_pos h]; exact ih (i + 1) r
    · rw [if_neg h]
      have := ih (i + 1)
        { r with
          pending := if r.filled.getD (add64 internal_first i) false then r.pending
                     else add64 r.pending 1
          bytes := r.bytes.set (add64 internal_first i) c
          filled := r.filled.set (add64 internal_first i) true }
      simp only [List.length_set] at this
      exact this

/-- The copy loop keeps `pending` equal to the number of filled slots. -/
theorem Reassembler.storeLoop_count (internal_first : Nat) :
    ∀ (data : List Char) (i : Nat) (r : Reassembler),
      r.filled.length = r.bytes.length → r.bytes.length < 2 ^ 64 →
      r.pending = r.filled.count true →
      (Reassembler.storeLoop internal_first i data r).pending
        = (Reassembler.storeLoop internal_first i data r).filled.count true := by
  intro data
  induction data with
  | nil => intro i r _ _ h; exact h
  | cons c rest ih =>
    intro i r hlen hlt hp
    unfold Reassembler.storeLoop
    by_cases h : add64 internal_first i ≥ r.bytes.length
    · rw [if_pos h]; exact ih (i + 1) r hlen hlt hp
    · rw [if_neg h]
      have hj : add64 internal_first i < r.filled.length := by omega
      apply ih (i + 1)
      · simp only [List.length_set]; exact hlen
      · simp only [List.length_set]; exact hlt
      · have hc := count_set_true r.filled _ hj
        have hcl : (r.filled.set (add64 internal_first i) true).count true
            ≤ r.filled.length := by
          have := List.count_le_length true (r.filled.set (add64 internal_first i) true)
          simpa only [List.length_set] using this
        simp only [hc, hp]
        by_cases hg : r.filled.getD (add64 internal_first i) false = true
        · simp only [hg, if_true, Nat.add_zero]
        · simp only [hg, Bool.false_eq_true, if_false] at hc ⊢
          exact add64_of_lt (by omega)

theorem Reassembler.package_length_le :
    ∀ (fs : List Bool) (bs : List Char),
      (Reassembler.package fs bs).length ≤ bs.length ∧
      (Reassembler.package fs bs).length ≤ fs.length
  | [], _ => by simp [Reassembler.package]
  | false :: _, _ => by simp [Reassembler.package]
  | true :: _, [] => by simp [Reassembler.package]
  | true :: fs, b :: bs => by
    have := Reassembler.package_length_le fs bs
    simp only [Reassembler.package, List.length_cons]
    omega

/-- The slots taken by the collecting loop are all filled, so dropping
them lowers the number of filled slots by their number. -/
theorem Reassembler.package_count :
    ∀ (fs : List Bool) (bs : List Char),
      (fs.drop (Reassembler.package fs bs).length).count true
          + (Reassembler.package fs bs).length = fs.count true
  | [], _ => by simp [Reassembler.package]
  | false :: _, _ => by simp [Reassembler.package]
  | true :: _, [] => by simp [Reassembler.package]
  | true :: fs, b :: bs => by
    have := Reassembler.package_count fs bs
    simp only [Reassembler.package, List.length_cons, List.drop_succ_cons, List.count_cons]
    simp
    omega

/-! ## Reassembler: the two branches of `insert` -/

theorem ByteStream.available_eq (w : ByteStream) (hc : w.capacity_ < 2 ^ 64)
    (hb : w.buffer_.length ≤ w.capacity_) :
    w.available_capacity = w.capacity_ - w.buffer_.length := by
  unfold ByteStream.available_capacity
  exact sub64_of_le hb hc

theorem ByteStream.push_open (w : ByteStream) (pkg : List Char)
    (hc : w.closed_ = false) (he : w.error_ = false)
    (hfit : pkg.length ≤ w.available_capacity) :
    w.push pkg = { w with buffer_ := w.buffer_ ++ pkg,
                          bytes_pushed_ := add64 w.bytes_pushed_ pkg.length } := by
  unfold ByteStream.push
  simp only [hc, he, Bool.not_false, Bool.and_self, if_true, Nat.min_eq_right hfit,
    List.take_length]

theorem ByteStream.push_closed (w : ByteStream) (pkg : List Char)
    (h : w.closed_ = true ∨ w.error_ = true) : w.push pkg = w := by
  unfold ByteStream.push
  rcases h with h | h <;> simp [h]

/-- The early-return branch of `insert`: only the end-of-stream flag and
the closed flag of the writer can change. -/
theorem Reassembler.insert_reject (r : Reassembler) (first_index : Nat) (data : List Char)
    (is_last : Bool) (w : ByteStream)
    (h : data.length = 0 ∨ first_index ≥ add64 w.bytes_pushed w.available_capacity) :
    r.insert first_index data is_last w =
      ({ r with last := r.last || is_last },
       { w with closed_ := w.closed_ || ((r.last || is_last) && r.pending == 0) }) := by
  unfold Reassembler.insert
  simp only [h, if_true, Reassembler.bytes_pending, ByteStream.close]
  cases r with
  | mk rb rf rp rl =>
    cases is_last <;> cases rl <;> cases hp : (rp == 0) <;> simp [hp]

/-- The main branch of `insert`: resize, copy, collect the filled front
run, push it, erase it. -/
theorem Reassembler.insert_accept (r : Reassembler) (first_index : Nat) (data : List Char)
    (is_last : Bool) (w : ByteStream)
    (h : ¬ (data.length = 0 ∨ first_index ≥ add64 w.bytes_pushed w.available_capacity)) :
    r.insert first_index data is_last w =
      ({ bytes := (Reassembler.storeLoop (sub64 first_index w.bytes_pushed) 0 data
            (r.grow (add64 (sub64 first_index w.bytes_pushed) data.length)
              w.available_capacity)).bytes.drop
            (Reassembler.package
              (Reassembler.storeLoop (sub64 first_index w.bytes_pushed) 0 data
                (r.grow (add64 (sub64 first_index w.bytes_pushed) data.length)
                  w.available_capacity)).filled
              (Reassembler.storeLoop (sub64 first_index w.bytes_pushed) 0 data
                (r.grow (add64 (sub64 first_index w.bytes_pushed) data.length)
                  w.available_capacity)).bytes).length,
         filled := (Reassembler.storeLoop (sub64 first_index w.bytes_pushed) 0 data
            (r.grow (add64 (sub64 first_index w.bytes_pushed) data.length)
              w.available_capacity)).filled.drop
            (Reassembler.package
              (Reassembler.storeLoop (sub64 first_index w.bytes_pushed) 0 data
                (r.grow (add64 (sub64 first_index w.bytes_pushed) data.length)
                  w.available_capacity)).filled
              (Reassembler.storeLoop (sub64 first_index w.bytes_pushed) 0 data
                (r.grow (add64 (sub64 first_index w.bytes_pushed) data.length)
                  w.available_capacity)).bytes).length,
         pending := sub64 (Reassembler.storeLoop (sub64 first_index w.bytes_pushed) 0 data
            (r.grow (add64 (sub64 first_index w.bytes_pushed) data.length)
              w.available_capacity)).pending
            (Reassembler.package
              (Reassembler.storeLoop (sub64 first_index w.bytes_pushed) 0 data
                (r.grow (add64 (sub64 first_index w.bytes_pushed) data.length)
                  w.available_capacity)).filled
              (Reassembler.storeLoop (sub64 first_index w.bytes_pushed) 0 data
                (r.grow (add64 (sub64 first_index w.bytes_pushed) data.length)
                  w.available_capacity)).bytes).length,
         last := r.last || is_last },
       { w.push (Reassembler.package
              (Reassembler.storeLoop (sub64 first_index w.bytes_pushed) 0 data
                (r.grow (add64 (sub64 first_index w.bytes_pushed) data.length)
                  w.available_capacity)).filled
              (Reassembler.storeLoop (sub64 first_index w.bytes_pushed) 0 data
                (r.grow (add64 (sub64 first_index w.bytes_pushed) data.length)
                  w.available_capacity)).bytes) with
         closed_ := (w.push (Reassembler.package
              (Reassembler.storeLoop (sub64 first_index w.bytes_pushed) 0 data
                (r.grow (add64 (sub64 first_index w.bytes_pushed) data.length)
                  w.available_capacity)).filled
              (Reassembler.storeLoop (sub64 first_index w.bytes_pushed) 0 data
                (r.grow (add64 (sub64 first_index w.bytes_pushed) data.length)
                  w.available_capacity)).bytes)).closed_ ||
            ((r.last || is_last) &&
              sub64 (Reassembler.storeLoop (sub64 first_index w.bytes_pushed) 0 data
                (r.grow (add64 (sub64 first_index w.bytes_pushed) data.length)
                  w.available_capacity)).pending
                (Reassembler.package
                  (Reassembler.storeLoop (sub64 first_index w.bytes_pushed) 0 data
                    (r.grow (add64 (sub64 first_index w.bytes_pushed) data.length)
                      w.available_capacity)).filled
                  (Reassembler.storeLoop (sub64 first_index w.bytes_pushed) 0 data
                    (r.grow (add64 (sub64 first_index w.bytes_pushed) data.length)
                      w.available_capacity)).bytes).length == 0) }) := by
  unfold Reassembler.insert
  simp only [h, if_false, Reassembler.bytes_pending, ByteStream.close]
  generalize hr3 : Reassembler.storeLoop (sub64 first_index w.bytes_pushed) 0 data
    (r.grow (add64 (sub64 first_index w.bytes_pushed) data.length) w.available_capacity) = r3
  have hl3 : r3.last = r.last := by
    rw [← hr3, (Reassembler.storeLoop_shape _ _ _ _).2.2, (Reassembler.grow_pending _ _ _).2]
  generalize Reassembler.package r3.filled r3.bytes = pkg
  generalize w.push pkg = w1
  cases is_last <;> cases hl : r.last <;> cases hp : (sub64 r3.pending pkg.length == 0) <;>
    simp [hl, hp, hl3]

/-! ## Reassembler: the structural invariant -/

theorem StreamInv_new (capacity : Nat) (hc : capacity < 2 ^ 64) :
    StreamInv (Reassembler.new, ByteStream.new capacity) := by
  refine ⟨hc, Nat.zero_le _, by norm_num [ByteStream.new], rfl, Nat.zero_le _, rfl⟩

theorem StreamInv_pop (r : Reassembler) (w : ByteStream) (len : Nat)
    (h : StreamInv (r, w)) : StreamInv (r, w.pop len) := by
  obtain ⟨hc, hb, hp, hlen, hav, hcount⟩ := h
  have hav0 := ByteStream.available_eq w hc hb
  have hb2 : (w.pop len).buffer_.length ≤ (w.pop len).capacity_ := by
    simp only [ByteStream.pop, List.length_drop]
    exact le_trans (Nat.sub_le _ _) hb
  have hav1 := ByteStream.available_eq (w.pop len) hc hb2
  refine ⟨hc, hb2, hp, hlen, ?_, hcount⟩
  rw [hav1]
  simp only [hav0] at hav
  simp only [ByteStream.pop, List.length_drop]
  omega

theorem StreamInv_insert (r : Reassembler) (w : ByteStream) (first_index : Nat)
    (data : List Char) (is_last : Bool) (h : StreamInv (r, w)) :
    StreamInv (r.insert first_index data is_last w) := by
  obtain ⟨hc, hb, hp, hlen, hav, hcount⟩ := h
  simp only at hc hb hp hlen hav hcount
  by_cases hrej : data.length = 0 ∨ first_index ≥ add64 w.bytes_pushed w.available_capacity
  · rw [Reassembler.insert_reject _ _ _ _ _ hrej]
    exact ⟨hc, hb, hp, hlen, hav, hcount⟩
  · rw [Reassembler.insert_accept _ _ _ _ _ hrej]
    have hg := Reassembler.grow_lengths r
      (add64 (sub64 first_index w.bytes_pushed) data.length) w.available_capacity hlen hav
    have hgc := Reassembler.grow_count r
      (add64 (sub64 first_index w.bytes_pushed) data.length) w.available_capacity hlen hav
    have hgp := (Reassembler.grow_pending r
      (add64 (sub64 first_index w.bytes_pushed) data.length) w.available_capacity).1
    have hav0 := ByteStream.available_eq w hc hb
    generalize r.grow (add64 (sub64 first_index w.bytes_pushed) data.length)
      w.available_capacity = r2 at hg hgc hgp ⊢
    have hsh := Reassembler.storeLoop_shape (sub64 first_index w.bytes_pushed) data 0 r2
    have hr2lt : r2.bytes.length < 2 ^ 64 := by omega
    have hsc := Reassembler.storeLoop_count (sub64 first_index w.bytes_pushed) data 0 r2
      hg.1 hr2lt (by rw [hgp, hgc, hcount])
    generalize Reassembler.storeLoop (sub64 first_index w.bytes_pushed) 0 data r2 = r3
      at hsh hsc ⊢
    have hpl := Reassembler.package_length_le r3.filled r3.bytes
    have hpc := Reassembler.package_count r3.filled r3.bytes
    generalize Reassembler.package r3.filled r3.bytes = pkg at hpl hpc ⊢
    have hcl : r3.filled.count true ≤ r3.filled.length := List.count_le_length _ _
    have hsub : sub64 r3.pending pkg.length = r3.pending - pkg.length :=
      sub64_of_le (by omega) (by omega)
    have hfit : pkg.length ≤ w.available_capacity := by omega
    by_cases hopen : w.closed_ = false ∧ w.error_ = false
    · rw [ByteStream.push_open w pkg hopen.1 hopen.2 hfit]
      have hb2 : (w.buffer_ ++ pkg).length ≤ w.capacity_ := by
        simp only [List.length_append]; omega
      refine ⟨hc, hb2, Nat.mod_lt _ (by norm_num), ?_, ?_, ?_⟩
      · simp only [List.length_drop]; omega
      · simp only [List.length_drop, ByteStream.available_capacity]
        rw [sub64_of_le hb2 hc]
        simp only [List.length_append]; omega
      · simp only [hsub]; omega
    · have hcl2 : w.closed_ = true ∨ w.error_ = true := by
        by_cases h1 : w.closed_ = true
        · exact Or.inl h1
        · right
          by_cases h2 : w.error_ = true
          · exact h2
          · exact absurd ⟨by simpa using h1, by simpa using h2⟩ hopen
      rw [ByteStream.push_closed w pkg hcl2]
      refine ⟨hc, hb, hp, ?_, ?_, ?_⟩
      · simp only [List.length_drop]; omega
      · simp only [List.length_drop]
        have : ({ w with closed_ := w.closed_ || ((r.last || is_last) &&
            (sub64 r3.pending pkg.length == 0)) } : ByteStream).available_capacity
            = w.available_capacity := rfl
        rw [this]; omega
      · simp only [hsub]; omega

theorem StreamInv_step (st : Reassembler × ByteStream) (op : StreamOp)
    (h : StreamInv st) : StreamInv (op.step st) := by
  cases op with
  | insert fi data il => exact StreamInv_insert st.1 st.2 fi data il h
  | pop len => exact StreamInv_pop st.1 st.2 len h

theorem StreamInv_runOps (ops : List StreamOp) :
    ∀ st : Reassembler × ByteStream, StreamInv st → StreamInv (runOps st ops) := by
  induction ops with
  | nil => intro st h; exact h
  | cons op ops ih => intro st h; exact ih _ (StreamInv_step st op h)

theorem Reassembler.insert_last (r : Reassembler) (w : ByteStream) (first_index : Nat)
    (data : List Char) (is_last : Bool) :
    (r.insert first_index data is_last w).1.last = (r.last || is_last) := by
  by_cases hrej : data.length = 0 ∨ first_index ≥ add64 w.bytes_pushed w.available_capacity
  · rw [Reassembler.insert_reject _ _ _ _ _ hrej]
  · rw [Reassembler.insert_accept _ _ _ _ _ hrej]

/-- An `insert` closes the writer only when the end-of-stream flag is set
and nothing is pending afterwards. -/
theorem Reassembler.insert_closed (r : Reassembler) (w : ByteStream) (first_index : Nat)
    (data : List Char) (is_last : Bool)
    (h : (r.insert first_index data is_last w).2.closed_ = true) :
    w.closed_ = true ∨
      ((r.last || is_last) = true ∧ (r.insert first_index data is_last w).1.pending = 0) := by
  by_cases hrej : data.length = 0 ∨ first_index ≥ add64 w.bytes_pushed w.available_capacity
  · rw [Reassembler.insert_reject _ _ _ _ _ hrej] at h ⊢
    simp only [Bool.or_eq_true, Bool.and_eq_true, beq_iff_eq] at h ⊢
    rcases h with h | h
    · exact Or.inl h
    · exact Or.inr h
  · rw [Reassembler.insert_accept _ _ _ _ _ hrej] at h ⊢
    simp only [Bool.or_eq_true, Bool.and_eq_true, beq_iff_eq] at h ⊢
    rcases h with h | h
    · left
      simp only [ByteStream.push] at h
      split_ifs at h
      · exact h
      · exact h
    · exact Or.inr h

theorem StreamOp.step_last_mono (st : Reassembler × ByteStream) (op : StreamOp)
    (h : st.1.last = true) : (op.step st).1.last = true := by
  cases op with
  | insert fi data il =>
    simp only [StreamOp.step, Reassembler.insert_last, h, Bool.true_or]
  | pop len => exact h

theorem runOps_last_mono (ops : List StreamOp) :
    ∀ st : Reassembler × ByteStream, st.1.last = true → (runOps st ops).1.last = true := by
  induction ops with
  | nil => intro st h; exact h
  | cons op ops ih => intro st h; exact ih _ (StreamOp.step_last_mono st op h)

/-- The end-of-stream flag is set only by a fragment flagged as last. -/
theorem runOps_last_origin (ops : List StreamOp) :
    ∀ st : Reassembler × ByteStream, (runOps st ops).1.last = true →
      st.1.last = true ∨ ∃ fi data, StreamOp.insert fi data true ∈ ops := by
  induction ops with
  | nil => intro st h; exact Or.inl h
  | cons op ops ih =>
    intro st h
    rcases ih (op.step st) h with h1 | ⟨fi, data, hm⟩
    · cases op with
      | insert fi data il =>
        simp only [StreamOp.step, Reassembler.insert_last, Bool.or_eq_true] at h1
        rcases h1 with h1 | h1
        · exact Or.inl h1
        · right
          exact ⟨fi, data, by rw [h1]; exact List.mem_cons_self _ _⟩
      | pop len => exact Or.inl h1
    · exact Or.inr ⟨fi, data, List.mem_cons_of_mem _ hm⟩

/-- The writer is closed only after the end-of-stream flag was set. -/
theorem runOps_closed_origin (ops : List StreamOp) :
    ∀ st : Reassembler × ByteStream, (runOps st ops).2.closed_ = true →
      st.2.closed_ = true ∨ (runOps st ops).1.last = true := by
  induction ops with
  | nil => intro st h; exact Or.inl h
  | cons op ops ih =>
    intro st h
    rcases ih (op.step st) h with h1 | h1
    · cases op with
      | insert fi data il =>
        rcases Reassembler.insert_closed st.1 st.2 fi data il h1 with h2 | ⟨h2, _⟩
        · exact Or.inl h2
        · right
          exact runOps_last_mono ops _ (by
            simp only [StreamOp.step, Reassembler.insert_last]; exact h2)
      | pop len => exact Or.inl h1
    · exact Or.inr h1

/-- C8 fails: the writer is closed before the end of the stream.  With
capacity 2, the single fragment `insert(0, "abcd", last)` is cut to "ab" by
the acceptance window and still closes the writer, at `bytes_pushed = 2`
while the fragment ends at index 4.  With capacity 8, `insert(3, "", last)`
closes the writer at `bytes_pushed = 0` while the stream ends at index 3, and
the bytes of the following `insert(0, "abc", false)` are taken out of the
reassembler without reaching the stream.  With capacity 4, after
`insert(1, "b", false)`, `insert(4, "", last)` and `insert(0, "a", false)` the
writer is closed at `bytes_pushed = 2` while the flagged fragment ends at
index 4. -/
theorem Reassembler.truncated_last_closes :
    ((runOps (Reassembler.new, ByteStream.new 2)
        [StreamOp.insert 0 ['a', 'b', 'c', 'd'] true]).2.is_closed = true ∧
      (runOps (Reassembler.new, ByteStream.new 2)
        [StreamOp.insert 0 ['a', 'b', 'c', 'd'] true]).2.bytes_pushed = 2 ∧
      (runOps (Reassembler.new, ByteStream.new 2)
        [StreamOp.insert 0 ['a', 'b', 'c', 'd'] true]).2.bytes_pushed
        ≠ 0 + ['a', 'b', 'c', 'd'].length) ∧
    ((runOps (Reassembler.new, ByteStream.new 8)
        [StreamOp.insert 3 [] true]).2.is_closed = true ∧
      (runOps (Reassembler.new, ByteStream.new 8)
        [StreamOp.insert 3 [] true]).2.bytes_pushed = 0 ∧
      (runOps (Reassembler.new, ByteStream.new 8)
        [StreamOp.insert 3 [] true, StreamOp.insert 0 ['a', 'b', 'c'] false]).2.peek = [] ∧
      (runOps (Reassembler.new, ByteStream.new 8)
        [StreamOp.insert 3 [] true, StreamOp.insert 0 ['a', 'b', 'c'] false]).2.bytes_pushed
        = 0 ∧
      (runOps (Reassembler.new, ByteStream.new 8)
        [StreamOp.insert 3 [] true, StreamOp.insert 0 ['a', 'b', 'c'] false]).1.bytes_pending
        = 0) ∧
    ((runOps (Reassembler.new, ByteStream.new 4)
        [StreamOp.insert 1 ['b'] false, StreamOp.insert 4 [] true]).2.is_closed = false ∧
      (runOps (Reassembler.new, ByteStream.new 4)
        [StreamOp.insert 1 ['b'] false, StreamOp.insert 4 [] true,
         StreamOp.insert 0 ['a'] false]).2.is_closed = true ∧
      (runOps (Reassembler.new, ByteStream.new 4)
        [StreamOp.insert 1 ['b'] false, StreamOp.insert 4 [] true,
         StreamOp.insert 0 ['a'] false]).2.bytes_pushed = 2) := by
  decide

/-- What the close test `last && bytes_pending() == 0` does ensure: for
every sequence of `insert` and `pop` calls on a fresh reassembler and an
initially open writer, if the writer is closed afterwards then some inserted
fragment had `is_last = true`; and an `insert` that finds the writer open and
leaves it closed leaves `bytes_pending() = 0`, and it or an earlier fragment
had `is_last = true`.  Nothing relates `bytes_pushed` to the end of that
fragment. -/
theorem Reassembler.closed_only_after_last (w0 : ByteStream) (ops : List StreamOp)
    (hopen : w0.is_closed = false) :
    ((runOps (Reassembler.new, w0) ops).2.is_closed = true →
      ∃ fi data, StreamOp.insert fi data true ∈ ops) ∧
    ∀ (first_index : Nat) (data : List Char) (is_last : Bool),
      (runOps (Reassembler.new, w0) ops).2.is_closed = false →
      ((StreamOp.insert first_index data is_last).step
        (runOps (Reassembler.new, w0) ops)).2.is_closed = true →
      ((StreamOp.insert first_index data is_last).step
        (runOps (Reassembler.new, w0) ops)).1.bytes_pending = 0 ∧
      (is_last = true ∨ ∃ fi data, StreamOp.insert fi data true ∈ ops) := by
  have hnew : ¬ ((Reassembler.new, w0) : Reassembler × ByteStream).1.last = true := by
    simp [Reassembler.new]
  have hw0 : ¬ w0.closed_ = true := by
    simpa [ByteStream.is_closed] using hopen
  constructor
  · intro hcl
    rcases runOps_closed_origin ops _ hcl with h | h
    · exact absurd h hw0
    · rcases runOps_last_origin ops _ h with h2 | h2
      · exact absurd h2 hnew
      · exact h2
  · intro fi data il hbefore hafter
    simp only [ByteStream.is_closed, StreamOp.step] at hbefore hafter
    rcases Reassembler.insert_closed _ _ fi data il hafter with h | ⟨h1, h2⟩
    · rw [hbefore] at h; exact absurd h (by decide)
    · refine ⟨h2, ?_⟩
      simp only [Bool.or_eq_true] at h1
      rcases h1 with h1 | h1
      · right
        rcases runOps_last_origin ops _ h1 with h3 | h3
        · exact absurd h3 hnew
        · exact h3
      · exact Or.inl h1

theorem Reassembler.closed_only_after_last_witness :
    (ByteStream.new 8).is_closed = false ∧
    (runOps (Reassembler.new, ByteStream.new 8)
        [StreamOp.insert 0 ['a', 'b'] false, StreamOp.insert 2 ['c', 'd'] true]).2.is_closed
      = true ∧
    ∃ fi data, StreamOp.insert fi data true ∈
      [StreamOp.insert 0 ['a', 'b'] false, StreamOp.insert 2 ['c', 'd'] true] :=
  ⟨rfl, by decide,
   (Reassembler.closed_only_after_last (ByteStream.new 8)
    [StreamOp.insert 0 ['a', 'b'] false, StreamOp.insert 2 ['c', 'd'] true] rfl).1
      (by decide)⟩

theorem set_append_at {α : Type} (pre : List α) (x a : α) (tl : List α) :
    (pre ++ x :: tl).set pre.length a = pre ++ a :: tl := by
  induction pre with
  | nil => rfl
  | cons p ps ih => simp only [List.cons_append, List.length_cons, List.set_cons_succ, ih]

theorem getD_append_at {α : Type} (pre : List α) (x d : α) (tl : List α) :
    (pre ++ x :: tl).getD pre.length d = x := by
  induction pre with
  | nil => rfl
  | cons p ps ih => simpa only [List.cons_append, List.length_cons, List.getD_cons_succ] using ih

/-- The copy loop when the whole fragment falls inside the vectors and no
index wraps around: the block of slots it covers is overwritten with the
fragment and marked filled, and `pending` grows by the number of slots of
the block that were not filled. -/
theorem Reassembler.storeLoop_block (internal_first : Nat) :
    ∀ (data : List Char) (i : Nat) (r : Reassembler) (pre mid post : List Char)
      (fpre fmid fpost : List Bool),
      r.bytes = pre ++ (mid ++ post) → r.filled = fpre ++ (fmid ++ fpost) →
      pre.length = internal_first + i → fpre.length = internal_first + i →
      mid.length = data.length → fmid.length = data.length →
      internal_first + i + data.length ≤ 2 ^ 64 → r.pending + fmid.count false < 2 ^ 64 →
      Reassembler.storeLoop internal_first i data r =
        { bytes := pre ++ (data ++ post),
          filled := fpre ++ (List.replicate data.length true ++ fpost),
          pending := r.pending + fmid.count false,
          last := r.last } := by
  intro data
  induction data with
  | nil =>
    intro i r pre mid post fpre fmid fpost hb hf _ _ hm hfm _ _
    have hm0 : mid = [] := List.length_eq_zero.mp hm
    have hfm0 : fmid = [] := List.length_eq_zero.mp hfm
    subst hm0 hfm0
    cases r
    simp only [Reassembler.storeLoop] at *
    simp [hb, hf]
  | cons c rest ih =>
    intro i r pre mid post fpre fmid fpost hb hf hpl hfl hm hfm hfit hpend
    cases mid with
    | nil => simp at hm
    | cons m0 mid1 =>
    cases fmid with
    | nil => simp at hfm
    | cons f0 fmid1 =>
    simp only [List.length_cons] at hm hfm hfit
    have hslot : add64 internal_first i = pre.length := by
      rw [hpl]; exact add64_of_lt (by omega)
    have hslotf : add64 internal_first i = fpre.length := by rw [hslot, hpl, hfl]
    have hguard : ¬ (add64 internal_first i ≥ r.bytes.length) := by
      rw [hslot, hb]; simp
    unfold Reassembler.storeLoop
    rw [if_neg hguard]
    have hset : r.bytes.set (add64 internal_first i) c = (pre ++ [c]) ++ (mid1 ++ post) := by
      rw [hb, hslot, List.cons_append, set_append_at]; simp
    have hsetf : r.filled.set (add64 internal_first i) true
        = (fpre ++ [true]) ++ (fmid1 ++ fpost) := by
      rw [hf, hslotf, List.cons_append, set_append_at]; simp
    have hget : r.filled.getD (add64 internal_first i) false = f0 := by
      rw [hf, hslotf, List.cons_append, getD_append_at]
    rw [ih (i + 1) _ (pre ++ [c]) mid1 post (fpre ++ [true]) fmid1 fpost hset hsetf
      (by simp; omega) (by simp; omega) (by omega) (by omega) (by omega)
      (by
        simp only [hget]
        cases f0
        · simp only [Bool.false_eq_true, if_false, List.count_cons_self] at hpend ⊢
          rw [add64_of_lt (show r.pending + 1 < 2 ^ 64 by omega)]; omega
        · simpa using hpend)]
    simp only [hget, List.append_assoc, List.singleton_append, List.length_cons,
      List.replicate_succ, List.cons_append, Reassembler.mk.injEq, true_and, and_true]
    cases f0
    · simp only [Bool.false_eq_true, if_false, List.count_cons_self] at hpend ⊢
      rw [add64_of_lt (show r.pending + 1 < 2 ^ 64 by omega)]
      refine ⟨by simp, by simp, by omega⟩
    · simp

theorem Reassembler.package_false_head (fs : List Bool) (bs : List Char) :
    Reassembler.package (false :: fs) bs = [] := by
  cases bs <;> rfl

theorem Reassembler.package_all_true :
    ∀ (bs : List Char), Reassembler.package (List.replicate bs.length true) bs = bs
  | [] => rfl
  | b :: bs => by
    simp only [List.length_cons, List.replicate_succ, Reassembler.package,
      Reassembler.package_all_true bs]

theorem ByteStream.new_available (capacity : Nat) (hc : capacity < 2 ^ 64) :
    (ByteStream.new capacity).available_capacity = capacity := by
  rw [ByteStream.available_eq _ hc (Nat.zero_le _)]; rfl

/-- The state after the out-of-order fragment `s[k..]` arrives first. -/
theorem Reassembler.insert_tail_first (s : List Char) (capacity k : Nat)
    (hs2 : s.length ≤ capacity) (hc : capacity < 2 ^ 64) (hk0 : 0 < k) (hk : k < s.length) :
    Reassembler.new.insert k (s.drop k) false (ByteStream.new capacity) =
      ({ bytes := List.replicate k (Char.ofNat 0) ++ s.drop k,
         filled := List.replicate k false ++ List.replicate (s.length - k) true,
         pending := s.length - k, last := false },
       ByteStream.new capacity) := by
  have hav := ByteStream.new_available capacity hc
  have hbp : (ByteStream.new capacity).bytes_pushed = 0 := rfl
  have hlen : (s.drop k).length = s.length - k := List.length_drop _ _
  have hrej : ¬ ((s.drop k).length = 0 ∨
      k ≥ add64 (ByteStream.new capacity).bytes_pushed
        (ByteStream.new capacity).available_capacity) := by
    rw [hbp, hav, add64_of_lt (by omega), hlen]; omega
  have hif : sub64 k 0 = k := by rw [sub64_of_le (Nat.zero_le _) (by omega)]; rfl
  have hneeded : add64 k (s.length - k) = s.length := by
    rw [add64_of_lt (by omega)]; omega
  have hgrow : Reassembler.new.grow s.length capacity =
      { bytes := List.replicate s.length (Char.ofNat 0),
        filled := List.replicate s.length false, pending := 0, last := false } := by
    simp [Reassembler.grow, Reassembler.new, vresize, Nat.min_eq_left hs2]
  have hsplit : ∀ {α : Type} (v : α), List.replicate s.length v
      = List.replicate k v ++ (List.replicate (s.length - k) v ++ []) := by
    intro α v
    have hsum : k + (s.length - k) = s.length := by omega
    rw [List.append_nil, ← List.replicate_add, hsum]
  have hstore := Reassembler.storeLoop_block k (s.drop k) 0
    { bytes := List.replicate s.length (Char.ofNat 0),
      filled := List.replicate s.length false, pending := 0, last := false }
    (List.replicate k (Char.ofNat 0)) (List.replicate (s.length - k) (Char.ofNat 0)) []
    (List.replicate k false) (List.replicate (s.length - k) false) []
    (hsplit _) (hsplit _) (by simp) (by simp) (by simp) (by simp)
    (by rw [hlen]; omega) (by simp only [List.count_replicate_self]; omega)
  rw [Reassembler.insert_accept _ _ _ _ _ hrej]
  simp only [hbp, hav, hif, hlen, hneeded, hgrow, hstore, List.append_nil]
  have hpk : Reassembler.package
      (List.replicate k false ++ List.replicate (s.length - k) true)
      (List.replicate k (Char.ofNat 0) ++ List.drop k s) = [] := by
    obtain ⟨k', rfl⟩ : ∃ k', k = k' + 1 := ⟨k - 1, by omega⟩
    simp only [List.replicate_succ, List.cons_append, Reassembler.package_false_head]
  simp only [hpk, List.length_nil, List.drop_zero]
  have hsub : sub64 (s.length - k) 0 = s.length - k := by
    rw [sub64_of_le (Nat.zero_le _) (by omega)]; rfl
  have hadd : add64 0 0 = 0 := add64_of_lt (by norm_num)
  simp [hsub, hadd, ByteStream.push, ByteStream.new, Reassembler.new]

/-- The state after the whole string arrives on top of its stored tail. -/
theorem Reassembler.insert_whole_second (s : List Char) (capacity k : Nat)
    (hs2 : s.length ≤ capacity) (hc : capacity < 2 ^ 64) (hk0 : 0 < k) (hk : k < s.length) :
    Reassembler.insert
      { bytes := List.replicate k (Char.ofNat 0) ++ s.drop k,
        filled := List.replicate k false ++ List.replicate (s.length - k) true,
        pending := s.length - k, last := false }
      0 s false (ByteStream.new capacity) =
      (Reassembler.new,
       { ByteStream.new capacity with buffer_ := s, bytes_pushed_ := s.length }) := by
  have hav := ByteStream.new_available capacity hc
  have hbp : (ByteStream.new capacity).bytes_pushed = 0 := rfl
  have hrej : ¬ (s.length = 0 ∨
      0 ≥ add64 (ByteStream.new capacity).bytes_pushed
        (ByteStream.new capacity).available_capacity) := by
    rw [hbp, hav, add64_of_lt (by omega)]; omega
  have hif : sub64 0 0 = 0 := by rw [sub64_of_le (Nat.zero_le _) (by norm_num)]
  have hneeded : add64 0 s.length = s.length := by
    rw [add64_of_lt (by omega)]; omega
  have hlen0 : (List.replicate k (Char.ofNat 0) ++ s.drop k).length = s.length := by
    simp; omega
  have hlen1 : (List.replicate k false ++ List.replicate (s.length - k) true).length
      = s.length := by
    simp; omega
  have hgrow : Reassembler.grow
      { bytes := List.replicate k (Char.ofNat 0) ++ s.drop k,
        filled := List.replicate k false ++ List.replicate (s.length - k) true,
        pending := s.length - k, last := false } s.length capacity =
      { bytes := List.replicate k (Char.ofNat 0) ++ s.drop k,
        filled := List.replicate k false ++ List.replicate (s.length - k) true,
        pending := s.length - k, last := false } := by
    simp only [Reassembler.grow, hlen0, le_refl, if_true, Nat.min_eq_left hs2]
    rw [vresize_of_le _ _ _ (le_of_eq hlen0), vresize_of_le _ _ _ (le_of_eq hlen1),
      hlen0, hlen1]
    simp
  have hcount : (List.replicate k false ++ List.replicate (s.length - k) true).count false
      = k := by
    simp [List.count_append, List.count_replicate]
  have hstore := Reassembler.storeLoop_block 0 s 0
    { bytes := List.replicate k (Char.ofNat 0) ++ s.drop k,
      filled := List.replicate k false ++ List.replicate (s.length - k) true,
      pending := s.length - k, last := false }
    [] (List.replicate k (Char.ofNat 0) ++ s.drop k) []
    [] (List.replicate k false ++ List.replicate (s.length - k) true) []
    (by simp) (by simp) rfl rfl hlen0 hlen1 (by omega) (by simp only [hcount]; omega)
  rw [Reassembler.insert_accept _ _ _ _ _ hrej]
  simp only [hbp, hav, hif, hneeded, hgrow, hstore, hcount, List.append_nil, List.nil_append,
    Reassembler.package_all_true]
  have hpend : s.length - k + k = s.length := by omega
  have hsub : sub64 s.length s.length = 0 := by
    rw [sub64_of_le (le_refl s.length) (by omega)]; omega
  have hpush : (ByteStream.new capacity).push s =
      { ByteStream.new capacity with buffer_ := s, bytes_pushed_ := s.length } := by
    rw [ByteStream.push_open _ _ rfl rfl (by rw [hav]; exact hs2)]
    simp [ByteStream.new, hneeded]
  simp only [hpend, hsub, hpush]
  simp [Reassembler.new, ByteStream.new]

/-- C9: for a string `s` with `1 ≤ |s| ≤ capacity` and `0 < k < |s|`, on a
fresh reassembler and an empty open writer, `insert(k, s[k..], false)` alone
leaves `bytes_pushed = 0` and `bytes_pending() = |s| - k`; followed by
`insert(0, s, false)` the writer has received exactly `s`
(`bytes_pushed = |s|`, not closed) and `bytes_pending() = 0`. -/
theorem Reassembler.overlap_reassembled (s : List Char) (capacity k : Nat)
    (_hs1 : 1 ≤ s.length) (hs2 : s.length ≤ capacity) (hc : capacity < 2 ^ 64)
    (hk0 : 0 < k) (hk : k < s.length) :
    (runOps (Reassembler.new, ByteStream.new capacity)
        [StreamOp.insert k (s.drop k) false]).2.bytes_pushed = 0 ∧
    (runOps (Reassembler.new, ByteStream.new capacity)
        [StreamOp.insert k (s.drop k) false]).1.bytes_pending = s.length - k ∧
    delivered (Reassembler.new, ByteStream.new capacity)
        [StreamOp.insert k (s.drop k) false, StreamOp.insert 0 s false] = s ∧
    (runOps (Reassembler.new, ByteStream.new capacity)
        [StreamOp.insert k (s.drop k) false, StreamOp.insert 0 s false]).2.peek = s ∧
    (runOps (Reassembler.new, ByteStream.new capacity)
        [StreamOp.insert k (s.drop k) false, StreamOp.insert 0 s false]).2.bytes_pushed
      = s.length ∧
    (runOps (Reassembler.new, ByteStream.new capacity)
        [StreamOp.insert k (s.drop k) false, StreamOp.insert 0 s false]).2.is_closed
      = false ∧
    (runOps (Reassembler.new, ByteStream.new capacity)
        [StreamOp.insert k (s.drop k) false, StreamOp.insert 0 s false]).1.bytes_pending
      = 0 := by
  have h1 := Reassembler.insert_tail_first s capacity k hs2 hc hk0 hk
  have h2 := Reassembler.insert_whole_second s capacity k hs2 hc hk0 hk
  simp only [runOps, List.foldl, StreamOp.step, delivered, StreamOp.pushedBy, h1, h2]
  simp [ByteStream.new, ByteStream.bytes_pushed, ByteStream.peek, ByteStream.is_closed,
    Reassembler.bytes_pending, Reassembler.new]

theorem Reassembler.overlap_reassembled_witness :
    (runOps (Reassembler.new, ByteStream.new 8)
        [StreamOp.insert 2 ['c', 'd'] false]).2.bytes_pushed = 0 ∧
    (runOps (Reassembler.new, ByteStream.new 8)
        [StreamOp.insert 2 ['c', 'd'] false]).1.bytes_pending = 2 ∧
    delivered (Reassembler.new, ByteStream.new 8)
        [StreamOp.insert 2 ['c', 'd'] false, StreamOp.insert 0 ['a', 'b', 'c', 'd'] false]
      = ['a', 'b', 'c', 'd'] ∧
    (runOps (Reassembler.new, ByteStream.new 8)
        [StreamOp.insert 2 ['c', 'd'] false,
         StreamOp.insert 0 ['a', 'b', 'c', 'd'] false]).2.peek = ['a', 'b', 'c', 'd'] ∧
    (runOps (Reassembler.new, ByteStream.new 8)
        [StreamOp.insert 2 ['c', 'd'] false,
         StreamOp.insert 0 ['a', 'b', 'c', 'd'] false]).2.bytes_pushed = 4 ∧
    (runOps (Reassembler.new, ByteStream.new 8)
        [StreamOp.insert 2 ['c', 'd'] false,
         StreamOp.insert 0 ['a', 'b', 'c', 'd'] false]).2.is_closed = false ∧
    (runOps (Reassembler.new, ByteStream.new 8)
        [StreamOp.insert 2 ['c', 'd'] false,
         StreamOp.insert 0 ['a', 'b', 'c', 'd'] false]).1.bytes_pending = 0 :=
  Reassembler.overlap_reassembled ['a', 'b', 'c', 'd'] 8 2
    (by decide) (by decide) (by decide) (by decide) (by decide)

/-! ## Reassembler: the stored bytes agree with the stream -/

theorem Agree_set (s : List Char) :
    ∀ (fs : List Bool) (bs : List Char) (k j : Nat) (c : Char),
      Agree s k fs bs → (k + j < 2 ^ 64 → s[k + j]? = some c) →
      Agree s k (fs.set j true) (bs.set j c) := by
  intro fs
  induction fs with
  | nil => intro bs k j c _ _; simp [Agree]
  | cons f fs ih =>
    intro bs k j c h hc
    cases bs with
    | nil => cases j <;> simp [Agree]
    | cons b bs =>
      cases j with
      | zero =>
        simp only [List.set_cons_zero, Agree]
        exact ⟨fun _ hk => hc (by simpa using hk), h.2⟩
      | succ j =>
        simp only [List.set_cons_succ, Agree]
        refine ⟨h.1, ih bs (k + 1) j c h.2 ?_⟩
        intro hk
        have e : k + 1 + j = k + (j + 1) := by omega
        rw [e] at hk ⊢
        exact hc hk

theorem Agree_append_false (s : List Char) (n : Nat) (c : Char) :
    ∀ (fs : List Bool) (bs : List Char) (k : Nat),
      Agree s k fs bs → fs.length = bs.length →
      Agree s k (fs ++ List.replicate n false) (bs ++ List.replicate n c) := by
  intro fs
  induction fs with
  | nil =>
    intro bs k h hlen
    have hb : bs = [] := List.length_eq_zero.mp hlen.symm
    subst hb
    simp only [List.nil_append]
    clear hlen h
    induction n generalizing k with
    | zero => simp [Agree]
    | succ n ihn =>
      simp only [List.replicate_succ, Agree]
      exact ⟨fun h => absurd h (by decide), ihn (k + 1)⟩
  | cons f fs ih =>
    intro bs k h hlen
    cases bs with
    | nil => simp at hlen
    | cons b bs =>
      simp only [List.cons_append, Agree]
      exact ⟨h.1, ih bs (k + 1) h.2 (by simpa using hlen)⟩

theorem Agree_grow (s : List Char) (k : Nat) (r : Reassembler) (needed available : Nat)
    (h : Agree s k r.filled r.bytes) (hlen : r.filled.length = r.bytes.length)
    (hav : r.bytes.length ≤ available) :
    Agree s k (r.grow needed available).filled (r.grow needed available).bytes := by
  unfold Reassembler.grow
  split_ifs with hn
  · have hle : r.bytes.length ≤ min needed available := Nat.le_min.mpr ⟨hn, hav⟩
    have hle2 : r.filled.length ≤ min needed available := by rw [hlen]; exact hle
    simp only [vresize_of_le _ _ _ hle, vresize_of_le _ _ _ hle2, hlen]
    exact Agree_append_false s _ _ _ _ k h hlen
  · exact h

theorem Reassembler.storeLoop_agree (s : List Char) (pushed internal_first : Nat) :
    ∀ (data : List Char) (i : Nat) (r : Reassembler),
      Agree s pushed r.filled r.bytes →
      (∀ (m : Nat) (c : Char), data[m]? = some c →
        pushed + add64 internal_first (i + m) < 2 ^ 64 →
        s[pushed + add64 internal_first (i + m)]? = some c) →
      Agree s pushed (Reassembler.storeLoop internal_first i data r).filled
        (Reassembler.storeLoop internal_first i data r).bytes := by
  intro data
  induction data with
  | nil => intro i r h _; exact h
  | cons c rest ih =>
    intro i r h hdata
    have hrest : ∀ (m : Nat) (c' : Char), rest[m]? = some c' →
        pushed + add64 internal_first (i + 1 + m) < 2 ^ 64 →
        s[pushed + add64 internal_first (i + 1 + m)]? = some c' := by
      intro m c' hm hlt
      have e : i + 1 + m = i + (m + 1) := by omega
      rw [e] at hlt ⊢
      exact hdata (m + 1) c' (by simpa using hm) hlt
    unfold Reassembler.storeLoop
    by_cases hg : add64 internal_first i ≥ r.bytes.length
    · rw [if_pos hg]; exact ih (i + 1) r h hrest
    · rw [if_neg hg]
      apply ih (i + 1) _ _ hrest
      exact Agree_set s _ _ pushed _ c h (by
        intro hlt
        have := hdata 0 c (by simp) (by simpa using hlt)
        simpa using this)

theorem drop_eq_cons_of_getElem? (s : List Char) :
    ∀ (k : Nat) (b : Char), s[k]? = some b → s.drop k = b :: s.drop (k + 1) := by
  induction s with
  | nil => intro k b h; simp at h
  | cons a s ih =>
    intro k b h
    cases k with
    | zero => simp at h; simp [h]
    | succ k =>
      simp only [List.getElem?_cons_succ] at h
      simpa using ih k b h

/-- The run collected by `package` from slots that agree with `s` is the
piece of `s` that starts at the first slot, and the slots left after
erasing it still agree with `s`. -/
theorem Reassembler.package_agree (s : List Char) (hs : s.length < 2 ^ 64) :
    ∀ (fs : List Bool) (bs : List Char) (k : Nat),
      Agree s k fs bs → k ≤ s.length →
      Reassembler.package fs bs = (s.drop k).take (Reassembler.package fs bs).length ∧
      k + (Reassembler.package fs bs).length ≤ s.length ∧
      Agree s (k + (Reassembler.package fs bs).length)
        (fs.drop (Reassembler.package fs bs).length)
        (bs.drop (Reassembler.package fs bs).length)
  | [], bs, k, h, hk => by
    refine ⟨by simp [Reassembler.package], by simpa [Reassembler.package] using hk, ?_⟩
    simp [Reassembler.package, Agree]
  | false :: fs, bs, k, h, hk => by
    simp only [Reassembler.package_false_head, List.length_nil, List.take_zero,
      Nat.add_zero, List.drop_zero, true_and]
    exact ⟨hk, h⟩
  | true :: fs, [], k, h, hk => by
    simp only [Reassembler.package, List.length_nil, List.take_zero,
      Nat.add_zero, List.drop_zero, true_and]
    exact ⟨hk, h⟩
  | true :: fs, b :: bs, k, h, hk => by
    have hb : s[k]? = some b := h.1 rfl (lt_of_le_of_lt hk hs)
    have hklt : k < s.length := by
      by_contra hcon
      have : s[k]? = none := List.getElem?_eq_none (by omega)
      rw [this] at hb; exact absurd hb (by simp)
    have ih := Reassembler.package_agree s hs fs bs (k + 1) h.2 hklt
    have hd := drop_eq_cons_of_getElem? s k b hb
    simp only [Reassembler.package, List.length_cons, List.drop_succ_cons]
    refine ⟨?_, by omega, ?_⟩
    · rw [hd, List.take_succ_cons, ← ih.1]
    · have e : k + ((Reassembler.package fs bs).length + 1)
          = k + 1 + (Reassembler.package fs bs).length := by omega
      rw [e]; exact ih.2.2

/-! ## Reassembler: only bytes of the stream are delivered -/

/-- When the absolute index of the slot used by the copy loop is a 64-bit
number, it is the absolute index of the byte copied. -/
theorem slot_index (first_index pushed m : Nat) (hp : pushed < 2 ^ 64)
    (hi : first_index + m < 2 ^ 64)
    (h : pushed + add64 (sub64 first_index pushed) (0 + m) < 2 ^ 64) :
    pushed + add64 (sub64 first_index pushed) (0 + m) = first_index + m := by
  unfold add64 sub64 at h ⊢
  omega

theorem fragment_getElem? (s data : List Char) (first_index m : Nat) (c : Char)
    (hdata : data = (s.drop first_index).take data.length) (hm : data[m]? = some c) :
    s[first_index + m]? = some c ∧ m < data.length := by
  have hlt : m < data.length := by
    by_contra hcon
    have : data[m]? = none := List.getElem?_eq_none (by omega)
    rw [this] at hm; exact absurd hm (by simp)
  refine ⟨?_, hlt⟩
  rw [hdata, List.getElem?_take_of_lt hlt, List.getElem?_drop] at hm
  exact hm

theorem Reassembler.insert_error (r : Reassembler) (w : ByteStream) (first_index : Nat)
    (data : List Char) (is_last : Bool) :
    (r.insert first_index data is_last w).2.error_ = w.error_ := by
  by_cases hrej : data.length = 0 ∨ first_index ≥ add64 w.bytes_pushed w.available_capacity
  · rw [Reassembler.insert_reject _ _ _ _ _ hrej]
  · rw [Reassembler.insert_accept _ _ _ _ _ hrej]
    simp only [ByteStream.push]
    split_ifs <;> rfl

/-- Nothing is appended to the buffer of a closed writer, and it stays
closed. -/
theorem Reassembler.insert_on_closed (r : Reassembler) (w : ByteStream) (first_index : Nat)
    (data : List Char) (is_last : Bool) (hcl : w.closed_ = true) :
    (r.insert first_index data is_last w).2.buffer_ = w.buffer_ ∧
    (r.insert first_index data is_last w).2.closed_ = true := by
  by_cases hrej : data.length = 0 ∨ first_index ≥ add64 w.bytes_pushed w.available_capacity
  · rw [Reassembler.insert_reject _ _ _ _ _ hrej]
    simp [hcl]
  · rw [Reassembler.insert_accept _ _ _ _ _ hrej]
    simp only [ByteStream.push_closed w _ (Or.inl hcl)]
    simp [hcl]

theorem take_append_take_drop (s : List Char) (a n : Nat) :
    s.take a ++ (s.drop a).take n = s.take (a + n) := by
  induction s generalizing a with
  | nil => simp
  | cons x xs ih =>
    cases a with
    | zero => simp
    | succ a =>
      have e : a + 1 + n = (a + n) + 1 := by omega
      simp only [List.take_succ_cons, List.drop_succ_cons, List.cons_append, e, ih]

theorem DeliveredInv_pop (s : List Char) (st : Reassembler × ByteStream) (pre : List Char)
    (len : Nat) (h : DeliveredInv s st pre) :
    DeliveredInv s ((StreamOp.pop len).step st) (pre ++ (StreamOp.pop len).pushedBy st) := by
  obtain ⟨hinv, herr, hpre, hopen⟩ := h
  simp only [StreamOp.step, StreamOp.pushedBy, List.append_nil]
  exact ⟨StreamInv_pop st.1 st.2 len hinv, herr, hpre, hopen⟩

theorem DeliveredInv_insert (s : List Char) (hs : s.length < 2 ^ 64)
    (r : Reassembler) (w : ByteStream) (pre : List Char)
    (first_index : Nat) (data : List Char) (is_last : Bool)
    (hcons : (StreamOp.insert first_index data is_last).consistentWith s)
    (h : DeliveredInv s (r, w) pre) :
    DeliveredInv s ((StreamOp.insert first_index data is_last).step (r, w))
      (pre ++ (StreamOp.insert first_index data is_last).pushedBy (r, w)) := by
  obtain ⟨hinv, herr, hpre, hopen⟩ := h
  have hinv1 := StreamInv_insert r w first_index data is_last hinv
  have herr1 := Reassembler.insert_error r w first_index data is_last
  simp only at herr hopen
  simp only [StreamOp.step, StreamOp.pushedBy]
  by_cases hcl : w.closed_ = true
  · -- a closed writer takes nothing and stays closed
    obtain ⟨hb, hc⟩ := Reassembler.insert_on_closed r w first_index data is_last hcl
    refine ⟨hinv1, by rw [herr1]; exact herr, ?_, ?_⟩
    · rw [hb]; simpa using hpre
    · intro hopen1; rw [hc] at hopen1; exact absurd hopen1 (by decide)
  · have hclf : w.closed_ = false := by simpa using hcl
    obtain ⟨hU, hag⟩ := hopen hclf
    by_cases hrej : data.length = 0 ∨
        first_index ≥ add64 w.bytes_pushed w.available_capacity
    · -- the fragment is dropped
      have heq := Reassembler.insert_reject r first_index data is_last w hrej
      refine ⟨hinv1, by rw [herr1]; exact herr, ?_, ?_⟩
      · rw [heq]; simpa using hpre
      · intro _
        rw [heq]
        simp only [List.drop_length, List.append_nil]
        exact ⟨hU, hag⟩
    · -- the fragment is stored and the filled front run is pushed
      obtain ⟨hc, hb, hp, hlen, hav, hcount⟩ := hinv
      simp only at hc hb hp hlen hav hcount
      obtain ⟨hdata, hfit⟩ := hcons
      have heq := Reassembler.insert_accept r first_index data is_last w hrej
      have hg := Reassembler.grow_lengths r
        (add64 (sub64 first_index w.bytes_pushed) data.length) w.available_capacity hlen hav
      have hag2 := Agree_grow s w.bytes_pushed_ r
        (add64 (sub64 first_index w.bytes_pushed) data.length) w.available_capacity
        hag hlen hav
      generalize r.grow (add64 (sub64 first_index w.bytes_pushed) data.length)
        w.available_capacity = r2 at heq hg hag2
      have hsh := Reassembler.storeLoop_shape (sub64 first_index w.bytes_pushed) data 0 r2
      have hag3 := Reassembler.storeLoop_agree s w.bytes_pushed_
        (sub64 first_index w.bytes_pushed) data 0 r2 hag2 (by
          intro m c hm hlt
          obtain ⟨hsm, hmlt⟩ := fragment_getElem? s data first_index m c hdata hm
          have hidx := slot_index first_index w.bytes_pushed_ m hp (by omega) hlt
          have hidx2 : w.bytes_pushed_ + add64 (sub64 first_index w.bytes_pushed) (0 + m)
              = first_index + m := hidx
          rw [hidx2]; exact hsm)
      generalize Reassembler.storeLoop (sub64 first_index w.bytes_pushed) 0 data r2 = r3
        at heq hsh hag3
      have hUle : w.bytes_pushed_ ≤ s.length := by
        rw [hU, hpre, List.length_take]; exact Nat.min_le_right _ _
      have hpk := Reassembler.package_agree s hs r3.filled r3.bytes w.bytes_pushed_ hag3 hUle
      have hpl := Reassembler.package_length_le r3.filled r3.bytes
      generalize Reassembler.package r3.filled r3.bytes = pkg at heq hpk hpl
      obtain ⟨hpkeq, hpkle, hag4⟩ := hpk
      have hfitw : pkg.length ≤ w.available_capacity := by omega
      have hpush := ByteStream.push_open w pkg hclf herr hfitw
      rw [hpush] at heq
      have hnew : pre ++ pkg = s.take (pre ++ pkg).length := by
        rw [List.length_append]
        conv_lhs => rw [hpre, hpkeq, ← hU]
        rw [← hU]
        exact take_append_take_drop s _ _
      have hadd : add64 w.bytes_pushed_ pkg.length = w.bytes_pushed_ + pkg.length :=
        add64_of_lt (by omega)
      refine ⟨hinv1, by rw [herr1]; exact herr, ?_, ?_⟩
      · rw [heq]
        simpa using hnew
      · intro _
        rw [heq]
        simp only [List.drop_left, List.length_append, hadd]
        exact ⟨by omega, hag4⟩

theorem DeliveredInv_step (s : List Char) (hs : s.length < 2 ^ 64)
    (st : Reassembler × ByteStream) (pre : List Char) (op : StreamOp)
    (hcons : op.consistentWith s) (h : DeliveredInv s st pre) :
    DeliveredInv s (op.step st) (pre ++ op.pushedBy st) := by
  cases op with
  | insert fi data il => exact DeliveredInv_insert s hs st.1 st.2 pre fi data il hcons h
  | pop len => exact DeliveredInv_pop s st pre len h

theorem DeliveredInv_run (s : List Char) (hs : s.length < 2 ^ 64) (ops : List StreamOp) :
    ∀ (st : Reassembler × ByteStream) (pre : List Char),
      (∀ op ∈ ops, op.consistentWith s) → DeliveredInv s st pre →
      pre ++ delivered st ops = s.take (pre ++ delivered st ops).length := by
  induction ops with
  | nil => intro st pre _ h; simpa [delivered] using h.2.2.1
  | cons op ops ih =>
    intro st pre hall h
    have hstep := DeliveredInv_step s hs st pre op (hall op (List.mem_cons_self _ _)) h
    have := ih (op.step st) (pre ++ op.pushedBy st)
      (fun o ho => hall o (List.mem_cons_of_mem _ ho)) hstep
    simpa [delivered, List.append_assoc] using this

/-- C1: for every string `s` (shorter than `2 ^ 64`), every capacity and every
sequence of `insert` calls whose fragments agree with `s`, interleaved with
`pop` calls, the bytes pushed to the writer, in order, are an initial piece
of `s`: the byte delivered at absolute index `i` is `s[i]`. -/
theorem Reassembler.delivered_is_initial_piece (s : List Char) (capacity : Nat)
    (ops : List StreamOp) (hs : s.length < 2 ^ 64) (hc : capacity < 2 ^ 64)
    (hcons : ∀ op ∈ ops, op.consistentWith s) :
    delivered (Reassembler.new, ByteStream.new capacity) ops <+: s ∧
    ∀ (i : Nat) (c : Char),
      (delivered (Reassembler.new, ByteStream.new capacity) ops)[i]? = some c →
      s[i]? = some c := by
  have hinit : DeliveredInv s (Reassembler.new, ByteStream.new capacity) [] := by
    refine ⟨StreamInv_new capacity hc, rfl, by simp, ?_⟩
    intro _
    exact ⟨rfl, by simp [Reassembler.new, Agree]⟩
  have h := DeliveredInv_run s hs ops _ [] hcons hinit
  simp only [List.nil_append] at h
  constructor
  · rw [h]; exact List.take_prefix _ _
  · intro i c hi
    rw [h] at hi
    have hlt : i < (delivered (Reassembler.new, ByteStream.new capacity) ops).length := by
      by_contra hcon
      have hnone : (List.take (delivered (Reassembler.new, ByteStream.new capacity) ops).length
          s)[i]? = none :=
        List.getElem?_eq_none (by
          rw [List.length_take]
          exact le_trans (Nat.min_le_left _ _) (by omega))
      rw [hnone] at hi; exact absurd hi (by simp)
    rw [List.getElem?_take_of_lt hlt] at hi
    exact hi

theorem Reassembler.delivered_is_initial_piece_witness :
    delivered (Reassembler.new, ByteStream.new 3)
      [StreamOp.insert 2 ['c', 'd'] false, StreamOp.pop 1,
       StreamOp.insert 0 ['a', 'b', 'c', 'd'] true] <+: ['a', 'b', 'c', 'd'] :=
  (Reassembler.delivered_is_initial_piece ['a', 'b', 'c', 'd'] 3
    [StreamOp.insert 2 ['c', 'd'] false, StreamOp.pop 1,
     StreamOp.insert 0 ['a', 'b', 'c', 'd'] true]
    (by decide) (by decide) (by simp [StreamOp.consistentWith])).1

/-! ## ByteStream: `push` -/

/-- C16: `push` on a stream that is closed or has its error flag set
changes nothing; otherwise it appends exactly the first
`min(available_capacity, |data|)` bytes of `data` to the end of the buffer,
adds that amount to `bytes_pushed` (in 64-bit arithmetic, so exactly when the
sum stays below `2 ^ 64`), and leaves `bytes_popped`, the closed flag, the
error flag and the capacity as they were. -/
theorem ByteStream.push_truncates (s : ByteStream) (data : List Char) :
    ((s.is_closed = true ∨ s.has_error = true) → s.push data = s) ∧
    (s.is_closed = false → s.has_error = false →
      (s.push data).peek = s.peek ++ data.take (min s.available_capacity data.length) ∧
      (s.push data).bytes_pushed
        = (s.bytes_pushed + min s.available_capacity data.length) % 2 ^ 64 ∧
      (s.bytes_pushed + min s.available_capacity data.length < 2 ^ 64 →
        (s.push data).bytes_pushed
          = s.bytes_pushed + min s.available_capacity data.length) ∧
      (s.push data).bytes_popped = s.bytes_popped ∧
      (s.push data).is_closed = false ∧
      (s.push data).has_error = false ∧
      (s.push data).capacity_ = s.capacity_) := by
  constructor
  · intro h
    exact ByteStream.push_closed s data h
  · intro hc he
    simp only [ByteStream.is_closed, ByteStream.has_error] at hc he
    simp only [ByteStream.push, hc, he, Bool.not_false, Bool.and_self, if_true,
      ByteStream.peek, ByteStream.bytes_pushed, ByteStream.bytes_popped,
      ByteStream.is_closed, ByteStream.has_error, add64]
    refine ⟨trivial, trivial, ?_, trivial, trivial, trivial, trivial⟩
    intro hlt
    exact Nat.mod_eq_of_lt hlt

theorem ByteStream.push_truncates_witness :
    ((ByteStream.new 3).push ['a', 'b', 'c', 'd']).peek = ['a', 'b', 'c'] ∧
    ((ByteStream.new 3).push ['a', 'b', 'c', 'd']).bytes_pushed = 3 :=
  have h := (ByteStream.push_truncates (ByteStream.new 3) ['a', 'b', 'c', 'd']).2 rfl rfl
  ⟨h.1.trans (by decide), (h.2.2.1 (by decide)).trans (by decide)⟩

/-! ## TCPReceiver: `send` -/

theorem ackno_sum (z u c : Nat) :
    (((z + 1 % 2 ^ 32) % 2 ^ 32 + u % 2 ^ 32) % 2 ^ 32 + c % 2 ^ 32) % 2 ^ 32
      = (z + 1 + u + c) % 2 ^ 32 := by
  omega

theorem TCPReceiver.receive_fst (rcv : TCPReceiver) (m : TCPSenderMessage)
    (r : Reassembler) (w : ByteStream) :
    (rcv.receive m r w).1 = if m.SYN then { isn := true, zero := m.seqno } else rcv := by
  unfold TCPReceiver.receive
  simp only
  split_ifs <;> rfl

/-- The receiver after a sequence of segments: it holds the sequence
number of the most recent SYN, or is as it was when none arrived. -/
theorem TCPReceiver.receiveAll_fst (msgs : List TCPSenderMessage) :
    ∀ st : TCPReceiver × Reassembler × ByteStream,
      (TCPReceiver.receiveAll st msgs).1 =
        match lastSyn msgs with
        | some z => { isn := true, zero := z }
        | none => st.1 := by
  induction msgs with
  | nil => intro st; rfl
  | cons m rest ih =>
    intro st
    have hstep : TCPReceiver.receiveAll st (m :: rest)
        = TCPReceiver.receiveAll (st.1.receive m st.2.1 st.2.2) rest := rfl
    rw [hstep, ih]
    simp only [lastSyn]
    cases hl : lastSyn rest with
    | some z => rfl
    | none =>
      simp only [TCPReceiver.receive_fst]
      split_ifs <;> rfl

/-- C13: the acknowledgment number computed by `send` is absent when no SYN
has been received, and otherwise is `zero + 1 + bytes_pushed + (1 if the
writer is closed, else 0)` modulo `2 ^ 32`, where `zero` is the sequence
number of the most recent SYN segment received (for a receiver that
starts in an arbitrary state and then receives any sequence of segments). -/
theorem TCPReceiver.send_ackno (rcv0 : TCPReceiver) (msgs : List TCPSenderMessage)
    (r0 : Reassembler) (w0 w : ByteStream) :
    ((TCPReceiver.receiveAll (rcv0, r0, w0) msgs).1.send w).ackno =
      match lastSyn msgs with
      | some zero =>
        some ⟨(zero.raw_value_ + 1 + w.bytes_pushed + (if w.is_closed then 1 else 0)) % 2 ^ 32⟩
      | none =>
        if rcv0.isn then
          some ⟨(rcv0.zero.raw_value_ + 1 + w.bytes_pushed
            + (if w.is_closed then 1 else 0)) % 2 ^ 32⟩
        else none := by
  rw [TCPReceiver.receiveAll_fst]
  have key : ∀ rcv : TCPReceiver, (rcv.send w).ackno =
      if rcv.isn then
        some ⟨(rcv.zero.raw_value_ + 1 + w.bytes_pushed
          + (if w.is_closed then 1 else 0)) % 2 ^ 32⟩
      else none := by
    intro rcv
    unfold TCPReceiver.send
    cases hi : rcv.isn
    · simp
    · simp only [if_true, Wrap32.add, Bool.toNat_true, Option.some.injEq, Wrap32.mk.injEq]
      have hc : w.is_closed.toNat = if w.is_closed = true then 1 else 0 := by
        cases w.is_closed <;> rfl
      rw [hc]
      exact ackno_sum _ _ _
  cases hl : lastSyn msgs with
  | some z => simp only [key]; rfl
  | none => simp only [key]

/-- C14 fails for an available capacity of `2 ^ 31` or more: with a stream of
capacity `2 ^ 31` and an empty buffer, `static_cast<int>` turns the available
capacity into `-2 ^ 31`, `min` keeps it, and the 16-bit `window_size` becomes
0, while `min(available_capacity, 65535)` is 65535. -/
theorem TCPReceiver.send_window_wraps :
    (ByteStream.new (2 ^ 31)).available_capacity = 2 ^ 31 ∧
    (TCPReceiver.new.send (ByteStream.new (2 ^ 31))).window_size = 0 ∧
    min (ByteStream.new (2 ^ 31)).available_capacity 65535 = 65535 := by
  decide

/-! ## TCPSender: ignored acknowledgments and the idle alarm -/

/-- C17: for a sender that has sent fewer than `2 ^ 32` sequence numbers (its
next sequence number is `n < 2 ^ 32` past the zero point) and a message whose
acknowledgment number is absent or unwraps to more than `n`, `receive` sets
the window to `msg.window_size` and changes nothing else. -/
theorem TCPSender.receive_ignores (s : TCPSender) (msg : TCPReceiverMessage) (n : Nat)
    (hz : s.zero_point.raw_value_ < 2 ^ 32) (hn : n < 2 ^ 32)
    (hcur : s.isn_ = Wrap32.wrap n s.zero_point)
    (hack : msg.ackno = none ∨
      ∃ ackno, msg.ackno = some ackno ∧ n < ackno.unwrap s.zero_point 0) :
    s.receive msg = { s with window := msg.window_size } := by
  have hun : s.isn_.unwrap s.zero_point 0 = n := by
    rw [hcur]; exact Wrap32.unwrap_wrap_zero n _ hn hz
  rcases hack with h | ⟨ackno, h, hgt⟩
  · simp only [TCPSender.receive, h]
  · simp only [TCPSender.receive, h, hun, gt_iff_lt, hgt, if_true]

theorem TCPSender.receive_ignores_witness :
    ({ TCPSender.new 1000 ⟨10⟩ with
        isn_ := ⟨15⟩, syn_set := true,
        sent_segs := [{ seqno := ⟨10⟩, SYN := true, payload := ['a', 'b', 'c', 'd'],
                        FIN := false }] } : TCPSender).receive
      { ackno := some ⟨16⟩, window_size := 9 } =
    { TCPSender.new 1000 ⟨10⟩ with
        isn_ := ⟨15⟩, syn_set := true, window := 9,
        sent_segs := [{ seqno := ⟨10⟩, SYN := true, payload := ['a', 'b', 'c', 'd'],
                        FIN := false }] } :=
  TCPSender.receive_ignores
    { TCPSender.new 1000 ⟨10⟩ with
        isn_ := ⟨15⟩, syn_set := true,
        sent_segs := [{ seqno := ⟨10⟩, SYN := true, payload := ['a', 'b', 'c', 'd'],
                        FIN := false }] }
    { ackno := some ⟨16⟩, window_size := 9 } 5 (by decide) (by decide) (by decide)
    (Or.inr ⟨⟨16⟩, rfl, by decide⟩)

/-- C18 fails: a newly constructed sender (window 1, nothing unacknowledged,
timeout 1000) after `tick(1000)` has `consecutive_retransmissions = 1` and
timeout 2000; the back-off is guarded by the window alone, not by the
presence of an unacknowledged segment. -/
theorem TCPSender.idle_tick_backs_off :
    (TCPSender.new 1000 ⟨0⟩).sent_segs = [] ∧
    ((TCPSender.new 1000 ⟨0⟩).tick 1000).consecutive_retransmissions = 1 ∧
    ((TCPSender.new 1000 ⟨0⟩).tick 1000).alarm = 2000 ∧
    (TCPSender.new 1000 ⟨0⟩).consecutive_retransmissions = 0 ∧
    (TCPSender.new 1000 ⟨0⟩).alarm = 1000 := by
  decide

/-! ## ByteStream: the counters -/

theorem CounterInv_step (C n : Nat) (s : ByteStream) (op : ByteStreamOp)
    (hC : C < 2 ^ 64) (hn : n + op.offered < 2 ^ 64) (h : CounterInv C n s) :
    CounterInv C (n + op.offered) (op.step s) ∧
    s.bytes_pushed_ ≤ (op.step s).bytes_pushed_ ∧
    s.bytes_popped_ ≤ (op.step s).bytes_popped_ := by
  obtain ⟨hcap, hlen, hcnt, hle⟩ := h
  have hav : s.available_capacity = C - s.buffer_.length := by
    rw [ByteStream.available_eq s (by omega) (by omega), hcap]
  cases op with
  | push data =>
    simp only [ByteStreamOp.step, ByteStreamOp.offered] at hn ⊢
    by_cases hopen : s.closed_ = false ∧ s.error_ = false
    · have hmin : min s.available_capacity data.length ≤ data.length := Nat.min_le_right _ _
      have hmin2 : min s.available_capacity data.length ≤ C - s.buffer_.length := by
        rw [← hav]; exact Nat.min_le_left _ _
      have hadd : add64 s.bytes_pushed_ (min s.available_capacity data.length)
          = s.bytes_pushed_ + min s.available_capacity data.length :=
        add64_of_lt (by omega)
      simp only [ByteStream.push, hopen.1, hopen.2, Bool.not_false, Bool.and_self, if_true,
        hadd]
      refine ⟨⟨hcap, ?_, ?_, ?_⟩, ?_, le_refl _⟩
      · show (s.buffer_ ++ data.take (min s.available_capacity data.length)).length ≤ C
        simp only [List.length_append, List.length_take]; omega
      · show s.bytes_pushed_ + min s.available_capacity data.length = s.bytes_popped_ +
          (s.buffer_ ++ data.take (min s.available_capacity data.length)).length
        simp only [List.length_append, List.length_take]; omega
      · show s.bytes_pushed_ + min s.available_capacity data.length ≤ n + data.length
        omega
      · show s.bytes_pushed_ ≤ s.bytes_pushed_ + min s.available_capacity data.length
        omega
    · have hcl : s.closed_ = true ∨ s.error_ = true := by
        by_cases h1 : s.closed_ = true
        · exact Or.inl h1
        · right
          by_cases h2 : s.error_ = true
          · exact h2
          · exact absurd ⟨by simpa using h1, by simpa using h2⟩ hopen
      rw [ByteStream.push_closed s data hcl]
      exact ⟨⟨hcap, hlen, hcnt, by omega⟩, le_refl _, le_refl _⟩
  | close =>
    exact ⟨⟨hcap, hlen, hcnt, by simpa [ByteStreamOp.offered] using hle⟩, le_refl _, le_refl _⟩
  | set_error =>
    exact ⟨⟨hcap, hlen, hcnt, by simpa [ByteStreamOp.offered] using hle⟩, le_refl _, le_refl _⟩
  | pop len =>
    simp only [ByteStreamOp.step, ByteStreamOp.offered, Nat.add_zero] at hn ⊢
    have hmin : min len s.buffer_.length ≤ s.buffer_.length := Nat.min_le_right _ _
    have hadd : add64 s.bytes_popped_ (min len s.buffer_.length)
        = s.bytes_popped_ + min len s.buffer_.length :=
      add64_of_lt (by omega)
    simp only [ByteStream.pop, hadd]
    refine ⟨⟨hcap, ?_, ?_, hle⟩, le_refl _, ?_⟩
    · show (s.buffer_.drop (min len s.buffer_.length)).length ≤ C
      simp only [List.length_drop]; omega
    · show s.bytes_pushed_ = s.bytes_popped_ + min len s.buffer_.length +
        (s.buffer_.drop (min len s.buffer_.length)).length
      simp only [List.length_drop]; omega
    · show s.bytes_popped_ ≤ s.bytes_popped_ + min len s.buffer_.length
      omega

theorem CounterInv_run (C : Nat) (hC : C < 2 ^ 64) (ops : List ByteStreamOp) :
    ∀ (s : ByteStream) (n : Nat), CounterInv C n s →
      n + ByteStreamOp.totalOffered ops < 2 ^ 64 →
      CounterInv C (n + ByteStreamOp.totalOffered ops) (s.run ops) := by
  induction ops with
  | nil => intro s n h _; simpa [ByteStreamOp.totalOffered, ByteStream.run] using h
  | cons op ops ih =>
    intro s n h hn
    have htot : ByteStreamOp.totalOffered (op :: ops)
        = op.offered + ByteStreamOp.totalOffered ops := by
      simp [ByteStreamOp.totalOffered]
    rw [htot] at hn ⊢
    have hstep := (CounterInv_step C n s op hC (by omega) h).1
    have := ih (op.step s) (n + op.offered) hstep (by omega)
    have e : n + (op.offered + ByteStreamOp.totalOffered ops)
        = n + op.offered + ByteStreamOp.totalOffered ops := by omega
    rw [e]
    exact this

/-- C15: on a stream constructed with capacity `C`, after every sequence of
`push`, `close`, `set_error` and `pop` calls (offering fewer than `2 ^ 64`
bytes in all, so that the 64-bit counters do not wrap),
`bytes_pushed - bytes_popped = bytes_buffered`, `0 ≤ bytes_buffered ≤ C`,
`available_capacity = C - bytes_buffered`, and the last call has decreased
neither `bytes_pushed` nor `bytes_popped`. -/
theorem ByteStream.counters_invariant (C : Nat) (ops : List ByteStreamOp)
    (op : ByteStreamOp) (hC : C < 2 ^ 64)
    (hbound : ByteStreamOp.totalOffered (ops ++ [op]) < 2 ^ 64) :
    (op.step ((ByteStream.new C).run ops)).bytes_pushed
        - (op.step ((ByteStream.new C).run ops)).bytes_popped
      = (op.step ((ByteStream.new C).run ops)).bytes_buffered ∧
    (op.step ((ByteStream.new C).run ops)).bytes_popped
      ≤ (op.step ((ByteStream.new C).run ops)).bytes_pushed ∧
    (op.step ((ByteStream.new C).run ops)).bytes_buffered ≤ C ∧
    (op.step ((ByteStream.new C).run ops)).available_capacity
      = C - (op.step ((ByteStream.new C).run ops)).bytes_buffered ∧
    ((ByteStream.new C).run ops).bytes_pushed
      ≤ (op.step ((ByteStream.new C).run ops)).bytes_pushed ∧
    ((ByteStream.new C).run ops).bytes_popped
      ≤ (op.step ((ByteStream.new C).run ops)).bytes_popped := by
  have htot : ByteStreamOp.totalOffered (ops ++ [op])
      = ByteStreamOp.totalOffered ops + op.offered := by
    simp [ByteStreamOp.totalOffered]
  rw [htot] at hbound
  have h0 : CounterInv C 0 (ByteStream.new C) := ⟨rfl, Nat.zero_le _, rfl, le_refl _⟩
  have hrun := CounterInv_run C hC ops (ByteStream.new C) 0 h0 (by omega)
  obtain ⟨hinv, hm1, hm2⟩ := CounterInv_step C _ _ op hC (by omega) hrun
  obtain ⟨hcap, hlen, hcnt, _⟩ := hinv
  have hav := ByteStream.available_eq _ (by omega : (op.step
    ((ByteStream.new C).run ops)).capacity_ < 2 ^ 64) (by omega)
  simp only [ByteStream.bytes_pushed, ByteStream.bytes_popped, ByteStream.bytes_buffered]
  refine ⟨by omega, by omega, hlen, by rw [hav, hcap], hm1, hm2⟩

theorem ByteStream.counters_invariant_witness :
    (ByteStreamOp.step ((ByteStream.new 3).run
        [ByteStreamOp.push ['a', 'b', 'c', 'd'], ByteStreamOp.pop 2, ByteStreamOp.close])
        (ByteStreamOp.push ['e'])).bytes_pushed
      - (ByteStreamOp.step ((ByteStream.new 3).run
        [ByteStreamOp.push ['a', 'b', 'c', 'd'], ByteStreamOp.pop 2, ByteStreamOp.close])
        (ByteStreamOp.push ['e'])).bytes_popped
      = (ByteStreamOp.step ((ByteStream.new 3).run
        [ByteStreamOp.push ['a', 'b', 'c', 'd'], ByteStreamOp.pop 2, ByteStreamOp.close])
        (ByteStreamOp.push ['e'])).bytes_buffered :=
  (ByteStream.counters_invariant 3
    [ByteStreamOp.push ['a', 'b', 'c', 'd'], ByteStreamOp.pop 2, ByteStreamOp.close]
    (ByteStreamOp.push ['e']) (by decide) (by decide)).1

/-! ## NetworkInterface: address resolution -/

theorem type_arp_ne_ipv4 : ¬ (TYPE_ARP = TYPE_IPv4) := by decide

/-- C19: for a frame addressed to the interface or to the broadcast
address, of type ARP, that parses to an ARP message with sender IP `X` and
sender Ethernet address `M`: `recv_frame` returns no datagram, sets
`ethernet_map[X]` to `(M, 0)`, appends the frames waiting for `X`, in their
order and each with destination `M` and otherwise unchanged, to `send_queue`
after the frames already queued and before the ARP reply (which is queued
exactly when the message is a request for the interface's own IP), and
leaves no frame waiting for `X`. -/
theorem NetworkInterface.recv_arp_releases (wire : Wire) (ni : NetworkInterface)
    (frame : EthernetFrame) (msg : ARPMessage)
    (hdst : frame.header.dst = ETHERNET_BROADCAST ∨ frame.header.dst = ni.ethernet_address_)
    (htype : frame.header.type = TYPE_ARP)
    (hparse : wire.parse_arp frame.payload = some msg) :
    (ni.recv_frame wire frame).1 = none ∧
    (ni.recv_frame wire frame).2.ethernet_map msg.sender_ip_address
      = some { eth := msg.sender_ethernet_address, time := 0 } ∧
    (ni.recv_frame wire frame).2.send_queue
      = ni.send_queue
        ++ (ni.waiting msg.sender_ip_address).map (fun f =>
            { f with header := { f.header with dst := msg.sender_ethernet_address } })
        ++ (if msg.target_ip_address = ni.ip_address_ ∧ msg.opcode = OPCODE_REQUEST then
              [NetworkInterface.make_eth_frame ni.ethernet_address_
                msg.sender_ethernet_address TYPE_ARP
                (wire.serialize_arp (NetworkInterface.make_arp_msg msg.sender_ip_address
                  msg.target_ip_address (some frame.header.src) ni.ethernet_address_
                  OPCODE_REPLY))]
            else []) ∧
    (ni.recv_frame wire frame).2.waiting msg.sender_ip_address = [] := by
  have hnot : ¬ (frame.header.dst ≠ ETHERNET_BROADCAST ∧
      frame.header.dst ≠ ni.ethernet_address_) := by
    rintro ⟨h1, h2⟩
    rcases hdst with h | h
    · exact h1 h
    · exact h2 h
  unfold NetworkInterface.recv_frame
  have hq : (if TYPE_ARP = TYPE_IPv4 then wire.parse_dgram frame.payload else none)
      = none := if_neg type_arp_ne_ipv4
  simp only [if_neg hnot, htype, hq, if_true, hparse]
  cases hw : ni.arp_waiting msg.sender_ip_address with
  | none =>
    by_cases hreq : msg.target_ip_address = ni.ip_address_ ∧ msg.opcode = OPCODE_REQUEST
    · simp [hw, hreq, NetworkInterface.waiting]
    · simp [hw, hreq, NetworkInterface.waiting]
  | some queued =>
    by_cases hreq : msg.target_ip_address = ni.ip_address_ ∧ msg.opcode = OPCODE_REQUEST
    · simp [hw, hreq, NetworkInterface.waiting]
    · simp [hw, hreq, NetworkInterface.waiting]

theorem NetworkInterface.recv_arp_releases_witness :
    ((NetworkInterface.recv_frame Wire.plain
      (NetworkInterface.send_datagram Wire.plain (NetworkInterface.new 7 100)
        { header := { src := 100, dst := 200, ttl := 9, cksum := 0 }, payload := [1, 2] } 200)
      { header := { dst := 7, src := 8, type := TYPE_ARP },
        payload := [OPCODE_REPLY, 8, 200, 7, 100] }).2.send_queue
      = [{ header := { dst := ETHERNET_BROADCAST, src := 7, type := TYPE_ARP },
           payload := [OPCODE_REQUEST, 7, 100, 0, 200] },
         { header := { dst := 8, src := 7, type := TYPE_IPv4 },
           payload := [100, 200, 9, 0, 1, 2] }]) :=
  (NetworkInterface.recv_arp_releases Wire.plain
      (NetworkInterface.send_datagram Wire.plain (NetworkInterface.new 7 100)
        { header := { src := 100, dst := 200, ttl := 9, cksum := 0 }, payload := [1, 2] } 200)
      { header := { dst := 7, src := 8, type := TYPE_ARP },
        payload := [OPCODE_REPLY, 8, 200, 7, 100] }
      { opcode := OPCODE_REPLY, sender_ethernet_address := 8, sender_ip_address := 200,
        target_ethernet_address := 7, target_ip_address := 100 }
      (Or.inr rfl) rfl rfl).2.2.1.trans (by decide)

/-- C20: `send_datagram` to a next hop `X`.  When `X` is not in
`ethernet_map`: no IPv4 frame is queued, the datagram's frame is appended to
the frames waiting for `X`, and if no ARP request for `X` is in flight
exactly one broadcast ARP request for `X` is queued and `arp_timeout[X]`
is set to 0, while if one is in flight nothing is queued.  When `X` is in
`ethernet_map`: exactly one IPv4 frame, addressed to the cached Ethernet
address, is queued, no ARP request, and nothing else changes. -/
theorem NetworkInterface.send_datagram_cases (wire : Wire) (ni : NetworkInterface)
    (dgram : InternetDatagram) (X : Nat) :
    (ni.ethernet_map X = none →
      (ni.send_datagram wire dgram X).waiting X
        = ni.waiting X ++ [NetworkInterface.make_eth_frame ni.ethernet_address_
            ETHERNET_BROADCAST TYPE_IPv4 (wire.serialize_dgram dgram)] ∧
      (ni.send_datagram wire dgram X).ethernet_map = ni.ethernet_map ∧
      (ni.arp_timeout X = none →
        (ni.send_datagram wire dgram X).send_queue
          = ni.send_queue ++ [NetworkInterface.make_eth_frame ni.ethernet_address_
              ETHERNET_BROADCAST TYPE_ARP
              (wire.serialize_arp (NetworkInterface.make_arp_msg X ni.ip_address_ none
                ni.ethernet_address_ OPCODE_REQUEST))] ∧
        (ni.send_datagram wire dgram X).arp_timeout X = some 0) ∧
      (ni.arp_timeout X ≠ none →
        (ni.send_datagram wire dgram X).send_queue = ni.send_queue ∧
        (ni.send_datagram wire dgram X).arp_timeout = ni.arp_timeout)) ∧
    (∀ info, ni.ethernet_map X = some info →
      ni.send_datagram wire dgram X =
        { ni with send_queue := ni.send_queue ++
            [NetworkInterface.make_eth_frame ni.ethernet_address_ info.eth TYPE_IPv4
              (wire.serialize_dgram dgram)] }) := by
  constructor
  · intro hnone
    unfold NetworkInterface.send_datagram
    simp only [hnone]
    cases ht : ni.arp_timeout X with
    | none => simp [NetworkInterface.waiting]
    | some t => simp [NetworkInterface.waiting]
  · intro info hsome
    unfold NetworkInterface.send_datagram
    simp only [hsome]

theorem NetworkInterface.send_datagram_cases_witness :
    (NetworkInterface.send_datagram Wire.plain
      (NetworkInterface.send_datagram Wire.plain (NetworkInterface.new 7 100)
        { header := { src := 100, dst := 200, ttl := 9, cksum := 0 }, payload := [1] } 200)
      { header := { src := 100, dst := 200, ttl := 9, cksum := 0 }, payload := [2] }
      200).send_queue
    = [{ header := { dst := ETHERNET_BROADCAST, src := 7, type := TYPE_ARP },
         payload := [OPCODE_REQUEST, 7, 100, 0, 200] }] :=
  (((NetworkInterface.send_datagram_cases Wire.plain
      (NetworkInterface.send_datagram Wire.plain (NetworkInterface.new 7 100)
        { header := { src := 100, dst := 200, ttl := 9, cksum := 0 }, payload := [1] } 200)
      { header := { src := 100, dst := 200, ttl := 9, cksum := 0 }, payload := [2] }
      200).1 rfl).2.2.2 (by decide)).1.trans (by decide)

/-! ## TCPReceiver: sequence numbers to stream indices -/

/-- The arithmetic of `unwrap` when the number looked for is less than
`2 ^ 31` ahead of the checkpoint, counted modulo `2 ^ 64`. -/
theorem unwrap_steps_ahead (o c n : Nat) (hn : n < 2 ^ 64) (hc : c < 2 ^ 64)
    (hmod : n % 2 ^ 32 = o) (hahead : (n + 2 ^ 64 - c) % 2 ^ 64 < 2 ^ 31)
    (low0 low r : Nat)
    (h0 : low0 = (o + (c - c % 2 ^ 32)) % 2 ^ 64)
    (h1 : low = if low0 ≥ c then (low0 + 2 ^ 64 - 2 ^ 32) % 2 ^ 64 else low0)
    (h2 : r = if max low c - min low c ≤ 2 ^ 32 / 2 then low else (low + 2 ^ 32) % 2 ^ 64) :
    r = n := by
  have h0' : low0 = o + (c - c % 2 ^ 32) := by omega
  split_ifs at h1 h2 <;> omega

/-- The arithmetic of `unwrap` when the number looked for is at most
`2 ^ 31` behind the checkpoint. -/
theorem unwrap_steps_behind (o c n : Nat) (hc : c < 2 ^ 64) (hmod : n % 2 ^ 32 = o)
    (hle : n ≤ c) (hd : c - n ≤ 2 ^ 31) (low0 low r : Nat)
    (h0 : low0 = (o + (c - c % 2 ^ 32)) % 2 ^ 64)
    (h1 : low = if low0 ≥ c then (low0 + 2 ^ 64 - 2 ^ 32) % 2 ^ 64 else low0)
    (h2 : r = if max low c - min low c ≤ 2 ^ 32 / 2 then low else (low + 2 ^ 32) % 2 ^ 64) :
    r = n := by
  have h0' : low0 = o + (c - c % 2 ^ 32) := by omega
  split_ifs at h1 h2 <;> omega

theorem checkpoint_ahead (pushed k : Nat) (hp : pushed < 2 ^ 63) (hk1 : pushed ≤ k)
    (hk2 : k ≤ pushed + 65535) :
    (k + 1 + 2 ^ 64 - sub64 pushed 1) % 2 ^ 64 < 2 ^ 31 ∧ sub64 pushed 1 < 2 ^ 64 ∧
    sub64 (k + 1) 1 = k := by
  unfold sub64
  omega

theorem checkpoint_syn (pushed : Nat) (hp : pushed ≤ 2 ^ 31 + 1) :
    sub64 pushed 1 < 2 ^ 64 ∧
    ((0 + 2 ^ 64 - sub64 pushed 1) % 2 ^ 64 < 2 ^ 31 ∨ sub64 pushed 1 - 0 ≤ 2 ^ 31) := by
  unfold sub64
  omega

/-- Unwrapping `wrap(n, zero)` gives `n` back when `n` is less than `2 ^ 31`
ahead of the checkpoint, counted modulo `2 ^ 64`. -/
theorem Wrap32.unwrap_wrap_ahead (n c : Nat) (zero : Wrap32) (hn : n < 2 ^ 64)
    (hc : c < 2 ^ 64) (hz : zero.raw_value_ < 2 ^ 32)
    (hahead : (n + 2 ^ 64 - c) % 2 ^ 64 < 2 ^ 31) :
    (Wrap32.wrap n zero).unwrap zero c = n := by
  unfold Wrap32.unwrap Wrap32.wrap Wrap32.add
  simp only []
  rw [seqno_of_wrap n _ hz]
  exact unwrap_steps_ahead _ c n hn hc rfl hahead _ _ _ rfl rfl rfl

/-- Unwrapping the zero point itself gives 0 when the checkpoint, taken as
`bytes_pushed - 1` in 64-bit arithmetic, comes from at most `2 ^ 31 + 1`
bytes pushed. -/
theorem Wrap32.unwrap_self_near (zero : Wrap32) (pushed : Nat) (hp : pushed ≤ 2 ^ 31 + 1) :
    zero.unwrap zero (sub64 pushed 1) = 0 := by
  have ho : (zero.raw_value_ + 2 ^ 32 - zero.raw_value_) % 2 ^ 32 = 0 := by omega
  obtain ⟨hc, hcase⟩ := checkpoint_syn pushed hp
  unfold Wrap32.unwrap
  simp only []
  rw [ho]
  rcases hcase with h | h
  · exact unwrap_steps_ahead 0 (sub64 pushed 1) 0 (by norm_num) hc rfl h _ _ _ rfl rfl rfl
  · exact unwrap_steps_behind 0 (sub64 pushed 1) 0 hc rfl (Nat.zero_le _) h _ _ _ rfl rfl rfl

/-- C12: for a receiver that has recorded the ISN `zero`, a writer with
`U = bytes_pushed < 2 ^ 63` and a stream index `k` with `U ≤ k ≤ U + 65535`,
`receive` of a non-SYN segment with sequence number `wrap(k + 1, zero)` calls
`insert` with `first_index = k`, the payload and the FIN flag of the segment;
and `receive` of a SYN segment on a newly constructed receiver (with a stream
that has pushed at most `2 ^ 31 + 1` bytes, a fresh stream in particular)
records the ISN and calls `insert` with `first_index = 0`. -/
theorem TCPReceiver.receive_stream_index (rcv : TCPReceiver) (message : TCPSenderMessage)
    (r : Reassembler) (w : ByteStream) (k : Nat) :
    (rcv.isn = true → rcv.zero.raw_value_ < 2 ^ 32 → w.bytes_pushed < 2 ^ 63 →
      w.bytes_pushed ≤ k → k ≤ w.bytes_pushed + 65535 →
      message.SYN = false → message.seqno = Wrap32.wrap (k + 1) rcv.zero →
      rcv.first_index message w = k ∧
      rcv.receive message r w
        = (rcv, (r.insert k message.payload message.FIN w).1,
           (r.insert k message.payload message.FIN w).2)) ∧
    (message.SYN = true → w.bytes_pushed ≤ 2 ^ 31 + 1 →
      TCPReceiver.first_index { isn := true, zero := message.seqno } message w = 0 ∧
      TCPReceiver.new.receive message r w
        = ({ isn := true, zero := message.seqno },
           (r.insert 0 message.payload message.FIN w).1,
           (r.insert 0 message.payload message.FIN w).2)) := by
  constructor
  · intro hisn hz hU hk1 hk2 hsyn hseq
    obtain ⟨hahead, hc, hsub⟩ := checkpoint_ahead w.bytes_pushed k hU hk1 hk2
    have hidx : rcv.first_index message w = k := by
      unfold TCPReceiver.first_index
      simp only [hisn, Bool.toNat_true, hsyn, Bool.not_false, if_true, hseq]
      rw [Wrap32.unwrap_wrap_ahead (k + 1) _ rcv.zero (by omega) hc hz hahead]
      exact hsub
    refine ⟨hidx, ?_⟩
    unfold TCPReceiver.receive
    simp only [hsyn, Bool.false_eq_true, if_false, hisn, Bool.not_true, hidx]
  · intro hsyn hU
    have hidx : TCPReceiver.first_index { isn := true, zero := message.seqno } message w
        = 0 := by
      unfold TCPReceiver.first_index
      simp only [Bool.toNat_true, hsyn, Bool.not_true, Bool.false_eq_true, if_false]
      exact Wrap32.unwrap_self_near message.seqno w.bytes_pushed hU
    refine ⟨hidx, ?_⟩
    unfold TCPReceiver.receive
    simp only [hsyn, if_true, Bool.not_true, Bool.false_eq_true, if_false, hidx]

theorem TCPReceiver.receive_stream_index_witness :
    TCPReceiver.first_index { isn := true, zero := ⟨4294967290⟩ }
      { seqno := ⟨5⟩, SYN := false, payload := ['x'], FIN := false }
      ((ByteStream.new 64).push ['a', 'b', 'c', 'd']) = 10 ∧
    TCPReceiver.first_index { isn := true, zero := ⟨77⟩ }
      { seqno := ⟨77⟩, SYN := true, payload := ['x'], FIN := false } (ByteStream.new 64) = 0 :=
  ⟨((TCPReceiver.receive_stream_index { isn := true, zero := ⟨4294967290⟩ }
      { seqno := ⟨5⟩, SYN := false, payload := ['x'], FIN := false } Reassembler.new
      ((ByteStream.new 64).push ['a', 'b', 'c', 'd']) 10).1
      rfl (by decide) (by decide) (by decide) (by decide) rfl (by decide)).1,
   ((TCPReceiver.receive_stream_index TCPReceiver.new
      { seqno := ⟨77⟩, SYN := true, payload := ['x'], FIN := false } Reassembler.new
      (ByteStream.new 64) 0).2 rfl (by decide)).1⟩

/-! ## Reassembler: a fragment that straddles the delivered bytes -/

theorem Reassembler.storeLoop_append (internal_first : Nat) :
    ∀ (a b : List Char) (i : Nat) (r : Reassembler),
      Reassembler.storeLoop internal_first i (a ++ b) r =
        Reassembler.storeLoop internal_first (i + a.length) b
          (Reassembler.storeLoop internal_first i a r) := by
  intro a
  induction a with
  | nil => intro b i r; simp [Reassembler.storeLoop]
  | cons c rest ih =>
    intro b i r
    have e : i + (c :: rest).length = i + 1 + rest.length := by
      simp only [List.length_cons]; omega
    rw [e]
    simp only [List.cons_append, Reassembler.storeLoop]
    by_cases hg : add64 internal_first i ≥ r.bytes.length
    · simp only [if_pos hg]; exact ih b (i + 1) r
    · simp only [if_neg hg]; exact ih b (i + 1) _

/-- Bytes whose slots all lie beyond the vectors are skipped by the copy
loop. -/
theorem Reassembler.storeLoop_skip (internal_first : Nat) :
    ∀ (data : List Char) (i : Nat) (r : Reassembler),
      (∀ m, m < data.length → r.bytes.length ≤ add64 internal_first (i + m)) →
      Reassembler.storeLoop internal_first i data r = r := by
  intro data
  induction data with
  | nil => intro i r _; rfl
  | cons c rest ih =>
    intro i r h
    have h0 : add64 internal_first i ≥ r.bytes.length := by
      have := h 0 (by simp)
      simpa using this
    unfold Reassembler.storeLoop
    rw [if_pos h0]
    apply ih
    intro m hm
    have := h (m + 1) (by simp only [List.length_cons]; omega)
    have e : i + (m + 1) = i + 1 + m := by omega
    rw [e] at this
    exact this

/-- The copy loop over bytes whose slots are consecutive and inside the
vectors: the block of slots is overwritten with the bytes and marked
filled, and `pending` grows by the number of slots that were not filled. -/
theorem Reassembler.storeLoop_block_at (internal_first : Nat) :
    ∀ (data : List Char) (i : Nat) (r : Reassembler) (pre mid post : List Char)
      (fpre fmid fpost : List Bool),
      r.bytes = pre ++ (mid ++ post) → r.filled = fpre ++ (fmid ++ fpost) →
      fpre.length = pre.length →
      mid.length = data.length → fmid.length = data.length →
      (∀ m, m < data.length → add64 internal_first (i + m) = pre.length + m) →
      r.pending + fmid.count false < 2 ^ 64 →
      Reassembler.storeLoop internal_first i data r =
        { bytes := pre ++ (data ++ post),
          filled := fpre ++ (List.replicate data.length true ++ fpost),
          pending := r.pending + fmid.count false,
          last := r.last } := by
  intro data
  induction data with
  | nil =>
    intro i r pre mid post fpre fmid fpost hb hf _ hm hfm _ _
    have hm0 : mid = [] := List.length_eq_zero.mp hm
    have hfm0 : fmid = [] := List.length_eq_zero.mp hfm
    subst hm0 hfm0
    cases r
    simp only [Reassembler.storeLoop] at *
    simp [hb, hf]
  | cons c rest ih =>
    intro i r pre mid post fpre fmid fpost hb hf hfl hm hfm hslots hpend
    cases mid with
    | nil => simp at hm
    | cons m0 mid1 =>
    cases fmid with
    | nil => simp at hfm
    | cons f0 fmid1 =>
    simp only [List.length_cons] at hm hfm
    have hslot : add64 internal_first i = pre.length := by
      have := hslots 0 (by simp)
      simpa using this
    have hslotf : add64 internal_first i = fpre.length := by rw [hslot, hfl]
    have hguard : ¬ (add64 internal_first i ≥ r.bytes.length) := by
      rw [hslot, hb]; simp
    unfold Reassembler.storeLoop
    rw [if_neg hguard]
    have hset : r.bytes.set (add64 internal_first i) c = (pre ++ [c]) ++ (mid1 ++ post) := by
      rw [hb, hslot, List.cons_append, set_append_at]; simp
    have hsetf : r.filled.set (add64 internal_first i) true
        = (fpre ++ [true]) ++ (fmid1 ++ fpost) := by
      rw [hf, hslotf, List.cons_append, set_append_at]; simp
    have hget : r.filled.getD (add64 internal_first i) false = f0 := by
      rw [hf, hslotf, List.cons_append, getD_append_at]
    have hslots1 : ∀ m, m < rest.length →
        add64 internal_first (i + 1 + m) = (pre ++ [c]).length + m := by
      intro m hmlt
      have := hslots (m + 1) (by simp only [List.length_cons]; omega)
      have e : i + (m + 1) = i + 1 + m := by omega
      rw [e] at this
      rw [this]; simp only [List.length_append, List.length_singleton]; omega
    rw [ih (i + 1) _ (pre ++ [c]) mid1 post (fpre ++ [true]) fmid1 fpost hset hsetf
      (by simp only [List.length_append, List.length_singleton, hfl])
      (by omega) (by omega) hslots1
      (by
        simp only [hget]
        cases f0
        · simp only [Bool.false_eq_true, if_false, List.count_cons_self] at hpend ⊢
          rw [add64_of_lt (show r.pending + 1 < 2 ^ 64 by omega)]; omega
        · simpa using hpend)]
    simp only [hget, List.append_assoc, List.singleton_append, List.length_cons,
      List.replicate_succ, List.cons_append, Reassembler.mk.injEq, true_and, and_true]
    cases f0
    · simp only [Bool.false_eq_true, if_false, List.count_cons_self] at hpend ⊢
      rw [add64_of_lt (show r.pending + 1 < 2 ^ 64 by omega)]
      refine ⟨by simp, by simp, by omega⟩
    · simp

theorem Reassembler.package_true_then_false :
    ∀ (a b : List Char) (j : Nat),
      Reassembler.package (List.replicate a.length true ++ List.replicate j false) (a ++ b)
        = a
  | [], b, j => by
    cases j with
    | zero => simp [Reassembler.package]
    | succ j => simp [List.replicate_succ, Reassembler.package_false_head]
  | x :: a, b, j => by
    have ih := Reassembler.package_true_then_false a b j
    simp only [List.length_cons, List.replicate_succ, List.cons_append, Reassembler.package]
    exact congrArg (List.cons x) ih

theorem all_false_of_count (l : List Bool) (h : l.count true = 0) :
    l = List.replicate l.length false := by
  induction l with
  | nil => rfl
  | cons b bs ih =>
    cases b with
    | true => simp at h
    | false =>
      have h2 : bs.count true = 0 := by simpa using h
      simp only [List.length_cons, List.replicate_succ]
      rw [← ih h2]

theorem take_min_length {α : Type} (l : List α) (n : Nat) :
    l.take (min l.length n) = l.take n := by
  by_cases h : n ≤ l.length
  · rw [Nat.min_eq_right h]
  · have h2 : l.length ≤ n := by omega
    rw [Nat.min_eq_left h2, List.take_of_length_le h2, List.take_of_length_le (le_refl _)]

theorem slot_before (first_index pushed available m : Nat) (hm : first_index + m < pushed)
    (hwin : pushed + available < 2 ^ 64) :
    available ≤ add64 (sub64 first_index pushed) (0 + m) := by
  unfold add64 sub64
  omega

theorem slot_after (first_index pushed m : Nat) (hlt : first_index < pushed)
    (hm : m < 2 ^ 64) :
    add64 (sub64 first_index pushed) (0 + (pushed - first_index) + m) = m := by
  unfold add64 sub64
  omega

theorem straddle_arith (first_index pushed available len : Nat)
    (hlt : first_index < pushed) (hgt : pushed < first_index + len)
    (hwin : pushed + available < 2 ^ 64) (hidx : len < 2 ^ 64) :
    add64 pushed available = pushed + available ∧
    add64 (sub64 first_index pushed) len = first_index + len - pushed := by
  unfold add64 sub64
  omega

/-- Growing vectors whose slots are all unfilled leaves them all unfilled,
and the number of bytes of a fragment of length `len` at slot 0 that fit is
`min len available` afterwards. -/
theorem Reassembler.grow_all_false (r : Reassembler) (len available : Nat)
    (hf : r.filled = List.replicate r.bytes.length false)
    (hav : r.bytes.length ≤ available) :
    (r.grow len available).filled
      = List.replicate (r.grow len available).bytes.length false ∧
    min len (r.grow len available).bytes.length = min len available := by
  unfold Reassembler.grow
  split_ifs with h
  · have hle : r.bytes.length ≤ min len available := Nat.le_min.mpr ⟨h, hav⟩
    have hle2 : r.filled.length ≤ min len available := by
      rw [hf, List.length_replicate]; exact hle
    simp only [vresize_length]
    refine ⟨?_, ?_⟩
    · rw [vresize_of_le _ _ _ hle2, hf, List.length_replicate, ← List.replicate_add]
      congr 1
      omega
    · omega
  · exact ⟨hf, by omega⟩

/-- The main step of C11 for a state that satisfies the structural
invariant. -/
theorem Reassembler.insert_straddling_step (r : Reassembler) (w : ByteStream)
    (first_index : Nat) (data : List Char)
    (hinv : StreamInv (r, w)) (hpend : r.pending = 0)
    (hopen : w.closed_ = false) (herr : w.error_ = false)
    (hlt : first_index < w.bytes_pushed_) (hgt : w.bytes_pushed_ < first_index + data.length)
    (hwin : w.bytes_pushed_ + w.available_capacity < 2 ^ 64)
    (hidx : data.length < 2 ^ 64) :
    (r.insert first_index data false w).2.buffer_
      = w.buffer_ ++ (data.drop (w.bytes_pushed_ - first_index)).take w.available_capacity ∧
    (r.insert first_index data false w).2.bytes_pushed_
      = min (first_index + data.length) (w.bytes_pushed_ + w.available_capacity) := by
  obtain ⟨hc, hb, hp, hlen, hav, hcount⟩ := hinv
  simp only at hc hb hp hlen hav hcount
  obtain ⟨hoob, hneeded⟩ := straddle_arith first_index w.bytes_pushed_ w.available_capacity
    data.length hlt hgt hwin hidx
  have hrej : ¬ (data.length = 0 ∨
      first_index ≥ add64 w.bytes_pushed w.available_capacity) := by
    simp only [ByteStream.bytes_pushed, hoob]; omega
  have hfalse : r.filled = List.replicate r.bytes.length false := by
    rw [← hlen]; exact all_false_of_count r.filled (by rw [← hcount, hpend])
  have hg := Reassembler.grow_all_false r (first_index + data.length - w.bytes_pushed_)
    w.available_capacity hfalse hav
  have hgl := Reassembler.grow_lengths r (first_index + data.length - w.bytes_pushed_)
    w.available_capacity hlen hav
  have hgp := Reassembler.grow_pending r (first_index + data.length - w.bytes_pushed_)
    w.available_capacity
  rw [Reassembler.insert_accept _ _ _ _ _ hrej]
  simp only [ByteStream.bytes_pushed, hneeded]
  generalize r.grow (first_index + data.length - w.bytes_pushed_) w.available_capacity = r2
    at hg hgl hgp
  obtain ⟨hf2, hmin⟩ := hg
  -- the three pieces of the fragment
  have hq : min (first_index + data.length - w.bytes_pushed_) w.available_capacity
      ≤ r2.bytes.length := by omega
  have hdl : (data.drop (w.bytes_pushed_ - first_index)).length
      = first_index + data.length - w.bytes_pushed_ := by
    rw [List.length_drop]; omega
  have hmidlen : ((data.drop (w.bytes_pushed_ - first_index)).take
      (min (first_index + data.length - w.bytes_pushed_) w.available_capacity)).length
      = min (first_index + data.length - w.bytes_pushed_) w.available_capacity := by
    rw [List.length_take, hdl]; omega
  have hstore : Reassembler.storeLoop (sub64 first_index w.bytes_pushed_) 0 data r2 =
      { bytes := (data.drop (w.bytes_pushed_ - first_index)).take
            (min (first_index + data.length - w.bytes_pushed_) w.available_capacity)
          ++ r2.bytes.drop
            (min (first_index + data.length - w.bytes_pushed_) w.available_capacity),
        filled := List.replicate
            ((data.drop (w.bytes_pushed_ - first_index)).take
              (min (first_index + data.length - w.bytes_pushed_) w.available_capacity)).length
            true
          ++ List.replicate (r2.bytes.length
            - min (first_index + data.length - w.bytes_pushed_) w.available_capacity) false,
        pending := min (first_index + data.length - w.bytes_pushed_) w.available_capacity,
        last := r2.last } := by
    have hdecomp : data = data.take (w.bytes_pushed_ - first_index)
        ++ ((data.drop (w.bytes_pushed_ - first_index)).take
            (min (first_index + data.length - w.bytes_pushed_) w.available_capacity)
          ++ (data.drop (w.bytes_pushed_ - first_index)).drop
            (min (first_index + data.length - w.bytes_pushed_) w.available_capacity)) := by
      rw [List.take_append_drop, List.take_append_drop]
    have htl : (data.take (w.bytes_pushed_ - first_index)).length
        = w.bytes_pushed_ - first_index := by
      rw [List.length_take]; omega
    refine (congrArg (fun x => Reassembler.storeLoop (sub64 first_index w.bytes_pushed_) 0 x r2)
      hdecomp).trans ?_
    show Reassembler.storeLoop (sub64 first_index w.bytes_pushed_) 0
      (data.take (w.bytes_pushed_ - first_index)
        ++ ((data.drop (w.bytes_pushed_ - first_index)).take
            (min (first_index + data.length - w.bytes_pushed_) w.available_capacity)
          ++ (data.drop (w.bytes_pushed_ - first_index)).drop
            (min (first_index + data.length - w.bytes_pushed_) w.available_capacity))) r2 = _
    rw [Reassembler.storeLoop_append, Reassembler.storeLoop_append, htl, hmidlen]
    -- the bytes before `bytes_pushed` are skipped
    rw [Reassembler.storeLoop_skip _ (data.take (w.bytes_pushed_ - first_index)) 0 r2 (by
      intro m hm
      rw [htl] at hm
      exact le_trans hgl.2.1
        (slot_before first_index w.bytes_pushed_ w.available_capacity m (by omega) hwin))]
    -- the bytes that fit are stored from slot 0 on
    rw [Reassembler.storeLoop_block_at _ _ (0 + (w.bytes_pushed_ - first_index)) r2 []
      (r2.bytes.take
        (min (first_index + data.length - w.bytes_pushed_) w.available_capacity))
      (r2.bytes.drop
        (min (first_index + data.length - w.bytes_pushed_) w.available_capacity))
      []
      (List.replicate
        (min (first_index + data.length - w.bytes_pushed_) w.available_capacity) false)
      (List.replicate (r2.bytes.length
        - min (first_index + data.length - w.bytes_pushed_) w.available_capacity) false)
      (by rw [List.nil_append, List.take_append_drop])
      (by
        rw [List.nil_append, hf2, ← List.replicate_add]
        congr 1; omega)
      rfl
      (by rw [List.length_take, hmidlen]; omega)
      (by rw [List.length_replicate, hmidlen])
      (by
        intro m hm
        rw [hmidlen] at hm
        simp only [List.length_nil, Nat.zero_add]
        have := slot_after first_index w.bytes_pushed_ m hlt (by omega)
        simpa using this)
      (by
        rw [hgp.1, hpend, List.count_replicate_self]
        omega)]
    -- the bytes beyond the vectors are skipped
    rw [Reassembler.storeLoop_skip _ _ _ _ (by
      intro m hm
      rw [List.length_drop, hdl] at hm
      simp only [List.nil_append, List.length_append, List.length_drop, hmidlen]
      have hs := slot_after first_index w.bytes_pushed_
        (min (first_index + data.length - w.bytes_pushed_) w.available_capacity + m)
        hlt (by omega)
      have e : 0 + (w.bytes_pushed_ - first_index)
          + min (first_index + data.length - w.bytes_pushed_) w.available_capacity + m
          = 0 + (w.bytes_pushed_ - first_index)
            + (min (first_index + data.length - w.bytes_pushed_) w.available_capacity + m) := by
        omega
      rw [e, hs]
      omega)]
    simp only [List.nil_append, hgp.1, hpend, List.count_replicate_self, Nat.zero_add,
      hmidlen]
  rw [hstore]
  simp only [Reassembler.package_true_then_false]
  have hfit : ((data.drop (w.bytes_pushed_ - first_index)).take
      (min (first_index + data.length - w.bytes_pushed_) w.available_capacity)).length
      ≤ w.available_capacity := by
    rw [hmidlen]; exact Nat.min_le_right _ _
  rw [ByteStream.push_open w _ hopen herr hfit]
  simp only [hmidlen]
  have htake : (data.drop (w.bytes_pushed_ - first_index)).take
      (min (first_index + data.length - w.bytes_pushed_) w.available_capacity)
      = (data.drop (w.bytes_pushed_ - first_index)).take w.available_capacity := by
    rw [← hdl]; exact take_min_length _ _
  refine ⟨by rw [htake], ?_⟩
  rw [add64_of_lt (by omega)]
  omega

/-- C11: partial acceptance of a fragment that straddles the delivered
prefix.  Take any state reached from a new reassembler and a new stream by
a sequence of `insert` and `pop` calls, with nothing pending and an open,
error-free writer; write `U` for `bytes_pushed` and `A` for the available
capacity.  For a fragment with `first_index < U < first_index + |data|`
(not the last one), `insert` appends to the stream exactly
`data[U - first_index .. min(|data|, U - first_index + A))`, that is the
fragment without its first `U - first_index` bytes, cut to `A` bytes; what
was buffered stays in front of it, and `bytes_pushed` becomes
`min(first_index + |data|, U + A)`.  The 64-bit counters are assumed not to
wrap: `U + A < 2 ^ 64`, and the fragment length is a 64-bit number. -/
theorem Reassembler.insert_straddling (capacity : Nat) (ops : List StreamOp)
    (first_index : Nat) (data : List Char) (hc : capacity < 2 ^ 64)
    (hpend : (runOps (Reassembler.new, ByteStream.new capacity) ops).1.bytes_pending = 0)
    (hopen : (runOps (Reassembler.new, ByteStream.new capacity) ops).2.is_closed = false)
    (herr : (runOps (Reassembler.new, ByteStream.new capacity) ops).2.has_error = false)
    (hlt : first_index
      < (runOps (Reassembler.new, ByteStream.new capacity) ops).2.bytes_pushed)
    (hgt : (runOps (Reassembler.new, ByteStream.new capacity) ops).2.bytes_pushed
      < first_index + data.length)
    (hwin : (runOps (Reassembler.new, ByteStream.new capacity) ops).2.bytes_pushed
      + (runOps (Reassembler.new, ByteStream.new capacity) ops).2.available_capacity < 2 ^ 64)
    (hlen : data.length < 2 ^ 64) :
    (StreamOp.insert first_index data false).pushedBy
        (runOps (Reassembler.new, ByteStream.new capacity) ops)
      = (data.drop
          ((runOps (Reassembler.new, ByteStream.new capacity) ops).2.bytes_pushed - first_index)
        ).take (runOps (Reassembler.new, ByteStream.new capacity) ops).2.available_capacity ∧
    ((StreamOp.insert first_index data false).step
        (runOps (Reassembler.new, ByteStream.new capacity) ops)).2.peek
      = (runOps (Reassembler.new, ByteStream.new capacity) ops).2.peek
        ++ (data.drop
          ((runOps (Reassembler.new, ByteStream.new capacity) ops).2.bytes_pushed - first_index)
        ).take (runOps (Reassembler.new, ByteStream.new capacity) ops).2.available_capacity ∧
    ((StreamOp.insert first_index data false).step
        (runOps (Reassembler.new, ByteStream.new capacity) ops)).2.bytes_pushed
      = min (first_index + data.length)
          ((runOps (Reassembler.new, ByteStream.new capacity) ops).2.bytes_pushed
            + (runOps (Reassembler.new, ByteStream.new capacity) ops).2.available_capacity) := by
  have hinv := StreamInv_runOps ops _ (StreamInv_new capacity hc)
  generalize runOps (Reassembler.new, ByteStream.new capacity) ops = st at *
  obtain ⟨r, w⟩ := st
  simp only [Reassembler.bytes_pending, ByteStream.is_closed, ByteStream.has_error,
    ByteStream.bytes_pushed] at hpend hopen herr hlt hgt hwin
  have h := Reassembler.insert_straddling_step r w first_index data hinv hpend hopen herr
    hlt hgt hwin hlen
  simp only [StreamOp.pushedBy, StreamOp.step, ByteStream.peek, ByteStream.bytes_pushed]
  refine ⟨?_, h.1, h.2⟩
  rw [h.1, List.drop_left]

theorem Reassembler.insert_straddling_witness :
    (3 : Nat) < 2 ^ 64 ∧
    (StreamOp.insert 1 ['b', 'c', 'd'] false).pushedBy
        (runOps (Reassembler.new, ByteStream.new 3) [StreamOp.insert 0 ['a', 'b'] false])
      = ['c'] ∧
    ((StreamOp.insert 1 ['b', 'c', 'd'] false).step
        (runOps (Reassembler.new, ByteStream.new 3)
          [StreamOp.insert 0 ['a', 'b'] false])).2.bytes_pushed = 3 :=
  ⟨by decide,
   (Reassembler.insert_straddling 3 [StreamOp.insert 0 ['a', 'b'] false] 1 ['b', 'c', 'd']
      (by decide) (by decide) (by decide) (by decide) (by decide) (by decide) (by decide)
      (by decide)).1,
   (Reassembler.insert_straddling 3 [StreamOp.insert 0 ['a', 'b'] false] 1 ['b', 'c', 'd']
      (by decide) (by decide) (by decide) (by decide) (by decide) (by decide) (by decide)
      (by decide)).2.2⟩

/-! ## NetworkInterface: expiry of the address mappings -/

/-- After a `tick` no mapping is older than 30000 ms. -/
theorem NetworkInterface.tick_map_age (ni : NetworkInterface) (delta ip : Nat)
    (info : EthernetInfo) (h : (ni.tick delta).ethernet_map ip = some info) :
    info.time ≤ 30000 := by
  have h1 : (match ni.ethernet_map ip with
      | some i =>
        if add64 i.time delta ≤ NetworkInterface.MAPPING_THRESHOLD then
          some ({ eth := i.eth, time := add64 i.time delta } : EthernetInfo)
        else none
      | none => none) = some info := h
  cases hm : ni.ethernet_map ip with
  | none => rw [hm] at h1; exact Option.noConfusion h1
  | some i =>
    rw [hm] at h1
    by_cases hle : add64 i.time delta ≤ NetworkInterface.MAPPING_THRESHOLD
    · have h2 : some ({ eth := i.eth, time := add64 i.time delta } : EthernetInfo)
          = some info := by
        rw [← h1]; exact (if_pos hle).symm
      rw [← Option.some.inj h2]
      exact hle
    · have h2 : (none : Option EthernetInfo) = some info := by
        rw [← h1]; exact (if_neg hle).symm
      exact Option.noConfusion h2

/-- After a `tick` no request in flight is older than 5000 ms. -/
theorem NetworkInterface.tick_request_age (ni : NetworkInterface) (delta ip t : Nat)
    (h : (ni.tick delta).arp_timeout ip = some t) : t ≤ 5000 := by
  have h1 : (match ni.arp_timeout ip with
      | some t0 =>
        if add64 t0 delta ≤ NetworkInterface.RESEND_THRESHOLD then some (add64 t0 delta)
        else none
      | none => none) = some t := h
  cases hm : ni.arp_timeout ip with
  | none => rw [hm] at h1; exact Option.noConfusion h1
  | some t0 =>
    rw [hm] at h1
    by_cases hle : add64 t0 delta ≤ NetworkInterface.RESEND_THRESHOLD
    · have h2 : some (add64 t0 delta) = some t := by
        rw [← h1]; exact (if_pos hle).symm
      rw [← Option.some.inj h2]
      exact hle
    · have h2 : (none : Option Nat) = some t := by
        rw [← h1]; exact (if_neg hle).symm
      exact Option.noConfusion h2

/-- C21: `tick` on the address tables.  An `ethernet_map` entry
`(ip, eth, age)` is kept exactly when `age + delta ≤ 30000`, with the same
`eth` and the age `age + delta`, and when it is dropped the frames waiting
for `ip` are dropped with it; no entry appears that was not there; an
`arp_timeout` entry of age `t` is kept exactly when `t + delta ≤ 5000`, with
the age `t + delta`.  After `tick(30001)` no mapping and no request in flight
is left, and `send_datagram` to any next hop queues a broadcast ARP request
behind what was queued.  The ages are 64-bit numbers, and the sums
`age + delta` are assumed not to wrap. -/
theorem NetworkInterface.tick_expires (wire : Wire) (ni : NetworkInterface) (delta : Nat)
    (hmap : ∀ ip info, ni.ethernet_map ip = some info → info.time + delta < 2 ^ 64)
    (hreq : ∀ ip t, ni.arp_timeout ip = some t → t + delta < 2 ^ 64) :
    (∀ ip info, ni.ethernet_map ip = some info →
      (info.time + delta ≤ 30000 →
        (ni.tick delta).ethernet_map ip
          = some { eth := info.eth, time := info.time + delta }) ∧
      (30000 < info.time + delta →
        (ni.tick delta).ethernet_map ip = none ∧ (ni.tick delta).arp_waiting ip = none ∧
        (ni.tick delta).waiting ip = [])) ∧
    (∀ ip, ni.ethernet_map ip = none → (ni.tick delta).ethernet_map ip = none) ∧
    (∀ ip t, ni.arp_timeout ip = some t →
      (t + delta ≤ 5000 → (ni.tick delta).arp_timeout ip = some (t + delta)) ∧
      (5000 < t + delta → (ni.tick delta).arp_timeout ip = none)) ∧
    (∀ ip, ni.arp_timeout ip = none → (ni.tick delta).arp_timeout ip = none) ∧
    (delta = 30001 →
      (∀ ip, (ni.tick delta).ethernet_map ip = none) ∧
      (∀ ip, (ni.tick delta).arp_timeout ip = none) ∧
      ∀ dgram next_hop,
        ((ni.tick delta).send_datagram wire dgram next_hop).send_queue
          = ni.send_queue ++ [NetworkInterface.make_eth_frame ni.ethernet_address_
              ETHERNET_BROADCAST TYPE_ARP
              (wire.serialize_arp (NetworkInterface.make_arp_msg next_hop ni.ip_address_ none
                ni.ethernet_address_ OPCODE_REQUEST))]) := by
  have hm : ∀ ip info, ni.ethernet_map ip = some info →
      (ni.tick delta).ethernet_map ip
        = if info.time + delta ≤ 30000 then
            some { eth := info.eth, time := info.time + delta } else none := by
    intro ip info h
    simp only [NetworkInterface.tick, h, add64_of_lt (hmap ip info h),
      NetworkInterface.MAPPING_THRESHOLD]
  have hw : ∀ ip info, ni.ethernet_map ip = some info → 30000 < info.time + delta →
      (ni.tick delta).arp_waiting ip = none := by
    intro ip info h hgt
    simp only [NetworkInterface.tick, h, add64_of_lt (hmap ip info h),
      NetworkInterface.MAPPING_THRESHOLD, if_neg (Nat.not_le.mpr hgt)]
  have hm0 : ∀ ip, ni.ethernet_map ip = none → (ni.tick delta).ethernet_map ip = none := by
    intro ip h
    simp only [NetworkInterface.tick, h]
  have ht : ∀ ip t, ni.arp_timeout ip = some t →
      (ni.tick delta).arp_timeout ip
        = if t + delta ≤ 5000 then some (t + delta) else none := by
    intro ip t h
    simp only [NetworkInterface.tick, h, add64_of_lt (hreq ip t h),
      NetworkInterface.RESEND_THRESHOLD]
  have ht0 : ∀ ip, ni.arp_timeout ip = none → (ni.tick delta).arp_timeout ip = none := by
    intro ip h
    simp only [NetworkInterface.tick, h]
  refine ⟨?_, hm0, ?_, ht0, ?_⟩
  · intro ip info h
    refine ⟨fun hle => by rw [hm ip info h, if_pos hle], fun hgt => ?_⟩
    refine ⟨by rw [hm ip info h, if_neg (Nat.not_le.mpr hgt)], hw ip info h hgt, ?_⟩
    simp only [NetworkInterface.waiting, hw ip info h hgt, Option.getD_none]
  · intro ip t h
    exact ⟨fun hle => by rw [ht ip t h, if_pos hle],
      fun hgt => by rw [ht ip t h, if_neg (Nat.not_le.mpr hgt)]⟩
  · intro hd
    have e1 : ∀ ip, (ni.tick delta).ethernet_map ip = none := by
      intro ip
      cases h : ni.ethernet_map ip with
      | none => exact hm0 ip h
      | some info => rw [hm ip info h, if_neg (by omega)]
    have e2 : ∀ ip, (ni.tick delta).arp_timeout ip = none := by
      intro ip
      cases h : ni.arp_timeout ip with
      | none => exact ht0 ip h
      | some t => rw [ht ip t h, if_neg (by omega)]
    refine ⟨e1, e2, ?_⟩
    intro dgram next_hop
    simp only [NetworkInterface.send_datagram, e1 next_hop, e2 next_hop]
    rfl

theorem NetworkInterface.tick_expires_witness :
    ((((NetworkInterface.recv_frame Wire.plain (NetworkInterface.new 7 100)
        { header := { dst := 7, src := 8, type := TYPE_ARP },
          payload := [OPCODE_REPLY, 8, 200, 7, 100] }).2.tick 29000).tick 1000).ethernet_map 200
      = some { eth := 8, time := 30000 }) ∧
    ((((NetworkInterface.recv_frame Wire.plain (NetworkInterface.new 7 100)
        { header := { dst := 7, src := 8, type := TYPE_ARP },
          payload := [OPCODE_REPLY, 8, 200, 7, 100] }).2.tick 29000).tick 1001).ethernet_map 200
      = none) :=
  ⟨((NetworkInterface.tick_expires Wire.plain
      ((NetworkInterface.recv_frame Wire.plain (NetworkInterface.new 7 100)
        { header := { dst := 7, src := 8, type := TYPE_ARP },
          payload := [OPCODE_REPLY, 8, 200, 7, 100] }).2.tick 29000) 1000
      (fun ip info h => Nat.lt_of_le_of_lt
        (Nat.add_le_add_right (NetworkInterface.tick_map_age _ _ ip info h) 1000) (by decide))
      (fun ip t h => Nat.lt_of_le_of_lt
        (Nat.add_le_add_right (NetworkInterface.tick_request_age _ _ ip t h) 1000)
        (by decide))).1 200 { eth := 8, time := 29000 } (by decide)).1 (by decide),
   (((NetworkInterface.tick_expires Wire.plain
      ((NetworkInterface.recv_frame Wire.plain (NetworkInterface.new 7 100)
        { header := { dst := 7, src := 8, type := TYPE_ARP },
          payload := [OPCODE_REPLY, 8, 200, 7, 100] }).2.tick 29000) 1001
      (fun ip info h => Nat.lt_of_le_of_lt
        (Nat.add_le_add_right (NetworkInterface.tick_map_age _ _ ip info h) 1001) (by decide))
      (fun ip t h => Nat.lt_of_le_of_lt
        (Nat.add_le_add_right (NetworkInterface.tick_request_age _ _ ip t h) 1001)
        (by decide))).1 200 { eth := 8, time := 29000 } (by decide)).2 (by decide)).1⟩

/-! ## Router -/

theorem Router.is_matching_prefix_iff (datagram : InternetDatagram) (route_info : RouteInfo) :
    Router.is_matching_prefix datagram route_info = true ↔
      (route_info.prefix_length = 0 ∨
        datagram.header.dst &&& ((0xFFFFFFFF <<< (32 - route_info.prefix_length)) % 2 ^ 32)
          = route_info.route_prefix) := by
  unfold Router.is_matching_prefix
  by_cases h0 : route_info.prefix_length = 0
  · simp only [h0, if_true, true_or]
  · simp only [h0, if_false, false_or, decide_eq_true_eq]

theorem Router.add_route_interfaces (sort : List RouteInfo → List RouteInfo) (r : Router)
    ( route_prefix prefix_length : Nat) (next_hop : Option Nat) (interface_num : Nat) :
    (r.add_route sort route_prefix prefix_length next_hop interface_num).interfaces_
      = r.interfaces_ := rfl

theorem Router.add_routes_interfaces (sort : List RouteInfo → List RouteInfo)
    (routes : List RouteInfo) :
    ∀ r : Router, (r.add_routes sort routes).interfaces_ = r.interfaces_ := by
  induction routes with
  | nil => intro r; rfl
  | cons x xs ih =>
    intro r
    have h := ih (r.add_route sort x.route_prefix x.prefix_length x.next_hop x.interface_num)
    exact h

/-- The table after a sequence of `add_route` calls holds the routes that
were in it and the added ones. -/
theorem Router.add_routes_perm (sort : List RouteInfo → List RouteInfo)
    (hperm : ∀ l, List.Perm (sort l) l) (routes : List RouteInfo) :
    ∀ r : Router, List.Perm (r.add_routes sort routes).routing_table
      (r.routing_table ++ routes) := by
  induction routes with
  | nil => intro r; simp [Router.add_routes]
  | cons x xs ih =>
    intro r
    have h := ih (r.add_route sort x.route_prefix x.prefix_length x.next_hop x.interface_num)
    have h1 : (r.add_route sort x.route_prefix x.prefix_length x.next_hop
        x.interface_num).routing_table = sort (r.routing_table ++ [x]) := rfl
    rw [h1] at h
    have h2 : List.Perm (sort (r.routing_table ++ [x]) ++ xs)
        ((r.routing_table ++ [x]) ++ xs) := List.Perm.append_right xs (hperm _)
    have h3 : (r.routing_table ++ [x]) ++ xs = r.routing_table ++ x :: xs := by
      simp
    rw [h3] at h2
    exact h.trans h2

/-- The table after a sequence of `add_route` calls is ordered by the
comparison, when it was before. -/
theorem Router.add_routes_sorted (sort : List RouteInfo → List RouteInfo)
    (hsorted : ∀ l, List.Pairwise (fun a b => compare_routes b a = false) (sort l))
    (routes : List RouteInfo) :
    ∀ r : Router, List.Pairwise (fun a b => compare_routes b a = false) r.routing_table →
      List.Pairwise (fun a b => compare_routes b a = false)
        (r.add_routes sort routes).routing_table := by
  induction routes with
  | nil => intro r h; exact h
  | cons x xs ih =>
    intro r _
    exact ih (r.add_route sort x.route_prefix x.prefix_length x.next_hop x.interface_num)
      (hsorted _)

/-- The loop over the routing table stops at the first matching route: the
table splits into routes that do not match, the route used, and the rest. -/
theorem Router.routeLoop_first (checksum : IPv4Header → Nat) (datagram : InternetDatagram) :
    ∀ table : List RouteInfo,
      ((∀ ri ∈ table, Router.is_matching_prefix datagram ri = false) ∧
        Router.routeLoop checksum table datagram = []) ∨
      (∃ pre ri post, table = pre ++ ri :: post ∧
        (∀ x ∈ pre, Router.is_matching_prefix datagram x = false) ∧
        Router.is_matching_prefix datagram ri = true ∧
        Router.routeLoop checksum table datagram
          = if datagram.header.ttl > 1 then [Router.process_datagram checksum datagram ri]
            else []) := by
  intro table
  induction table with
  | nil => left; exact ⟨fun ri h => absurd h (List.not_mem_nil ri), rfl⟩
  | cons x xs ih =>
    by_cases hx : Router.is_matching_prefix datagram x = true
    · right
      refine ⟨[], x, xs, rfl, fun y h => absurd h (List.not_mem_nil y), hx, ?_⟩
      simp only [Router.routeLoop, hx, if_true]
    · have hx0 : Router.is_matching_prefix datagram x = false := by
        simpa using hx
      have hstep : Router.routeLoop checksum (x :: xs) datagram
          = Router.routeLoop checksum xs datagram := by
        simp only [Router.routeLoop, hx0, Bool.false_eq_true, if_false]
      rcases ih with ⟨hnone, hnil⟩ | ⟨pre, ri, post, hsplit, hpre, hri, hloop⟩
      · left
        refine ⟨?_, by rw [hstep, hnil]⟩
        intro ri hmem
        rcases List.mem_cons.mp hmem with h | h
        · rw [h]; exact hx0
        · exact hnone ri h
      · right
        refine ⟨x :: pre, ri, post, by rw [hsplit]; rfl, ?_, hri, by rw [hstep, hloop]⟩
        intro y hmem
        rcases List.mem_cons.mp hmem with h | h
        · rw [h]; exact hx0
        · exact hpre y h

/-- In a table ordered by the comparison, no matching route has a longer
prefix than the first matching one. -/
theorem Router.first_match_longest (datagram : InternetDatagram) (pre post : List RouteInfo)
    (ri : RouteInfo)
    (hsorted : List.Pairwise (fun a b => compare_routes b a = false) (pre ++ ri :: post))
    (hpre : ∀ x ∈ pre, Router.is_matching_prefix datagram x = false) :
    ∀ x ∈ pre ++ ri :: post, Router.is_matching_prefix datagram x = true →
      x.prefix_length ≤ ri.prefix_length := by
  intro x hmem hx
  rcases List.mem_append.mp hmem with h | h
  · rw [hpre x h] at hx; exact absurd hx (by decide)
  · rcases List.mem_cons.mp h with h1 | h1
    · rw [h1]
    · have hp := (List.pairwise_append.mp hsorted).2.1
      have hc := (List.pairwise_cons.mp hp).1 x h1
      simp only [compare_routes, decide_eq_false_iff_not, gt_iff_lt, Nat.not_lt] at hc
      exact hc

/-- With fuel beyond the length of the queue the loop over the received
datagrams ends by finding the queue empty, after the table was walked for
every datagram of the queue in turn. -/
theorem Router.drain_eq (checksum : IPv4Header → Nat) (table : List RouteInfo) :
    ∀ (fuel : Nat) (a : AsyncNetworkInterface), a.datagrams_in.length < fuel →
      Router.drain checksum table fuel a
        = (a.datagrams_in.flatMap (Router.routeLoop checksum table),
           { a with datagrams_in := [] }) := by
  intro fuel
  induction fuel with
  | zero => intro a h; exact absurd h (Nat.not_lt_zero _)
  | succ n ih =>
    intro a h
    obtain ⟨q⟩ := a
    cases q with
    | nil => rfl
    | cons d rest =>
      have hlt : rest.length < n := by
        simp only [List.length_cons] at h
        omega
      have h1 := ih { datagrams_in := rest } hlt
      simp only [Router.drain, AsyncNetworkInterface.maybe_receive, h1, List.flatMap_cons]

/-- The calls made by `route()` are those made for each received datagram,
interface by interface and in the order of arrival; afterwards the queues
are empty. -/
theorem Router.route_eq (checksum : IPv4Header → Nat) (r : Router) :
    (r.route checksum).1
      = r.interfaces_.flatMap
          (fun a => a.datagrams_in.flatMap (Router.routeLoop checksum r.routing_table)) ∧
    (r.route checksum).2
      = { r with interfaces_ := r.interfaces_.map (fun a => { a with datagrams_in := [] }) } := by
  have h : ∀ a : AsyncNetworkInterface,
      Router.drain checksum r.routing_table (a.datagrams_in.length + 1) a
        = (a.datagrams_in.flatMap (Router.routeLoop checksum r.routing_table),
           { a with datagrams_in := [] }) :=
    fun a => Router.drain_eq checksum r.routing_table _ a (Nat.lt_succ_self _)
  simp only [Router.route, h, List.map_map, Function.comp_def]
  refine ⟨?_, trivial⟩
  induction r.interfaces_ with
  | nil => rfl
  | cons a rest ih => simp only [List.map_cons, List.flatten_cons, List.flatMap_cons, ih]

theorem Router.insertion_sort_perm (l : List RouteInfo) :
    List.Perm (Router.insertion_sort l) l :=
  List.perm_insertionSort _ l

theorem Router.insertion_sort_sorted (l : List RouteInfo) :
    List.Pairwise (fun a b => compare_routes b a = false) (Router.insertion_sort l) := by
  have htotal : IsTotal RouteInfo (fun a b => a.prefix_length ≥ b.prefix_length) :=
    ⟨fun a b => Nat.le_total b.prefix_length a.prefix_length⟩
  have htrans : IsTrans RouteInfo (fun a b => a.prefix_length ≥ b.prefix_length) :=
    ⟨fun _ _ _ hab hbc => Nat.le_trans hbc hab⟩
  have h : List.Pairwise (fun a b : RouteInfo => a.prefix_length ≥ b.prefix_length)
      (Router.insertion_sort l) :=
    List.sorted_insertionSort (fun a b : RouteInfo => a.prefix_length ≥ b.prefix_length) l
  refine h.imp ?_
  intro a b hab
  simp only [compare_routes, decide_eq_false_iff_not, gt_iff_lt, Nat.not_lt]
  exact hab

/-- C22: longest-prefix match.  The routing table is built from an empty one
by any sequence of `add_route` calls with prefix lengths from 0 to 32, the
sorting function being any that returns a permutation ordered by
`compare_routes`.  The calls made by `route()` are those of the walk through
the table, made for each received datagram in turn.  For a datagram with
`ttl > 1` the walk either forwards it by exactly one route, which was added,
matches the destination (`prefix_length = 0`, or
`dst & (0xFFFFFFFF << (32 - prefix_length)) = route_prefix`) and has a prefix
at least as long as every added route that matches; or no added route
matches and no `send_datagram` call is made. -/
theorem Router.route_longest_prefix (sort : List RouteInfo → List RouteInfo)
    (hperm : ∀ l, List.Perm (sort l) l)
    (hsorted : ∀ l, List.Pairwise (fun a b => compare_routes b a = false) (sort l))
    (checksum : IPv4Header → Nat) (interfaces : List AsyncNetworkInterface)
    (routes : List RouteInfo) (hlen : ∀ ri ∈ routes, ri.prefix_length ≤ 32)
    (datagram : InternetDatagram) (httl : datagram.header.ttl > 1) :
    ((Router.add_routes sort { interfaces_ := interfaces, routing_table := [] }
        routes).route checksum).1
      = interfaces.flatMap (fun a => a.datagrams_in.flatMap
          (Router.routeLoop checksum
            (Router.add_routes sort { interfaces_ := interfaces, routing_table := [] }
              routes).routing_table)) ∧
    ((∃ ri, ri ∈ routes ∧ ri.prefix_length ≤ 32 ∧
        Router.routeLoop checksum
            (Router.add_routes sort { interfaces_ := interfaces, routing_table := [] }
              routes).routing_table datagram
          = [Router.process_datagram checksum datagram ri] ∧
        (ri.prefix_length = 0 ∨
          datagram.header.dst &&& ((0xFFFFFFFF <<< (32 - ri.prefix_length)) % 2 ^ 32)
            = ri.route_prefix) ∧
        ∀ x ∈ routes,
          (x.prefix_length = 0 ∨
            datagram.header.dst &&& ((0xFFFFFFFF <<< (32 - x.prefix_length)) % 2 ^ 32)
              = x.route_prefix) →
          x.prefix_length ≤ ri.prefix_length) ∨
     ((∀ x ∈ routes,
          ¬ (x.prefix_length = 0 ∨
            datagram.header.dst &&& ((0xFFFFFFFF <<< (32 - x.prefix_length)) % 2 ^ 32)
              = x.route_prefix)) ∧
        Router.routeLoop checksum
            (Router.add_routes sort { interfaces_ := interfaces, routing_table := [] }
              routes).routing_table datagram = [])) := by
  have hp := Router.add_routes_perm sort hperm routes
    { interfaces_ := interfaces, routing_table := [] }
  have hs := Router.add_routes_sorted sort hsorted routes
    { interfaces_ := interfaces, routing_table := [] } List.Pairwise.nil
  have hi := Router.add_routes_interfaces sort routes
    { interfaces_ := interfaces, routing_table := [] }
  have hr := (Router.route_eq checksum
    (Router.add_routes sort { interfaces_ := interfaces, routing_table := [] } routes)).1
  rw [hi] at hr
  refine ⟨hr, ?_⟩
  generalize (Router.add_routes sort { interfaces_ := interfaces, routing_table := [] }
    routes).routing_table = table at hp hs
  simp only [List.nil_append] at hp
  have hmem : ∀ x, x ∈ table ↔ x ∈ routes := fun x => hp.mem_iff
  rcases Router.routeLoop_first checksum datagram table with
    ⟨hnone, hnil⟩ | ⟨pre, ri, post, hsplit, hpre, hri, hloop⟩
  · right
    refine ⟨?_, hnil⟩
    intro x hx hm
    have h1 := hnone x ((hmem x).mpr hx)
    rw [(Router.is_matching_prefix_iff datagram x).mpr hm] at h1
    exact absurd h1 (by decide)
  · left
    have hin : ri ∈ table := by
      rw [hsplit]; exact List.mem_append_right _ (List.mem_cons_self _ _)
    refine ⟨ri, (hmem ri).mp hin, hlen ri ((hmem ri).mp hin), ?_,
      (Router.is_matching_prefix_iff datagram ri).mp hri, ?_⟩
    · rw [hloop, if_pos httl]
    · intro x hx hm
      rw [hsplit] at hs
      refine Router.first_match_longest datagram pre post ri hs hpre x ?_
        ((Router.is_matching_prefix_iff datagram x).mpr hm)
      rw [← hsplit]
      exact (hmem x).mpr hx

theorem Router.route_longest_prefix_witness :
    ((Router.add_routes Router.insertion_sort
        { interfaces_ := [{ datagrams_in :=
            [{ header := { src := 1, dst := 168428807, ttl := 2, cksum := 0 },
               payload := [] }] }, { datagrams_in := [] }],
          routing_table := [] }
        [{ route_prefix := 167772160, prefix_length := 8, next_hop := none,
           interface_num := 0 },
         { route_prefix := 168427520, prefix_length := 16, next_hop := none,
           interface_num := 1 }]).route (fun _ => 0)).1
      = [{ interface_num := 1,
           datagram := { header := { src := 1, dst := 168428807, ttl := 1, cksum := 0 },
                         payload := [] },
           next_hop := 168428807 }] :=
  (Router.route_longest_prefix Router.insertion_sort Router.insertion_sort_perm
    Router.insertion_sort_sorted (fun _ => 0)
    [{ datagrams_in :=
        [{ header := { src := 1, dst := 168428807, ttl := 2, cksum := 0 }, payload := [] }] },
     { datagrams_in := [] }]
    [{ route_prefix := 167772160, prefix_length := 8, next_hop := none, interface_num := 0 },
     { route_prefix := 168427520, prefix_length := 16, next_hop := none, interface_num := 1 }]
    (by decide)
    { header := { src := 1, dst := 168428807, ttl := 2, cksum := 0 }, payload := [] }
    (by decide)).1.trans (by decide)

/-- C23: TTL handling.  The calls made by `route()` are those of the walk
through the table, made for each received datagram in turn.  For a datagram
(its `ttl` an 8-bit number) whose destination matches some route: with
`ttl ≤ 1` the walk makes no `send_datagram` call; with `ttl > 1` it makes
exactly one, on the interface of the first matching route of the table, with
the datagram changed only in `ttl`, which is one less, and in the checksum,
computed over the header with the new `ttl`, and with the next hop of the
route when it has one and the destination of the datagram otherwise. -/
theorem Router.route_ttl (checksum : IPv4Header → Nat) (r : Router)
    (datagram : InternetDatagram) (httl : datagram.header.ttl < 256)
    (hmatch : ∃ x ∈ r.routing_table, Router.is_matching_prefix datagram x = true) :
    (r.route checksum).1
      = r.interfaces_.flatMap
          (fun a => a.datagrams_in.flatMap (Router.routeLoop checksum r.routing_table)) ∧
    (datagram.header.ttl ≤ 1 → Router.routeLoop checksum r.routing_table datagram = []) ∧
    (datagram.header.ttl > 1 →
      ∃ pre ri post, r.routing_table = pre ++ ri :: post ∧
        (∀ x ∈ pre, Router.is_matching_prefix datagram x = false) ∧
        Router.is_matching_prefix datagram ri = true ∧
        Router.routeLoop checksum r.routing_table datagram
          = [{ interface_num := ri.interface_num,
               datagram :=
                 { datagram with
                   header :=
                     { datagram.header with
                       ttl := datagram.header.ttl - 1,
                       cksum := checksum
                         { datagram.header with ttl := datagram.header.ttl - 1 } } },
               next_hop := ri.next_hop.getD datagram.header.dst }]) := by
  refine ⟨(Router.route_eq checksum r).1, ?_, ?_⟩
  · intro hle
    rcases Router.routeLoop_first checksum datagram r.routing_table with
      ⟨_, hnil⟩ | ⟨pre, ri, post, _, _, _, hloop⟩
    · exact hnil
    · rw [hloop, if_neg (by omega)]
  · intro hgt
    rcases Router.routeLoop_first checksum datagram r.routing_table with
      ⟨hnone, _⟩ | ⟨pre, ri, post, hsplit, hpre, hri, hloop⟩
    · obtain ⟨x, hx, hm⟩ := hmatch
      rw [hnone x hx] at hm
      exact absurd hm (by decide)
    · refine ⟨pre, ri, post, hsplit, hpre, hri, ?_⟩
      rw [hloop, if_pos hgt]
      have httl1 : (datagram.header.ttl + 255) % 256 = datagram.header.ttl - 1 := by omega
      cases hn : ri.next_hop with
      | none => simp only [Router.process_datagram, Router.compute_checksum, hn, httl1,
          Option.getD_none]
      | some n => simp only [Router.process_datagram, Router.compute_checksum, hn, httl1,
          Option.getD_some]

theorem Router.route_ttl_witness :
    Router.routeLoop (fun header => header.ttl + 7)
        [{ route_prefix := 168427520, prefix_length := 16, next_hop := some 99,
           interface_num := 1 },
         { route_prefix := 0, prefix_length := 0, next_hop := none, interface_num := 0 }]
        { header := { src := 1, dst := 168428807, ttl := 1, cksum := 0 }, payload := [5] }
      = [] ∧
    Router.routeLoop (fun header => header.ttl + 7)
        [{ route_prefix := 168427520, prefix_length := 16, next_hop := some 99,
           interface_num := 1 },
         { route_prefix := 0, prefix_length := 0, next_hop := none, interface_num := 0 }]
        { header := { src := 1, dst := 3, ttl := 64, cksum := 0 }, payload := [5] }
      = [{ interface_num := 0,
           datagram := { header := { src := 1, dst := 3, ttl := 63, cksum := 70 },
                         payload := [5] },
           next_hop := 3 }] :=
  ⟨(Router.route_ttl (fun header => header.ttl + 7)
      { interfaces_ := [],
        routing_table :=
          [{ route_prefix := 168427520, prefix_length := 16, next_hop := some 99,
             interface_num := 1 },
           { route_prefix := 0, prefix_length := 0, next_hop := none, interface_num := 0 }] }
      { header := { src := 1, dst := 168428807, ttl := 1, cksum := 0 }, payload := [5] }
      (by decide)
      ⟨{ route_prefix := 168427520, prefix_length := 16, next_hop := some 99,
         interface_num := 1 }, by decide, by decide⟩).2.1 (by decide),
   by decide⟩

/-! ## TCPSender: the queue read by `maybe_send` -/

/-- C24 fails when the queue read by `maybe_send` is not empty.  A sender
with ISN 0 and timeout 1000 is told a window of 10, pushes "a" (segment SYN +
"a", sequence number 0) and then "b" (sequence number 2), and the first
segment is taken by `maybe_send`: the oldest unacknowledged segment is the
first one and the queue holds the second.  After `tick(1000)` the next
`maybe_send` returns the second segment, not the oldest unacknowledged one,
which comes after it. -/
theorem TCPSender.tick_requeues_behind :
    ((((TCPSender.new 1000 ⟨0⟩).receive { ackno := none, window_size := 10 }).push
        ((ByteStream.new 64).push ['a'])).bind
      (fun p => (p.1.push (p.2.push ['b'])).map
        (fun q => (q.1.maybe_send.2.elapsed_time, q.1.maybe_send.2.alarm)))
      = some (0, 1000)) ∧
    ((((TCPSender.new 1000 ⟨0⟩).receive { ackno := none, window_size := 10 }).push
        ((ByteStream.new 64).push ['a'])).bind
      (fun p => (p.1.push (p.2.push ['b'])).map
        (fun q => (q.1.maybe_send.2.sent_segs.head?, q.1.maybe_send.2.outstanding_segs,
          (q.1.maybe_send.2.tick 1000).maybe_send.1,
          (q.1.maybe_send.2.tick 1000).maybe_send.2.outstanding_segs)))
      = some (some { seqno := ⟨0⟩, SYN := true, payload := ['a'], FIN := false },
          [{ seqno := ⟨2⟩, SYN := false, payload := ['b'], FIN := false }],
          some { seqno := ⟨2⟩, SYN := false, payload := ['b'], FIN := false },
          [{ seqno := ⟨0⟩, SYN := true, payload := ['a'], FIN := false }])) ∧
    ((((TCPSender.new 1000 ⟨0⟩).receive { ackno := none, window_size := 10 }).push
        ((ByteStream.new 64).push ['a'])).bind
      (fun p => (p.1.push (p.2.push ['b'])).map
        (fun q => (q.1.maybe_send.2.tick 1000).maybe_send.1))
      ≠ some (some { seqno := ⟨0⟩, SYN := true, payload := ['a'], FIN := false })) := by
  decide

/-- C24, amended: with an unacknowledged segment, when the time since the
last alarm reaches the timeout, `tick` puts the oldest unacknowledged segment
at the back of the queue read by `maybe_send`.  The next `maybe_send` returns
the segment that was at the front of the queue, leaving the others followed
by the oldest unacknowledged segment; with an empty queue it returns the
oldest unacknowledged segment and leaves the queue empty.  The sum
`elapsed + delta` is assumed not to overflow. -/
theorem TCPSender.tick_requeues_at_back (s : TCPSender) (delta : Nat)
    (front : TCPSenderMessage) (rest : List TCPSenderMessage)
    (hsent : s.sent_segs = front :: rest)
    (hsum : s.elapsed_time + delta < 2 ^ 64)
    (hge : s.alarm ≤ s.elapsed_time + delta) :
    (s.tick delta).outstanding_segs = s.outstanding_segs ++ [front] ∧
    (∀ m q, s.outstanding_segs = m :: q →
      (s.tick delta).maybe_send.1 = some m ∧
      (s.tick delta).maybe_send.2.outstanding_segs = q ++ [front]) ∧
    (s.outstanding_segs = [] →
      (s.tick delta).maybe_send.1 = some front ∧
      (s.tick delta).maybe_send.2.outstanding_segs = []) := by
  have hadd : add64 s.elapsed_time delta = s.elapsed_time + delta := add64_of_lt hsum
  have hq : (s.tick delta).outstanding_segs = s.outstanding_segs ++ [front] := by
    by_cases hw : 0 < s.window
    · simp only [TCPSender.tick, hadd, ge_iff_le, hge, if_true, gt_iff_lt, hw, hsent]
    · simp only [TCPSender.tick, hadd, ge_iff_le, hge, if_true, gt_iff_lt, hw, if_false,
        hsent]
  refine ⟨hq, ?_, ?_⟩
  · intro m q hmq
    rw [hmq] at hq
    simp only [TCPSender.maybe_send, hq, List.cons_append]
    exact ⟨trivial, trivial⟩
  · intro hnil
    rw [hnil] at hq
    simp only [TCPSender.maybe_send, hq, List.nil_append]
    exact ⟨trivial, trivial⟩

theorem TCPSender.tick_requeues_at_back_witness :
    ({ TCPSender.new 1000 ⟨12⟩ with
        zero_point := ⟨10⟩, syn_set := true, elapsed_time := 400,
        sent_segs := [{ seqno := ⟨10⟩, SYN := true, payload := ['a'], FIN := false },
                      { seqno := ⟨12⟩, SYN := false, payload := ['b'], FIN := false }],
        outstanding_segs :=
          [{ seqno := ⟨12⟩, SYN := false, payload := ['b'], FIN := false }]
      } : TCPSender).alarm ≤ 400 + 600 ∧
    (({ TCPSender.new 1000 ⟨12⟩ with
        zero_point := ⟨10⟩, syn_set := true, elapsed_time := 400,
        sent_segs := [{ seqno := ⟨10⟩, SYN := true, payload := ['a'], FIN := false },
                      { seqno := ⟨12⟩, SYN := false, payload := ['b'], FIN := false }],
        outstanding_segs :=
          [{ seqno := ⟨12⟩, SYN := false, payload := ['b'], FIN := false }]
      } : TCPSender).tick 600).outstanding_segs
      = [{ seqno := ⟨12⟩, SYN := false, payload := ['b'], FIN := false },
         { seqno := ⟨10⟩, SYN := true, payload := ['a'], FIN := false }] :=
  ⟨by decide,
   (TCPSender.tick_requeues_at_back
    { TCPSender.new 1000 ⟨12⟩ with
        zero_point := ⟨10⟩, syn_set := true, elapsed_time := 400,
        sent_segs := [{ seqno := ⟨10⟩, SYN := true, payload := ['a'], FIN := false },
                      { seqno := ⟨12⟩, SYN := false, payload := ['b'], FIN := false }],
        outstanding_segs :=
          [{ seqno := ⟨12⟩, SYN := false, payload := ['b'], FIN := false }] }
    600 { seqno := ⟨10⟩, SYN := true, payload := ['a'], FIN := false }
    [{ seqno := ⟨12⟩, SYN := false, payload := ['b'], FIN := false }]
    rfl (by decide) (by decide)).1⟩

/-- C25 fails: a sender with ISN 0 is told a window of 10, pushes "a"
(segment SYN + "a", sequence numbers 0 and 1) and then "b" (sequence number
2), and `maybe_send` takes the first segment; the queue holds the second,
which has not been returned yet.  `receive` of the acknowledgment 2 retires
the first segment and takes the second one off the queue: the queue is
empty, `maybe_send` returns nothing, and the second segment is still
unacknowledged. -/
theorem TCPSender.receive_drops_unsent :
    (((TCPSender.new 1000 ⟨0⟩).receive { ackno := none, window_size := 10 }).push
        ((ByteStream.new 64).push ['a'])).bind
      (fun p => (p.1.push (p.2.push ['b'])).map
        (fun q => (q.1.maybe_send.1, q.1.maybe_send.2.outstanding_segs,
          (q.1.maybe_send.2.receive { ackno := some ⟨2⟩, window_size := 10 }).outstanding_segs,
          (q.1.maybe_send.2.receive { ackno := some ⟨2⟩, window_size := 10 }).maybe_send.1,
          (q.1.maybe_send.2.receive { ackno := some ⟨2⟩, window_size := 10 }).sent_segs)))
      = some (some { seqno := ⟨0⟩, SYN := true, payload := ['a'], FIN := false },
          [{ seqno := ⟨2⟩, SYN := false, payload := ['b'], FIN := false }],
          [], none,
          [{ seqno := ⟨2⟩, SYN := false, payload := ['b'], FIN := false }]) := by
  decide

/-! ## Reassembler: the indices read by `insert` -/

theorem Reassembler.scanReads_all_filled (size : Nat) :
    ∀ (k i : Nat), i + k = size →
      size ∈ Reassembler.scanReads size (List.replicate k true) i := by
  intro k
  induction k with
  | zero =>
    intro i h
    simp only [Nat.add_zero] at h
    simp only [List.replicate_zero, Reassembler.scanReads, h, List.mem_singleton]
  | succ n ih =>
    intro i h
    have hlt : i < size := by omega
    simp only [List.replicate_succ, Reassembler.scanReads, if_pos hlt, List.mem_cons]
    right
    exact ih (i + 1) (by omega)

/-- The collecting loop reads `filled` at the indices 0 to `p`, where `p` is
the number of bytes it collects: one read for every byte collected and one
more, on which the loop ends. -/
theorem Reassembler.scanReads_eq :
    ∀ (filled : List Bool) (bytes : List Char) (i : Nat), filled.length = bytes.length →
      Reassembler.scanReads (i + bytes.length) filled i
        = List.range' i ((Reassembler.package filled bytes).length + 1) := by
  intro filled
  induction filled with
  | nil =>
    intro bytes i _
    simp only [Reassembler.scanReads, Reassembler.package, List.length_nil, Nat.zero_add,
      List.range'_one]
  | cons f fs ih =>
    intro bytes i hlen
    cases bytes with
    | nil => simp only [List.length_cons, List.length_nil] at hlen; omega
    | cons b bs =>
      have hl : fs.length = bs.length := by
        simp only [List.length_cons] at hlen; omega
      cases f with
      | false =>
        simp only [Reassembler.scanReads, Reassembler.package, List.length_nil, Nat.zero_add,
          List.range'_one]
      | true =>
        have hlt : i < i + (bs.length + 1) := by omega
        have hsize : i + (bs.length + 1) = (i + 1) + bs.length := by omega
        have h1 := ih bs (i + 1) hl
        simp only [Reassembler.scanReads, if_pos hlt, Reassembler.package, List.length_cons]
        rw [hsize, h1]
        rfl

/-- The bytes that `insert` pushes for a fragment it accepts are collected
from the vectors `stored` describes. -/
theorem Reassembler.insert_pushes_stored (r : Reassembler) (first_index : Nat)
    (data : List Char) (is_last : Bool) (w : ByteStream)
    (h : ¬ (data.length = 0 ∨ first_index ≥ add64 w.bytes_pushed w.available_capacity)) :
    (r.insert first_index data is_last w).2.buffer_
      = (w.push (Reassembler.package (r.stored first_index data w).filled
          (r.stored first_index data w).bytes)).buffer_ := by
  rw [Reassembler.insert_accept r first_index data is_last w h]
  rfl

/-- The copy loop tests the bound before it indexes: every index it uses is
below the size of the vectors. -/
theorem Reassembler.storeAccesses_in_range (internal_first size : Nat) :
    ∀ (data : List Char) (i : Nat),
      ∀ j ∈ Reassembler.storeAccesses internal_first size i data, j < size := by
  intro data
  induction data with
  | nil => intro i j h; exact absurd h (List.not_mem_nil j)
  | cons c rest ih =>
    intro i j h
    unfold Reassembler.storeAccesses at h
    by_cases hge : add64 internal_first i ≥ size
    · rw [if_pos hge] at h
      exact ih (i + 1) j h
    · rw [if_neg hge] at h
      rcases List.mem_cons.mp h with h1 | h1
      · rw [h1]; omega
      · exact ih (i + 1) j h1

/-- C26 fails in the collecting loop, whose condition `filled[i] && i <
bytes.size()` reads `filled[i]` before it tests the bound.  A new reassembler
with a stream of capacity 4 gets `insert(0, "ab", false)`: the fragment is
accepted, the copy loop uses the indices 0 and 1 of vectors of size 2, and
the collecting loop reads `filled` at 0, 1 and 2.  With a full stream
(capacity 2, "ab" pushed) `insert(1, "bc", false)` is accepted with empty
vectors and the loop reads `filled[0]`.  In general the loop reads `filled`
at every index from 0 to the number of bytes it collects, so whenever all
`n` slots are filled it reads `filled[n]`. -/
theorem Reassembler.scan_reads_past_end :
    (¬ (['a', 'b'].length = 0 ∨
        0 ≥ add64 (ByteStream.new 4).bytes_pushed (ByteStream.new 4).available_capacity) ∧
      (Reassembler.new.stored 0 ['a', 'b'] (ByteStream.new 4)).filled = [true, true] ∧
      (Reassembler.new.stored 0 ['a', 'b'] (ByteStream.new 4)).bytes.length = 2 ∧
      Reassembler.storeAccesses (sub64 0 (ByteStream.new 4).bytes_pushed) 2 0 ['a', 'b']
        = [0, 1] ∧
      Reassembler.scanReads 2
        (Reassembler.new.stored 0 ['a', 'b'] (ByteStream.new 4)).filled 0 = [0, 1, 2]) ∧
    (¬ (['b', 'c'].length = 0 ∨
        1 ≥ add64 ((ByteStream.new 2).push ['a', 'b']).bytes_pushed
          ((ByteStream.new 2).push ['a', 'b']).available_capacity) ∧
      (Reassembler.new.stored 1 ['b', 'c'] ((ByteStream.new 2).push ['a', 'b'])).filled = [] ∧
      (Reassembler.new.stored 1 ['b', 'c'] ((ByteStream.new 2).push ['a', 'b'])).bytes = [] ∧
      Reassembler.scanReads 0
        (Reassembler.new.stored 1 ['b', 'c'] ((ByteStream.new 2).push ['a', 'b'])).filled 0
        = [0]) ∧
    (∀ (filled : List Bool) (bytes : List Char), filled.length = bytes.length →
      Reassembler.scanReads bytes.length filled 0
        = List.range ((Reassembler.package filled bytes).length + 1)) ∧
    (∀ n, n ∈ Reassembler.scanReads n (List.replicate n true) 0) := by
  refine ⟨by decide, by decide, ?_, ?_⟩
  · intro filled bytes hlen
    have h := Reassembler.scanReads_eq filled bytes 0 hlen
    rw [Nat.zero_add] at h
    rw [h, List.range_eq_range']
  · intro n
    exact Reassembler.scanReads_all_filled n n 0 (Nat.zero_add n)

end TcpStack
